import Mathlib

/-! # Shipwright build: TaskRun generation

A shallow embedding of `pkg/reconciler/buildrun/resources/taskrun.go` and of the
package `pkg/reconciler/buildrun/resources/sources` (namespace `sources`).

Conventions of the embedding:

* Go strings are Lean `String`s; `strings.HasPrefix`, `strings.Join` and
  `strings.ReplaceAll` are modelled on the character lists.
* A Go `map[string]string` is an association list `GoMap`; a well-formed map has
  pairwise distinct keys (`GoMap.WF`).  `m[k] = v` is `GoMap.set`, a lookup is
  `GoMap.get`.
* A Go pointer that may be `nil` is an `Option`.  The field `Type` of a Tekton
  parameter is `Type_`.
* A Go function returning `(*T, error)` returns a pair `Option T × Option String`:
  the first component is the pointer (`none` = `nil`), the second the error
  (`none` = `nil`, `some msg` = an error whose `Error()` is `msg`).
* Functions, constants and methods of the repository that `taskrun.go` calls but that
  live in other files (`env.MergeEnvVars`, `overrideParams`, `IsSystemReservedParameter`,
  `AmendTaskSpecWithSources`, the API-group domain constants, ...) are fields of the
  structure `Externals`; the embedded functions take it as their first argument.
-/

set_option linter.dupNamespace false

namespace Shipwright

/-! ## Go library functions -/

/-- Go `strings.HasPrefix s pre`. -/
def HasPrefix (s pre : String) : Bool :=
  pre.data.isPrefixOf s.data

/-- Go `strings.Join elems sep`. -/
def Join (elems : List String) (sep : String) : String :=
  sep.intercalate elems

/-- Go `strings.Contains s substr`. -/
def Contains (s substr : String) : Bool :=
  s.data.tails.any (fun t => substr.data.isPrefixOf t)

/-- Worker of `ReplaceAll`: `skip` counts the characters of a matched occurrence of `old`
that are still to be dropped. -/
def replaceAllAux (old new : List Char) : Nat → List Char → List Char
  | _, [] => []
  | skip + 1, _ :: cs => replaceAllAux old new skip cs
  | 0, c :: cs =>
    if old.isPrefixOf (c :: cs) then new ++ replaceAllAux old new (old.length - 1) cs
    else c :: replaceAllAux old new 0 cs

/-- Go `strings.ReplaceAll s old new` for a non-empty `old` (all call sites pass a
non-empty token): the non-overlapping occurrences of `old` are replaced from left to
right. -/
def ReplaceAll (s old new : String) : String :=
  ⟨replaceAllAux old.data new.data 0 s.data⟩

/-- Split a character list at every `/`. -/
def splitSlash : List Char → List (List Char)
  | [] => [[]]
  | c :: cs =>
    match splitSlash cs with
    | [] => [[c]]
    | w :: ws => if c = '/' then [] :: w :: ws else (c :: w) :: ws

/-- One element of a path processed by `path.Clean`; `stack` holds the kept elements,
innermost first. -/
def cleanStep (rooted : Bool) (stack : List (List Char)) (elem : List Char) :
    List (List Char) :=
  if elem = [] ∨ elem = ['.'] then stack
  else if elem = ['.', '.'] then
    match stack with
    | [] => if rooted then [] else [elem]
    | top :: rest => if top = ['.', '.'] then elem :: top :: rest else rest
  else elem :: stack

/-- Go `path.Clean`. -/
def pathClean (p : String) : String :=
  let rooted := HasPrefix p "/"
  let stack := (splitSlash p.data).foldl (cleanStep rooted) []
  let body := String.intercalate "/" (stack.reverse.map String.mk)
  let out := (if rooted then "/" else "") ++ body
  if out = "" then "." else out

/-- Go `path.Join`: the non-empty elements joined by `/`, then cleaned; the empty
string when every element is empty. -/
def pathJoin (elem : List String) : String :=
  match elem.filter (fun e => e ≠ "") with
  | [] => ""
  | es => pathClean (String.intercalate "/" es)

/-- Go `strconv.FormatInt i 10`. -/
def FormatInt (i : Int) : String :=
  toString i

/-! ## Go maps -/

/-- A Go `map[string]string`. -/
abbrev GoMap := List (String × String)

/-- Lookup `m[k]`; `none` when the key is absent. -/
def GoMap.get (m : GoMap) (k : String) : Option String :=
  match m with
  | [] => none
  | (k', v) :: rest => if k' = k then some v else GoMap.get rest k

/-- Assignment `m[k] = v`: the value of an existing key is replaced, a new key is added. -/
def GoMap.set (m : GoMap) (k v : String) : GoMap :=
  match m with
  | [] => [(k, v)]
  | (k', v') :: rest => if k' = k then (k, v) :: rest else (k', v') :: GoMap.set rest k v

/-- A well-formed map binds every key once. -/
def GoMap.WF (m : GoMap) : Prop :=
  (m.map Prod.fst).Nodup

instance (m : GoMap) : Decidable (GoMap.WF m) := by
  unfold GoMap.WF; infer_instance

/-! ## Data model (the fields the generator reads or writes) -/

/-- Kubernetes `metav1.Duration`, in nanoseconds. -/
abbrev Duration := Int

/-- Kubernetes `corev1.EnvVar`. -/
structure EnvVar where
  Name : String
  Value : String
  deriving DecidableEq, Repr

/-- Kubernetes `corev1.VolumeMount`. -/
structure VolumeMount where
  Name : String
  MountPath : String
  ReadOnly : Bool
  deriving DecidableEq, Repr

/-- Kubernetes `corev1.SecurityContext`. -/
structure SecurityContext where
  RunAsUser : Option Int
  RunAsGroup : Option Int
  deriving DecidableEq, Repr

/-- Kubernetes `corev1.Container`; `Resources` is carried through uninterpreted. -/
structure Container where
  Name : String
  Image : String
  Command : List String
  Args : List String
  WorkingDir : String
  Env : List EnvVar
  Resources : String
  VolumeMounts : List VolumeMount
  ImagePullPolicy : String
  SecurityContext : Option SecurityContext
  deriving DecidableEq, Repr

/-- A step of a build strategy (`buildv1alpha1.BuildStep` embeds a container). -/
structure BuildStep extends Container
  deriving DecidableEq, Repr

/-- A parameter declared by a build strategy (`buildv1alpha1.Parameter`). -/
structure Parameter where
  Name : String
  Description : String
  Default : Option String
  deriving DecidableEq, Repr

/-- A parameter value given by a Build or BuildRun (`buildv1alpha1.ParamValue`). -/
structure ParamValue where
  Name : String
  Value : String
  deriving DecidableEq, Repr

/-- An image reference with its metadata (`buildv1alpha1.Image`). -/
structure Image where
  Image : String
  Credentials : Option String
  Annotations : GoMap
  Labels : GoMap
  deriving DecidableEq, Repr

/-- The bundle image of a source (`buildv1alpha1.BundleContainer`). -/
structure BundleContainer where
  Image : String
  Prune : Option String
  deriving DecidableEq, Repr

/-- The source of a Build (`buildv1alpha1.Source`). -/
structure Source where
  URL : Option String
  BundleContainer : Option BundleContainer
  Credentials : Option String
  Revision : Option String
  ContextDir : Option String
  deriving DecidableEq, Repr

/-- The spec of a Build (`buildv1alpha1.BuildSpec`). -/
structure BuildSpec where
  Source : Source
  Strategy : String
  Builder : Option Image
  Dockerfile : Option String
  ParamValues : List ParamValue
  Output : Image
  Timeout : Option Duration
  Env : List EnvVar
  deriving DecidableEq, Repr

/-- A Build (the template). -/
structure Build where
  Name : String
  Namespace : String
  Generation : Int
  Spec : BuildSpec
  deriving DecidableEq, Repr

/-- The spec of a BuildRun (`buildv1alpha1.BuildRunSpec`). -/
structure BuildRunSpec where
  ParamValues : List ParamValue
  Output : Option Image
  Timeout : Option Duration
  Env : List EnvVar
  deriving DecidableEq, Repr

/-- The git part of a source result (`buildv1alpha1.GitSourceResult`). -/
structure GitSourceResult where
  CommitSha : String
  CommitAuthor : String
  BranchName : String
  deriving DecidableEq, Repr

/-- The bundle part of a source result (`buildv1alpha1.BundleSourceResult`). -/
structure BundleSourceResult where
  Digest : String
  deriving DecidableEq, Repr

/-- The result of one source (`buildv1alpha1.SourceResult`). -/
structure SourceResult where
  Name : String
  Git : Option GitSourceResult
  Bundle : Option BundleSourceResult
  deriving DecidableEq, Repr

/-- The status of a BuildRun: the recorded source results. -/
structure BuildRunStatus where
  Sources : List SourceResult
  deriving DecidableEq, Repr

/-- A BuildRun (the run). -/
structure BuildRun where
  Name : String
  Namespace : String
  Generation : Int
  Spec : BuildRunSpec
  Status : BuildRunStatus
  deriving DecidableEq, Repr

/-- The interface `buildv1alpha1.BuilderStrategy`, as the record of what its getters
return. -/
structure BuilderStrategy where
  GetAnnotations : GoMap
  GetResourceLabels : GoMap
  GetBuildSteps : List BuildStep
  GetParameters : List Parameter
  deriving DecidableEq, Repr

/-- Tekton `v1beta1.ArrayOrString` (only string values are produced). -/
structure ArrayOrString where
  Type_ : String
  StringVal : String
  deriving DecidableEq, Repr

/-- Tekton `v1beta1.ParamSpec`. -/
structure ParamSpec where
  Name : String
  Type_ : String
  Description : String
  Default : Option ArrayOrString
  deriving DecidableEq, Repr

/-- Tekton `v1beta1.Param`. -/
structure Param where
  Name : String
  Value : ArrayOrString
  deriving DecidableEq, Repr

/-- Tekton `v1beta1.TaskResult`. -/
structure TaskResult where
  Name : String
  Description : String
  deriving DecidableEq, Repr

/-- Tekton `v1beta1.WorkspaceDeclaration`. -/
structure WorkspaceDeclaration where
  Name : String
  deriving DecidableEq, Repr

/-- Kubernetes `corev1.SecretVolumeSource`. -/
structure SecretVolumeSource where
  SecretName : String
  DefaultMode : Option Int
  deriving DecidableEq, Repr

/-- Kubernetes `corev1.Volume` (an empty volume source or a secret). -/
structure Volume where
  Name : String
  Secret : Option SecretVolumeSource
  deriving DecidableEq, Repr

/-- Tekton `v1beta1.Step` (embeds a container). -/
structure Step extends Container
  deriving DecidableEq, Repr

/-- Tekton `v1beta1.TaskSpec`. -/
structure TaskSpec where
  Params : List ParamSpec
  Steps : List Step
  Volumes : List Volume
  Workspaces : List WorkspaceDeclaration
  Results : List TaskResult
  deriving DecidableEq, Repr

/-- Tekton `v1beta1.WorkspaceBinding`; `EmptyDir` tells whether an empty-dir volume
source is set. -/
structure WorkspaceBinding where
  Name : String
  EmptyDir : Bool
  deriving DecidableEq, Repr

/-- Tekton `v1beta1.TaskRunSpec`. -/
structure TaskRunSpec where
  Params : List Param
  ServiceAccountName : String
  TaskSpec : Option TaskSpec
  Timeout : Option Duration
  Workspaces : List WorkspaceBinding
  deriving DecidableEq, Repr

/-- Tekton `v1beta1.TaskRun`: the object metadata the generator sets, and the spec.
`Annotations` is `none` for a nil map. -/
structure TaskRun where
  GenerateName : String
  Namespace : String
  Labels : GoMap
  Annotations : Option GoMap
  Spec : TaskRunSpec
  deriving DecidableEq, Repr

/-- The controller configuration (`config.Config`): the fields read by the generator
and the source steps. -/
structure Config where
  GitContainerTemplate : Step
  BundleContainerTemplate : Step
  GitRewriteRule : Bool
  deriving DecidableEq, Repr

/-- What `taskrun.go` uses from the rest of the repository and does not define itself. -/
structure Externals where
  /-- The constant `buildv1alpha1.ClusterBuildStrategyDomain`. -/
  ClusterBuildStrategyDomain : String
  /-- The constant `buildv1alpha1.BuildStrategyDomain`. -/
  BuildStrategyDomain : String
  /-- The constant `buildv1alpha1.BuildDomain`. -/
  BuildDomain : String
  /-- The constant `buildv1alpha1.BuildRunDomain`. -/
  BuildRunDomain : String
  /-- The constant `buildv1alpha1.LabelBuild`. -/
  LabelBuild : String
  /-- The constant `buildv1alpha1.LabelBuildGeneration`. -/
  LabelBuildGeneration : String
  /-- The constant `buildv1alpha1.LabelBuildRun`. -/
  LabelBuildRun : String
  /-- The constant `buildv1alpha1.LabelBuildRunGeneration`. -/
  LabelBuildRunGeneration : String
  /-- The function `env.MergeEnvVars new into overwriteValues`, returning `([]EnvVar, error)`. -/
  MergeEnvVars : List EnvVar → List EnvVar → Bool → List EnvVar × Option String
  /-- The function `overrideParams originalParams overrideParams`. -/
  overrideParams : List ParamValue → List ParamValue → List ParamValue
  /-- The function `IsSystemReservedParameter param`. -/
  IsSystemReservedParameter : String → Bool
  /-- The function `getTaskSpecResults()`. -/
  getTaskSpecResults : List TaskResult
  /-- The function `AmendTaskSpecWithSources cfg taskSpec build`, as the amended task spec. -/
  AmendTaskSpecWithSources : Config → TaskSpec → Build → TaskSpec
  /-- The function `amendTaskSpecWithImageMutate cfg taskSpec buildOutput`, as the amended task spec. -/
  amendTaskSpecWithImageMutate : Config → TaskSpec → Image → TaskSpec
  /-- The method `BuildSpec.StrategyName()`. -/
  StrategyName : BuildSpec → String
  /-- The `%q` verb of `fmt` (a Go-quoted string). -/
  quote : String → String

/-! ## Constants of `taskrun.go` -/

def prefixParamsResultsVolumes : String := "shp"

def paramOutputImage : String := "output-image"
def paramSourceRoot : String := "source-root"
def paramSourceContext : String := "source-context"

def workspaceSource : String := "source"

def inputParamBuilder : String := "BUILDER_IMAGE"
def inputParamDockerfile : String := "DOCKERFILE"
def inputParamContextDir : String := "CONTEXT_DIR"

def imageMutateContainerName : String := "mutate-image"

/-- Tekton `v1beta1.ParamTypeString` (and the equal `taskv1.ParamTypeString`). -/
def ParamTypeString : String := "string"

/-- The annotation that `kubectl apply` maintains. -/
def lastAppliedConfiguration : String := "kubectl.kubernetes.io/last-applied-configuration"

/-! ## `taskrun.go` -/

/-- The replacement table of `getStringTransformations`, in the order in which the
source lists it. -/
def stringTransformations : List (String × String) :=
  [ ("$(build.output.image)",
      "$(params." ++ prefixParamsResultsVolumes ++ "-" ++ paramOutputImage ++ ")"),
    ("$(build.builder.image)", "$(inputs.params." ++ inputParamBuilder ++ ")"),
    ("$(build.dockerfile)", "$(inputs.params." ++ inputParamDockerfile ++ ")"),
    ("$(build.source.contextDir)", "$(inputs.params." ++ inputParamContextDir ++ ")") ]

/-- The loop of `getStringTransformations` over a table given in some iteration order. -/
def applyStringTransformations (table : List (String × String)) (fullText : String) :
    String :=
  table.foldl (fun text kv => ReplaceAll text kv.1 kv.2) fullText

/-- The function `getStringTransformations`: the text run through all replacements (Go leaves the
iteration order of the table open; the embedding takes the order of the source text). -/
def getStringTransformations (fullText : String) : String :=
  applyStringTransformations stringTransformations fullText

/-- The parameters every generated task spec declares first. -/
def builtinParams : List ParamSpec :=
  [ { Description := "Path to the Dockerfile",
      Name := inputParamDockerfile,
      Type_ := "",
      Default := some { Type_ := ParamTypeString, StringVal := "Dockerfile" } },
    { Description := "The root of the code",
      Name := inputParamContextDir,
      Type_ := "",
      Default := some { Type_ := ParamTypeString, StringVal := "." } },
    { Name := prefixParamsResultsVolumes ++ "-" ++ paramOutputImage,
      Description := "The URL of the image that the build produces",
      Type_ := ParamTypeString,
      Default := none },
    { Name := prefixParamsResultsVolumes ++ "-" ++ paramSourceContext,
      Description := "The context directory inside the source directory",
      Type_ := ParamTypeString,
      Default := none },
    { Name := prefixParamsResultsVolumes ++ "-" ++ paramSourceRoot,
      Description := "The source directory",
      Type_ := ParamTypeString,
      Default := none } ]

/-- The entry that `GenerateTaskSpec` registers for one strategy parameter. -/
def strategyParamSpec (p : Parameter) : ParamSpec :=
  { Name := p.Name,
    Description := p.Description,
    Type_ := "",
    Default := p.Default.map (fun d => { Type_ := ParamTypeString, StringVal := d }) }

/-- The inner loops over the volume mounts of one strategy step: a volume is appended
for every mount whose name is not yet among the task's volumes. -/
def addStepVolumes (volumes : List Volume) (mounts : List VolumeMount) : List Volume :=
  mounts.foldl
    (fun vols volumeInBuildStrategy =>
      if vols.any (fun volumeInTask => volumeInTask.Name = volumeInBuildStrategy.Name)
      then vols
      else vols ++ [{ Name := volumeInBuildStrategy.Name, Secret := none }])
    volumes

/-- The task step compiled from one strategy step and its merged environment. -/
def compileStep (containerValue : BuildStep) (stepEnv : List EnvVar) : Step :=
  { Image := getStringTransformations containerValue.Image,
    ImagePullPolicy := containerValue.ImagePullPolicy,
    Name := containerValue.Name,
    VolumeMounts := containerValue.VolumeMounts,
    Command := containerValue.Command.map getStringTransformations,
    Args := containerValue.Args.map getStringTransformations,
    SecurityContext := containerValue.SecurityContext,
    WorkingDir := containerValue.WorkingDir,
    Resources := containerValue.Resources,
    Env := stepEnv }

/-- The loop of `GenerateTaskSpec` over the steps of the build strategy.  It stops at
the first step whose environment cannot be merged and returns the task spec as it is
at that point together with the error. -/
def compileSteps (x : Externals) (build : Build) (combinedEnvs : List EnvVar) :
    List BuildStep → TaskSpec → TaskSpec × Option String
  | [], generatedTaskSpec => (generatedTaskSpec, none)
  | containerValue :: rest, generatedTaskSpec =>
    match x.MergeEnvVars combinedEnvs containerValue.Env false with
    | (_, some err) =>
      (generatedTaskSpec,
        some ("error(s) occurred merging environment variables into BuildStrategy "
          ++ x.quote (x.StrategyName build.Spec) ++ " steps: " ++ err))
    | (stepEnv, none) =>
      compileSteps x build combinedEnvs rest
        { generatedTaskSpec with
          Steps := generatedTaskSpec.Steps ++ [compileStep containerValue stepEnv],
          Volumes := addStepVolumes generatedTaskSpec.Volumes containerValue.VolumeMounts }

/-- The first part of `GenerateTaskSpec`: the task spec with the declared parameters
(built-in, builder image, strategy parameters), the source workspace, the results and
what `AmendTaskSpecWithSources` adds for the sources, before the strategy steps. -/
def declareTaskSpec (x : Externals) (cfg : Config) (build : Build)
    (strategyParams : List Parameter) : TaskSpec :=
  let spec0 : TaskSpec :=
    { Params := builtinParams,
      Workspaces := [{ Name := workspaceSource }],
      Steps := [],
      Volumes := [],
      Results := x.getTaskSpecResults }
  let spec1 : TaskSpec :=
    match build.Spec.Builder with
    | some builder =>
      { spec0 with
        Params := spec0.Params ++
          [{ Description := "Image containing the build tools/logic",
             Name := inputParamBuilder,
             Type_ := "",
             Default := some { Type_ := ParamTypeString, StringVal := builder.Image } }] }
    | none => spec0
  let spec2 := x.AmendTaskSpecWithSources cfg spec1 build
  { spec2 with Params := spec2.Params ++ strategyParams.map strategyParamSpec }

/-- The last part of `GenerateTaskSpec`: the image mutate step is amended if the output
of the Build has annotations or labels. -/
def amendImageMutate (x : Externals) (cfg : Config) (build : Build)
    (generatedTaskSpec : TaskSpec) : TaskSpec :=
  if build.Spec.Output.Annotations.length > 0 ∨ build.Spec.Output.Labels.length > 0 then
    x.amendTaskSpecWithImageMutate cfg generatedTaskSpec build.Spec.Output
  else generatedTaskSpec

/-- The function `GenerateTaskSpec` creates the Tekton task spec to be used for a build run. -/
def GenerateTaskSpec (x : Externals) (cfg : Config) (build : Build) (buildRun : BuildRun)
    (buildSteps : List BuildStep) (strategyParams : List Parameter) :
    Option TaskSpec × Option String :=
  match x.MergeEnvVars buildRun.Spec.Env build.Spec.Env true with
  | (_, some err) => (none, some err)
  | (combinedEnvs, none) =>
    match compileSteps x build combinedEnvs buildSteps
        (declareTaskSpec x cfg build strategyParams) with
    | (generatedTaskSpec, some err) => (some generatedTaskSpec, some err)
    | (generatedTaskSpec, none) => (some (amendImageMutate x cfg build generatedTaskSpec), none)

/-- The function `effectiveTimeout`: the timeout of the BuildRun, else that of the Build, else nil. -/
def effectiveTimeout (build : Build) (buildRun : BuildRun) : Option Duration :=
  if buildRun.Spec.Timeout ≠ none then buildRun.Spec.Timeout
  else if build.Spec.Timeout ≠ none then build.Spec.Timeout
  else none

/-- The function `isPropagatableAnnotation` filters the last-applied-configuration annotation of
kubectl and the annotations that use one of the custom resource domains. -/
def isPropagatableAnnotation (x : Externals) (key : String) : Bool :=
  key ≠ lastAppliedConfiguration &&
    !HasPrefix key (x.ClusterBuildStrategyDomain ++ "/") &&
    !HasPrefix key (x.BuildStrategyDomain ++ "/") &&
    !HasPrefix key (x.BuildDomain ++ "/") &&
    !HasPrefix key (x.BuildRunDomain ++ "/")

/-- A string parameter of the task run. -/
def stringParam (name value : String) : Param :=
  { Name := name, Value := { Type_ := ParamTypeString, StringVal := value } }

/-- The parameters `GenerateTaskRun` sets before the user parameters are appended. -/
def systemParams (build : Build) (image : String) : List Param :=
  [ stringParam (prefixParamsResultsVolumes ++ "-" ++ paramOutputImage) image,
    stringParam (prefixParamsResultsVolumes ++ "-" ++ paramSourceRoot) "/workspace/source" ]
  ++ (match build.Spec.Builder with
      | some builder => [stringParam inputParamBuilder builder.Image]
      | none => [])
  ++ (match build.Spec.Dockerfile with
      | some dockerfile => [stringParam inputParamDockerfile dockerfile]
      | none => [])
  ++ (match build.Spec.Source.ContextDir with
      | some contextDir =>
        [ stringParam inputParamContextDir contextDir,
          stringParam (prefixParamsResultsVolumes ++ "-" ++ paramSourceContext)
            (pathJoin ["/workspace/source", contextDir]) ]
      | none =>
        [ stringParam (prefixParamsResultsVolumes ++ "-" ++ paramSourceContext)
            "/workspace/source" ])

/-- The value of an annotation of an object whose annotation map may be nil (a lookup
in a nil map finds nothing). -/
def annotationValue (annotations : Option GoMap) (key : String) : Option String :=
  match annotations with
  | none => none
  | some m => m.get key

/-- The annotations of the build strategy that are propagated, collected into a fresh
map in the iteration order of the strategy's map. -/
def propagatedAnnotations (x : Externals) (annotations : GoMap) : GoMap :=
  annotations.foldl
    (fun taskRunAnnotations kv =>
      if isPropagatableAnnotation x kv.1 then GoMap.set taskRunAnnotations kv.1 kv.2
      else taskRunAnnotations)
    []

/-- The loop of `GenerateTaskRun` over the merged user parameters: the state is the list
`undesiredParams` of the names that collide with system reserved names, and the
parameter list of the task run, to which every user parameter is appended. -/
def userParamsLoop (x : Externals) (buildUserParams : List ParamValue)
    (start : List String × List Param) : List String × List Param :=
  buildUserParams.foldl
    (fun st p =>
      ((if x.IsSystemReservedParameter p.Name then st.1 ++ [p.Name] else st.1),
        st.2 ++ [stringParam p.Name p.Value]))
    start

/-- The loop labelled `StrategyParametersLoop`: the names of the strategy parameters
without default that no user parameter names. -/
def strategyParametersLoop (strategyParams : List Parameter)
    (buildUserParams : List ParamValue) : List String :=
  strategyParams.foldl
    (fun paramsWithoutValues strategyParam =>
      if strategyParam.Default = none then
        if buildUserParams.any (fun p => strategyParam.Name = p.Name) then paramsWithoutValues
        else paramsWithoutValues ++ [strategyParam.Name]
      else paramsWithoutValues)
    []

/-- The function `GenerateTaskRun` creates the Tekton TaskRun to be used for a build run. -/
def GenerateTaskRun (x : Externals) (cfg : Config) (build : Build) (buildRun : BuildRun)
    (serviceAccountName : String) (strategy : BuilderStrategy) :
    Option TaskRun × Option String :=
  let image :=
    match buildRun.Spec.Output with
    | some output => output.Image
    | none => build.Spec.Output.Image
  match GenerateTaskSpec x cfg build buildRun strategy.GetBuildSteps strategy.GetParameters with
  | (_, some err) => (none, some err)
  | (taskSpec, none) =>
    let labels : GoMap :=
      GoMap.set
        (GoMap.set
          (GoMap.set (GoMap.set [] x.LabelBuild build.Name)
            x.LabelBuildGeneration (FormatInt build.Generation))
          x.LabelBuildRun buildRun.Name)
        x.LabelBuildRunGeneration (FormatInt buildRun.Generation)
    let taskRunAnnotations := propagatedAnnotations x strategy.GetAnnotations
    let buildUserParams := x.overrideParams build.Spec.ParamValues buildRun.Spec.ParamValues
    let loop := userParamsLoop x buildUserParams ([], systemParams build image)
    let undesiredParams := loop.1
    let paramsWithoutValues := strategyParametersLoop strategy.GetParameters buildUserParams
    let expectedTaskRun : TaskRun :=
      { GenerateName := buildRun.Name ++ "-",
        Namespace := buildRun.Namespace,
        Labels := strategy.GetResourceLabels.foldl (fun ls kv => GoMap.set ls kv.1 kv.2) labels,
        Annotations := if taskRunAnnotations.length > 0 then some taskRunAnnotations else none,
        Spec :=
          { ServiceAccountName := serviceAccountName,
            TaskSpec := taskSpec,
            Workspaces := [{ Name := workspaceSource, EmptyDir := true }],
            Timeout := effectiveTimeout build buildRun,
            Params := loop.2 } }
    if undesiredParams.length > 0 then
      (none, some ("restricted parameters in use: " ++ Join undesiredParams ","))
    else if paramsWithoutValues.length > 0 then
      (none, some ("parameters without a value definition: " ++ Join paramsWithoutValues ","))
    else (some expectedTaskRun, none)

/-! ## Parts of the repository outside `taskrun.go`, modelled from the specification -/

/-- The message of the environment conflict error for a variable name. -/
def environmentConflict (name : String) : String :=
  "EnvironmentConflict: " ++ name

/-- One entry `n` of the higher layer merged into the list built so far; `lower` is the
lower layer, against whose names a collision is detected. -/
def mergeEnvVar (overwriteValues : Bool) (lower : List EnvVar)
    (acc : List EnvVar × Option String) (n : EnvVar) : List EnvVar × Option String :=
  match acc with
  | (merged, some err) => (merged, some err)
  | (merged, none) =>
    if lower.any (fun e => e.Name = n.Name) then
      if overwriteValues then (merged.map (fun e => if e.Name = n.Name then n else e), none)
      else (merged, some (environmentConflict n.Name))
    else (merged ++ [n], none)

/-- Modelled from the spec: `env.MergeEnvVars` of package `pkg/env`, which is not among
the sources.  The layer `into` has the lower precedence, the layer `new` the higher
one.  In override mode (`overwriteValues`) an entry of `new` replaces the same-named
entry of `into` in place, so the order of first occurrence is kept; in reject mode a
name of `new` that collides with a name of `into` fails with the conflict error naming
it.  An entry of `new` with a name that `into` does not have is appended. -/
def MergeEnvVars (new into : List EnvVar) (overwriteValues : Bool) :
    List EnvVar × Option String :=
  new.foldl (mergeEnvVar overwriteValues into) (into, none)

/-- Modelled from the spec: `overrideParams`, which is not among the sources.  A
run-level value overrides the same-named template-level value; a run-level value
whose name the template does not mention is ignored. -/
def overrideParams (originalParams overrides : List ParamValue) : List ParamValue :=
  originalParams.map
    (fun p =>
      match overrides.find? (fun o => o.Name = p.Name) with
      | some o => o
      | none => p)

/-- Modelled from the spec: `IsSystemReservedParameter`, which is not among the sources.
Reserved are the names the compiler injects itself: those with the prefix `shp-` and
the three input parameters. -/
def IsSystemReservedParameter (param : String) : Bool :=
  HasPrefix param (prefixParamsResultsVolumes ++ "-") ||
    param = inputParamBuilder || param = inputParamDockerfile || param = inputParamContextDir

/-- The externals `x` with the environment merger of the specification. -/
def Externals.withSpecMerge (x : Externals) : Externals :=
  { x with MergeEnvVars := Shipwright.MergeEnvVars }

/-! ## Sample inputs -/

/-- A sample instance of the externals: the four reserved API-group domains (cluster
strategy, namespaced strategy, build, build run) and the label keys with the values of
the Shipwright API groups; the environment merger, parameter override and
reserved-name test modelled from the specification; sources and image mutation that
amend nothing; and a quotation in double quotes. -/
def sampleExternals : Externals :=
  { ClusterBuildStrategyDomain := "clusterbuildstrategy.shipwright.io",
    BuildStrategyDomain := "buildstrategy.shipwright.io",
    BuildDomain := "build.shipwright.io",
    BuildRunDomain := "buildrun.shipwright.io",
    LabelBuild := "build.shipwright.io/name",
    LabelBuildGeneration := "build.shipwright.io/generation",
    LabelBuildRun := "buildrun.shipwright.io/name",
    LabelBuildRunGeneration := "buildrun.shipwright.io/generation",
    MergeEnvVars := MergeEnvVars,
    overrideParams := overrideParams,
    IsSystemReservedParameter := IsSystemReservedParameter,
    getTaskSpecResults := [],
    AmendTaskSpecWithSources := fun _ taskSpec _ => taskSpec,
    amendTaskSpecWithImageMutate := fun _ taskSpec _ => taskSpec,
    StrategyName := fun spec => spec.Strategy,
    quote := fun s => "\"" ++ s ++ "\"" }

/-- A container without any setting. -/
def emptyContainer : Container :=
  { Name := "", Image := "", Command := [], Args := [], WorkingDir := "", Env := [],
    Resources := "", VolumeMounts := [], ImagePullPolicy := "", SecurityContext := none }

/-- A configuration with empty step templates. -/
def sampleConfig : Config :=
  { GitContainerTemplate := { toContainer := emptyContainer },
    BundleContainerTemplate := { toContainer := emptyContainer },
    GitRewriteRule := false }

/-- An image reference without metadata. -/
def imageRef (image : String) : Image :=
  { Image := image, Credentials := none, Annotations := [], Labels := [] }

/-- A Build with the given parameter values, environment and timeout. -/
def sampleBuild (paramValues : List ParamValue) (env : List EnvVar)
    (timeout : Option Duration) : Build :=
  { Name := "build", Namespace := "ns", Generation := 1,
    Spec :=
      { Source :=
          { URL := some "https://github.com/shipwright-io/sample-go",
            BundleContainer := none, Credentials := none, Revision := none,
            ContextDir := none },
        Strategy := "buildah", Builder := none, Dockerfile := none,
        ParamValues := paramValues, Output := imageRef "registry/build-image",
        Timeout := timeout, Env := env } }

/-- A BuildRun with the given parameter values, environment, output and timeout. -/
def sampleBuildRun (paramValues : List ParamValue) (env : List EnvVar)
    (output : Option Image) (timeout : Option Duration) : BuildRun :=
  { Name := "run", Namespace := "ns", Generation := 1,
    Spec := { ParamValues := paramValues, Output := output, Timeout := timeout, Env := env },
    Status := { Sources := [] } }

/-- A strategy step with the given name and environment. -/
def sampleStep (name : String) (env : List EnvVar) : BuildStep :=
  { toContainer := { emptyContainer with Name := name, Image := "$(build.builder.image)", Env := env } }

/-- A strategy with the given annotations, steps and parameters. -/
def sampleStrategy (annotations : GoMap) (steps : List BuildStep)
    (parameters : List Parameter) : BuilderStrategy :=
  { GetAnnotations := annotations, GetResourceLabels := [],
    GetBuildSteps := steps, GetParameters := parameters }

/-! ## Package `sources`: `utils.go`, `git.go`, `bundle.go` -/

/-- Go `unicode.IsSpace`: the white space characters of Unicode. -/
def isSpace (c : Char) : Bool :=
  [9, 10, 11, 12, 13, 32, 0x85, 0xA0, 0x1680, 0x2028, 0x2029, 0x202F, 0x205F, 0x3000].contains
      c.toNat ||
    (0x2000 ≤ c.toNat && c.toNat ≤ 0x200A)

/-- Go `strings.TrimSpace`: the string without its leading and trailing white space. -/
def TrimSpace (s : String) : String :=
  ⟨((s.data.dropWhile isSpace).reverse.dropWhile isSpace).reverse⟩

/-- Tekton `v1beta1.TaskRunResult`: one reported result of a task run. -/
structure TaskRunResult where
  Name : String
  Value : String
  deriving DecidableEq, Repr

namespace sources

/-- What the files of package `sources` use from the rest of the repository and do not
define themselves. -/
structure Externals where
  /-- The function `findResultValue results name`. -/
  findResultValue : List TaskRunResult → String → String
  /-- The function `SanitizeVolumeNameForSecretName secretName`. -/
  SanitizeVolumeNameForSecretName : String → String
  /-- The security context that `steps.UpdateSecurityContext step buildStrategySteps`
  leaves on the step. -/
  resolveSecurityContext : Step → List BuildStep → Option SecurityContext
  /-- The constant `build.PruneAfterPull`. -/
  PruneAfterPull : String

def prefixParamsResultsVolumes : String := "shp-"

def paramSourceRoot : String := "source-root"

/-- The mode of a mounted secret, octal `0444`. -/
def secretMountMode : Option Int := some 0o444

def commitSHAResult : String := "commit-sha"
def commitAuthorResult : String := "commit-author"
def branchName : String := "branch-name"

/-- The format `"%s-source-%s-%s"` of `fmt.Sprintf`, applied to three strings. -/
def sprintfSourceSlot (a b c : String) : String :=
  a ++ "-source-" ++ b ++ "-" ++ c

/-- The format `"%s-source-%s-image-digest"` of `fmt.Sprintf`, applied to two strings. -/
def sprintfSourceImageDigest (a b : String) : String :=
  a ++ "-source-" ++ b ++ "-image-digest"

/-- Modelled from the spec: `steps.UpdateSecurityContext` of package `steps`, which is not
among the sources.  It updates the security context of the step with the run-as user
and group resolved from the steps of the build strategy and leaves the rest of the step
as it is; the resolved security context is a field of the externals. -/
def UpdateSecurityContext (x : Externals) (step : Step) (buildStrategySteps : List BuildStep) :
    Step :=
  { step with SecurityContext := x.resolveSecurityContext step buildStrategySteps }

/-- The function `AppendSecretVolume` checks if a volume for a secret already exists, if
not it appends it to the task spec. -/
def AppendSecretVolume (taskSpec : TaskSpec) (secretName : String) : TaskSpec :=
  let volumeName := prefixParamsResultsVolumes ++ secretName
  if taskSpec.Volumes.any (fun volume => volume.Secret ≠ none ∧ volume.Name = volumeName) then
    taskSpec
  else
    { taskSpec with
      Volumes := taskSpec.Volumes ++
        [{ Name := volumeName,
           Secret := some { SecretName := secretName, DefaultMode := secretMountMode } }] }

/-- The environment variables `SHP_USER` and `SHP_GROUP` that `AppendGitStep` appends for
the run-as user and group of the security context of the step. -/
def runAsEnv (securityContext : Option SecurityContext) : List EnvVar :=
  match securityContext with
  | none => []
  | some sc =>
    (match sc.RunAsUser with
      | some user => [{ Name := "SHP_USER", Value := FormatInt user }]
      | none => []) ++
    (match sc.RunAsGroup with
      | some group => [{ Name := "SHP_GROUP", Value := FormatInt group }]
      | none => [])

/-- The function `AppendGitStep` appends the Git step and results and volume if needed to
the task spec.  The result is `none` when the URL of the source is nil, which the
function dereferences. -/
def AppendGitStep (x : Externals) (cfg : Config) (taskSpec : TaskSpec) (source : Source)
    (buildStrategySteps : List BuildStep) (name : String) : Option TaskSpec :=
  let taskSpec1 : TaskSpec :=
    { taskSpec with
      Results := taskSpec.Results ++
        [ { Name := sprintfSourceSlot prefixParamsResultsVolumes name commitSHAResult,
            Description := "The commit SHA of the cloned source." },
          { Name := sprintfSourceSlot prefixParamsResultsVolumes name commitAuthorResult,
            Description := "The author of the last commit of the cloned source." },
          { Name := sprintfSourceSlot prefixParamsResultsVolumes name branchName,
            Description := "The name of the branch used of the cloned source." } ] }
  match source.URL with
  | none => none
  | some url =>
    let gitStep0 : Step :=
      { cfg.GitContainerTemplate with
        Name := "source-" ++ name,
        Args :=
          [ "--url", url,
            "--target",
            "$(params." ++ prefixParamsResultsVolumes ++ "-" ++ paramSourceRoot ++ ")",
            "--result-file-commit-sha",
            "$(results." ++ sprintfSourceSlot prefixParamsResultsVolumes name commitSHAResult
              ++ ".path)",
            "--result-file-commit-author",
            "$(results." ++ sprintfSourceSlot prefixParamsResultsVolumes name commitAuthorResult
              ++ ".path)",
            "--result-file-branch-name",
            "$(results." ++ sprintfSourceSlot prefixParamsResultsVolumes name branchName
              ++ ".path)",
            "--result-file-error-message",
            "$(results." ++ prefixParamsResultsVolumes ++ "-error-message.path)",
            "--result-file-error-reason",
            "$(results." ++ prefixParamsResultsVolumes ++ "-error-reason.path)" ] }
    let gitStep1 : Step :=
      match source.Revision with
      | some revision => { gitStep0 with Args := gitStep0.Args ++ ["--revision", revision] }
      | none => gitStep0
    let gitStep2 : Step :=
      if cfg.GitRewriteRule then { gitStep1 with Args := gitStep1.Args ++ ["--git-url-rewrite"] }
      else gitStep1
    let secretMountPath := "/workspace/" ++ prefixParamsResultsVolumes ++ "-source-secret"
    let taskSpec2 : TaskSpec :=
      match source.Credentials with
      | some credentials => AppendSecretVolume taskSpec1 credentials
      | none => taskSpec1
    let gitStep3 : Step :=
      match source.Credentials with
      | some credentials =>
        { gitStep2 with
          VolumeMounts := gitStep2.VolumeMounts ++
            [{ Name := x.SanitizeVolumeNameForSecretName credentials,
               MountPath := secretMountPath,
               ReadOnly := true }],
          Args := gitStep2.Args ++ ["--secret-path", secretMountPath] }
      | none => gitStep2
    let gitStep4 := UpdateSecurityContext x gitStep3 buildStrategySteps
    let gitStep5 : Step := { gitStep4 with Env := gitStep4.Env ++ runAsEnv gitStep4.SecurityContext }
    some { taskSpec2 with Steps := taskSpec2.Steps ++ [gitStep5] }

/-- The args that the git step of `AppendGitStep` ends up with, as one list: the fixed
arguments, then the revision, the URL rewrite flag and the secret path, each if
applicable. -/
def gitStepArgs (cfg : Config) (source : Source) (url name : String) : List String :=
  [ "--url", url,
    "--target",
    "$(params." ++ prefixParamsResultsVolumes ++ "-" ++ paramSourceRoot ++ ")",
    "--result-file-commit-sha",
    "$(results." ++ sprintfSourceSlot prefixParamsResultsVolumes name commitSHAResult
      ++ ".path)",
    "--result-file-commit-author",
    "$(results." ++ sprintfSourceSlot prefixParamsResultsVolumes name commitAuthorResult
      ++ ".path)",
    "--result-file-branch-name",
    "$(results." ++ sprintfSourceSlot prefixParamsResultsVolumes name branchName
      ++ ".path)",
    "--result-file-error-message",
    "$(results." ++ prefixParamsResultsVolumes ++ "-error-message.path)",
    "--result-file-error-reason",
    "$(results." ++ prefixParamsResultsVolumes ++ "-error-reason.path)" ] ++
  (match source.Revision with
    | some revision => ["--revision", revision]
    | none => []) ++
  (if cfg.GitRewriteRule then ["--git-url-rewrite"] else []) ++
  (match source.Credentials with
    | some _ => ["--secret-path", "/workspace/" ++ prefixParamsResultsVolumes ++ "-source-secret"]
    | none => [])

/-- The git step of `AppendGitStep` as it is before its security context is updated: the
step template with the name, the args and the volume mount of the secret. -/
def gitStepConfigured (x : Externals) (cfg : Config) (source : Source) (url name : String) :
    Step :=
  { cfg.GitContainerTemplate with
    Name := "source-" ++ name,
    Args := gitStepArgs cfg source url name,
    VolumeMounts :=
      match source.Credentials with
      | some credentials =>
        cfg.GitContainerTemplate.VolumeMounts ++
          [{ Name := x.SanitizeVolumeNameForSecretName credentials,
             MountPath := "/workspace/" ++ prefixParamsResultsVolumes ++ "-source-secret",
             ReadOnly := true }]
      | none => cfg.GitContainerTemplate.VolumeMounts }

/-- The last two statements on the git step: the security context is updated and the
run-as environment variables are appended. -/
def withRunAs (x : Externals) (step : Step) (buildStrategySteps : List BuildStep) : Step :=
  { UpdateSecurityContext x step buildStrategySteps with
    Env := (UpdateSecurityContext x step buildStrategySteps).Env ++
      runAsEnv (UpdateSecurityContext x step buildStrategySteps).SecurityContext }

/-- The function `AppendGitResult` appends the git source result to the build run. -/
def AppendGitResult (x : Externals) (buildRun : BuildRun) (name : String)
    (results : List TaskRunResult) : BuildRun :=
  let commitAuthor := x.findResultValue results
    (sprintfSourceSlot prefixParamsResultsVolumes name commitAuthorResult)
  let commitSha := x.findResultValue results
    (sprintfSourceSlot prefixParamsResultsVolumes name commitSHAResult)
  let branchName := x.findResultValue results
    (sprintfSourceSlot prefixParamsResultsVolumes name branchName)
  if TrimSpace commitAuthor ≠ "" ∨ TrimSpace commitSha ≠ "" ∨ TrimSpace branchName ≠ "" then
    { buildRun with
      Status :=
        { buildRun.Status with
          Sources := buildRun.Status.Sources ++
            [{ Name := name,
               Git := some
                 { CommitAuthor := commitAuthor, CommitSha := commitSha,
                   BranchName := branchName },
               Bundle := none }] } }
  else buildRun

/-- The function `AppendBundleStep` appends the bundle step to the task spec.  The result
is `none` when the bundle container of the source is nil, which the function
dereferences. -/
def AppendBundleStep (x : Externals) (cfg : Config) (taskSpec : TaskSpec) (source : Source)
    (buildStrategySteps : List BuildStep) (name : String) : Option TaskSpec :=
  let taskSpec1 : TaskSpec :=
    { taskSpec with
      Results := taskSpec.Results ++
        [ { Name := sprintfSourceImageDigest prefixParamsResultsVolumes name,
            Description := "The digest of the bundle image." } ] }
  match source.BundleContainer with
  | none => none
  | some bundleContainer =>
    let bundleStep0 : Step :=
      { cfg.BundleContainerTemplate with
        Name := "source-" ++ name,
        Args :=
          [ "--image", bundleContainer.Image,
            "--target",
            "$(params." ++ prefixParamsResultsVolumes ++ "-" ++ paramSourceRoot ++ ")",
            "--result-file-image-digest",
            "$(results." ++ sprintfSourceImageDigest prefixParamsResultsVolumes name
              ++ ".path)" ] }
    let secretMountPath := "/workspace/" ++ prefixParamsResultsVolumes ++ "-pull-secret"
    let taskSpec2 : TaskSpec :=
      match source.Credentials with
      | some credentials => AppendSecretVolume taskSpec1 credentials
      | none => taskSpec1
    let bundleStep1 : Step :=
      match source.Credentials with
      | some credentials =>
        { bundleStep0 with
          VolumeMounts := bundleStep0.VolumeMounts ++
            [{ Name := x.SanitizeVolumeNameForSecretName credentials,
               MountPath := secretMountPath,
               ReadOnly := true }],
          Args := bundleStep0.Args ++ ["--secret-path", secretMountPath] }
      | none => bundleStep0
    let bundleStep2 : Step :=
      if bundleContainer.Prune = some x.PruneAfterPull then
        { bundleStep1 with Args := bundleStep1.Args ++ ["--prune"] }
      else bundleStep1
    let bundleStep3 := UpdateSecurityContext x bundleStep2 buildStrategySteps
    some { taskSpec2 with Steps := taskSpec2.Steps ++ [bundleStep3] }

/-- The function `AppendBundleResult` appends the bundle source result to the build run. -/
def AppendBundleResult (x : Externals) (buildRun : BuildRun) (name : String)
    (results : List TaskRunResult) : BuildRun :=
  let imageDigest := x.findResultValue results
    (sprintfSourceImageDigest prefixParamsResultsVolumes name)
  if TrimSpace imageDigest ≠ "" then
    { buildRun with
      Status :=
        { buildRun.Status with
          Sources := buildRun.Status.Sources ++
            [{ Name := name, Git := none, Bundle := some { Digest := imageDigest } }] } }
  else buildRun

/-- Modelled from the spec: `findResultValue`, which is not among the sources.  It scans
the reported results for the key and gives the value of the first result of that name,
the empty string when there is none. -/
def findResultValue (results : List TaskRunResult) (name : String) : String :=
  match results.find? (fun result => result.Name = name) with
  | some result => result.Value
  | none => ""

/-- A sample instance of the externals of package `sources`: the result lookup modelled
from the specification, volume names with the prefix of `AppendSecretVolume`, a
security context resolution that keeps the one of the step, and `AfterPull` as the
prune option. -/
def sampleExternals : Externals :=
  { findResultValue := findResultValue,
    SanitizeVolumeNameForSecretName := fun secretName => prefixParamsResultsVolumes ++ secretName,
    resolveSecurityContext := fun step _ => step.SecurityContext,
    PruneAfterPull := "AfterPull" }

/-- A git source with the given revision and credentials. -/
def sampleGitSource (revision credentials : Option String) : Source :=
  { URL := some "https://github.com/shipwright-io/sample-go",
    BundleContainer := none, Credentials := credentials, Revision := revision,
    ContextDir := none }

/-- A task spec with the given volumes and nothing else. -/
def sampleTaskSpec (volumes : List Volume) : TaskSpec :=
  { Params := [], Steps := [], Volumes := volumes, Workspaces := [], Results := [] }

end sources

/-! ## Further parts of the repository modelled from the specification -/

/-- Modelled from the spec: `GetGeneratedServiceAccountName` of `service_accounts.go`, which
is not among the sources.  The name of the generated service account is derived from
the name of the build run; the test `should provide a generated sa name` expects it to
be the name of the build run itself. -/
def GetGeneratedServiceAccountName (buildRun : BuildRun) : String :=
  buildRun.Name

/-- Modelled from the spec: `amendTaskSpecWithImageMutate`, which is not among the sources.
It appends one additional step, the image mutate step, after the steps that the task
spec has; the step has the name `mutate-image` of the constant
`imageMutateContainerName`, and `mutateStep` gives the rest of it for the output of the
Build. -/
def amendTaskSpecWithImageMutate (mutateStep : Image → Step) (_cfg : Config)
    (taskSpec : TaskSpec) (buildOutput : Image) : TaskSpec :=
  { taskSpec with
    Steps := taskSpec.Steps ++
      [{ mutateStep buildOutput with Name := imageMutateContainerName }] }

/-- The externals `x` with the image mutate amendment of the specification. -/
def Externals.withSpecImageMutate (x : Externals) (mutateStep : Image → Step) : Externals :=
  { x with amendTaskSpecWithImageMutate := Shipwright.amendTaskSpecWithImageMutate mutateStep }

/-- A bundle source with the given image. -/
def sampleBundleSource (image : String) : Source :=
  { URL := none, BundleContainer := some { Image := image, Prune := none },
    Credentials := none, Revision := none, ContextDir := none }

/-- A strategy with one step, the given annotations and the given resource labels, both in
the given iteration order. -/
def sampleLabelledStrategy (annotations labels : GoMap) : BuilderStrategy :=
  { GetAnnotations := annotations, GetResourceLabels := labels,
    GetBuildSteps := [sampleStep "build" []], GetParameters := [] }

/-! ## Parsing of decimal numbers -/

/-- The value of a non-empty list of decimal digits; `none` for any other list. -/
def parseDigits (cs : List Char) : Option Nat :=
  if cs ≠ [] ∧ cs.all Char.isDigit = true then
    some (cs.foldl (fun n c => 10 * n + (c.toNat - '0'.toNat)) 0)
  else none

/-- Go `strconv.Atoi` for the strings whose value fits the integer type: an optional sign
followed by decimal digits; `none` stands for the syntax error. -/
def Atoi (s : String) : Option Int :=
  match s.data with
  | [] => none
  | c :: cs =>
    if c = '-' then (parseDigits cs).map (fun n : Nat => -(n : Int))
    else if c = '+' then (parseDigits cs).map (fun n : Nat => (n : Int))
    else (parseDigits (c :: cs)).map (fun n : Nat => (n : Int))

/-! ## The bundle step in normal form, and a sanitising volume name function -/

/-- The args that the bundle step of `AppendBundleStep` ends up with, as one list: the
fixed arguments, then the secret path and the prune flag, each if applicable. -/
def sources.bundleStepArgs (x : sources.Externals) (source : Source)
    (bundleContainer : BundleContainer) (name : String) : List String :=
  [ "--image", bundleContainer.Image,
    "--target",
    "$(params." ++ sources.prefixParamsResultsVolumes ++ "-" ++ sources.paramSourceRoot ++ ")",
    "--result-file-image-digest",
    "$(results." ++ sources.sprintfSourceImageDigest sources.prefixParamsResultsVolumes name
      ++ ".path)" ] ++
  (match source.Credentials with
    | some _ =>
      ["--secret-path", "/workspace/" ++ sources.prefixParamsResultsVolumes ++ "-pull-secret"]
    | none => []) ++
  (if bundleContainer.Prune = some x.PruneAfterPull then ["--prune"] else [])

/-- The bundle step of `AppendBundleStep` as it is before its security context is updated:
the step template with the name, the args and the volume mount of the secret. -/
def sources.bundleStepConfigured (x : sources.Externals) (cfg : Config) (source : Source)
    (bundleContainer : BundleContainer) (name : String) : Step :=
  { cfg.BundleContainerTemplate with
    Name := "source-" ++ name,
    Args := sources.bundleStepArgs x source bundleContainer name,
    VolumeMounts :=
      match source.Credentials with
      | some credentials =>
        cfg.BundleContainerTemplate.VolumeMounts ++
          [{ Name := x.SanitizeVolumeNameForSecretName credentials,
             MountPath := "/workspace/" ++ sources.prefixParamsResultsVolumes ++ "-pull-secret",
             ReadOnly := true }]
      | none => cfg.BundleContainerTemplate.VolumeMounts }

/-- A sample instance of the externals of package `sources` whose volume name function
sanitises: every character of the prefixed secret name other than a letter, a digit or
`-` becomes `-`, since a volume name may not contain it. -/
def sources.sanitizingExternals : sources.Externals :=
  { sources.sampleExternals with
    SanitizeVolumeNameForSecretName := fun secretName =>
      ⟨(sources.prefixParamsResultsVolumes ++ secretName).data.map
        (fun c => if c.isAlphanum ∨ c = '-' then c else '-')⟩ }

/-- A bundle source with the given credentials and prune option. -/
def sampleBundleSourceWith (credentials prune : Option String) : Source :=
  { URL := none,
    BundleContainer := some { Image := "registry/bundle:latest", Prune := prune },
    Credentials := credentials, Revision := none, ContextDir := none }

/-! ## Auxiliary tests on character lists, for the lemmas on `ReplaceAll` -/

/-- A character list shaped like the legacy tokens and their replacements: it starts with
`$` and has no other `$`. -/
def dollarHeaded (l : List Char) : Bool :=
  l.head? = some '$' && !l.tail.contains '$'

/-- Two character lists differ at an index that both have. -/
def differAt (a b : List Char) : Bool :=
  (List.zipWith (fun x y => x != y) a b).any id

/-- The character list `sub` occurs in the character list `t`. -/
def occursIn (sub t : List Char) : Bool :=
  t.tails.any (fun u => sub.isPrefixOf u)

/-! ## Lemmas on the loops of `GenerateTaskRun` -/

theorem userParamsLoop_eq (x : Externals) (ps : List ParamValue)
    (start : List String × List Param) :
    userParamsLoop x ps start =
      (start.1 ++ (ps.filter (fun p => x.IsSystemReservedParameter p.Name)).map
          (fun p => p.Name),
        start.2 ++ ps.map (fun p => stringParam p.Name p.Value)) := by
  induction ps generalizing start with
  | nil => simp [userParamsLoop]
  | cons p ps ih =>
    have h := ih ((if x.IsSystemReservedParameter p.Name then start.1 ++ [p.Name] else start.1),
      start.2 ++ [stringParam p.Name p.Value])
    simp only [userParamsLoop, List.foldl_cons] at h ⊢
    rw [h]
    by_cases hp : x.IsSystemReservedParameter p.Name = true <;>
      simp [hp, List.filter_cons]

theorem strategyParametersLoop_aux (ps : List ParamValue) (sps : List Parameter)
    (acc : List String) :
    sps.foldl
      (fun paramsWithoutValues strategyParam =>
        if strategyParam.Default = none then
          if ps.any (fun p => strategyParam.Name = p.Name) then paramsWithoutValues
          else paramsWithoutValues ++ [strategyParam.Name]
        else paramsWithoutValues) acc =
      acc ++ (sps.filter
        (fun sp => sp.Default = none ∧ ∀ p ∈ ps, p.Name ≠ sp.Name)).map (fun sp => sp.Name) := by
  induction sps generalizing acc with
  | nil => simp
  | cons sp sps ih =>
    simp only [List.foldl_cons]
    rw [ih]
    by_cases hd : sp.Default = none
    · by_cases hany : ps.any (fun p => sp.Name = p.Name) = true
      · have hex : ¬ ∀ p ∈ ps, p.Name ≠ sp.Name := by
          simp only [List.any_eq_true, decide_eq_true_eq] at hany
          obtain ⟨p, hp, he⟩ := hany
          intro hall
          exact hall p hp he.symm
        simp [hd, hany, List.filter_cons, hex]
      · have hall : ∀ p ∈ ps, p.Name ≠ sp.Name := by
          intro p hp he
          apply hany
          simp only [List.any_eq_true, decide_eq_true_eq]
          exact ⟨p, hp, he.symm⟩
        have hall2 : ∀ p ∈ ps, ¬ p.Name = sp.Name := hall
        simp only [hd, hany, List.filter_cons, if_true, if_false, true_and, ne_eq,
          decide_eq_true_eq, if_pos hall2, List.map_cons, List.append_assoc,
          List.singleton_append, Bool.false_eq_true]
    · simp [hd, List.filter_cons]

theorem strategyParametersLoop_eq (sps : List Parameter) (ps : List ParamValue) :
    strategyParametersLoop sps ps =
      (sps.filter
        (fun sp => sp.Default = none ∧ ∀ p ∈ ps, p.Name ≠ sp.Name)).map (fun sp => sp.Name) := by
  unfold strategyParametersLoop
  rw [strategyParametersLoop_aux]
  simp

/-! ## The outcomes of `GenerateTaskRun` -/

theorem GenerateTaskRun_spec_error (x : Externals) (cfg : Config) (build : Build)
    (buildRun : BuildRun) (sa : String) (strategy : BuilderStrategy) (err : String)
    (hspec : (GenerateTaskSpec x cfg build buildRun strategy.GetBuildSteps
      strategy.GetParameters).2 = some err) :
    GenerateTaskRun x cfg build buildRun sa strategy = (none, some err) := by
  unfold GenerateTaskRun
  rcases hts : GenerateTaskSpec x cfg build buildRun strategy.GetBuildSteps
    strategy.GetParameters with ⟨ts, e⟩
  rw [hts] at hspec
  simp only at hspec
  subst hspec
  rfl

theorem GenerateTaskRun_reserved (x : Externals) (cfg : Config) (build : Build)
    (buildRun : BuildRun) (sa : String) (strategy : BuilderStrategy)
    (hspec : (GenerateTaskSpec x cfg build buildRun strategy.GetBuildSteps
      strategy.GetParameters).2 = none)
    (hres : (x.overrideParams build.Spec.ParamValues buildRun.Spec.ParamValues).filter
      (fun p => x.IsSystemReservedParameter p.Name) ≠ []) :
    GenerateTaskRun x cfg build buildRun sa strategy =
      (none, some ("restricted parameters in use: " ++
        Join (((x.overrideParams build.Spec.ParamValues buildRun.Spec.ParamValues).filter
          (fun p => x.IsSystemReservedParameter p.Name)).map (fun p => p.Name)) ",")) := by
  unfold GenerateTaskRun
  rcases hts : GenerateTaskSpec x cfg build buildRun strategy.GetBuildSteps
    strategy.GetParameters with ⟨ts, e⟩
  rw [hts] at hspec
  simp only at hspec
  subst hspec
  simp only [userParamsLoop_eq, List.nil_append]
  rw [if_pos]
  simpa [List.length_pos] using hres

theorem GenerateTaskRun_unresolved (x : Externals) (cfg : Config) (build : Build)
    (buildRun : BuildRun) (sa : String) (strategy : BuilderStrategy)
    (hspec : (GenerateTaskSpec x cfg build buildRun strategy.GetBuildSteps
      strategy.GetParameters).2 = none)
    (hres : (x.overrideParams build.Spec.ParamValues buildRun.Spec.ParamValues).filter
      (fun p => x.IsSystemReservedParameter p.Name) = [])
    (hun : strategy.GetParameters.filter
      (fun sp => sp.Default = none ∧
        ∀ p ∈ x.overrideParams build.Spec.ParamValues buildRun.Spec.ParamValues,
          p.Name ≠ sp.Name) ≠ []) :
    GenerateTaskRun x cfg build buildRun sa strategy =
      (none, some ("parameters without a value definition: " ++
        Join ((strategy.GetParameters.filter
          (fun sp => sp.Default = none ∧
            ∀ p ∈ x.overrideParams build.Spec.ParamValues buildRun.Spec.ParamValues,
              p.Name ≠ sp.Name)).map (fun sp => sp.Name)) ",")) := by
  unfold GenerateTaskRun
  rcases hts : GenerateTaskSpec x cfg build buildRun strategy.GetBuildSteps
    strategy.GetParameters with ⟨ts, e⟩
  rw [hts] at hspec
  simp only at hspec
  subst hspec
  simp only [userParamsLoop_eq, strategyParametersLoop_eq, List.nil_append, hres,
    List.map_nil, List.length_nil, gt_iff_lt, lt_self_iff_false, if_false]
  rw [if_pos]
  simpa [List.length_pos] using hun

theorem GenerateTaskRun_ok (x : Externals) (cfg : Config) (build : Build)
    (buildRun : BuildRun) (sa : String) (strategy : BuilderStrategy)
    (hspec : (GenerateTaskSpec x cfg build buildRun strategy.GetBuildSteps
      strategy.GetParameters).2 = none)
    (hres : (x.overrideParams build.Spec.ParamValues buildRun.Spec.ParamValues).filter
      (fun p => x.IsSystemReservedParameter p.Name) = [])
    (hun : strategy.GetParameters.filter
      (fun sp => sp.Default = none ∧
        ∀ p ∈ x.overrideParams build.Spec.ParamValues buildRun.Spec.ParamValues,
          p.Name ≠ sp.Name) = []) :
    ∃ tr : TaskRun, GenerateTaskRun x cfg build buildRun sa strategy = (some tr, none) ∧
      tr.Spec.Timeout = effectiveTimeout build buildRun ∧
      tr.Spec.Params =
        systemParams build
          (match buildRun.Spec.Output with
            | some output => output.Image
            | none => build.Spec.Output.Image) ++
        (x.overrideParams build.Spec.ParamValues buildRun.Spec.ParamValues).map
          (fun p => stringParam p.Name p.Value) ∧
      tr.Annotations =
        (if (propagatedAnnotations x strategy.GetAnnotations).length > 0
          then some (propagatedAnnotations x strategy.GetAnnotations) else none) := by
  unfold GenerateTaskRun
  rcases hts : GenerateTaskSpec x cfg build buildRun strategy.GetBuildSteps
    strategy.GetParameters with ⟨ts, e⟩
  rw [hts] at hspec
  simp only at hspec
  subst hspec
  simp only [userParamsLoop_eq, strategyParametersLoop_eq, List.nil_append, hres, hun,
    List.map_nil, List.length_nil, gt_iff_lt, lt_self_iff_false, if_false]
  exact ⟨_, rfl, rfl, rfl, rfl⟩

theorem GenerateTaskRun_cases (x : Externals) (cfg : Config) (build : Build)
    (buildRun : BuildRun) (sa : String) (strategy : BuilderStrategy) :
    (∃ err, GenerateTaskRun x cfg build buildRun sa strategy = (none, some err)) ∨
    (∃ tr, GenerateTaskRun x cfg build buildRun sa strategy = (some tr, none) ∧
      (GenerateTaskSpec x cfg build buildRun strategy.GetBuildSteps
        strategy.GetParameters).2 = none ∧
      (x.overrideParams build.Spec.ParamValues buildRun.Spec.ParamValues).filter
        (fun p => x.IsSystemReservedParameter p.Name) = [] ∧
      strategy.GetParameters.filter
        (fun sp => sp.Default = none ∧
          ∀ p ∈ x.overrideParams build.Spec.ParamValues buildRun.Spec.ParamValues,
            p.Name ≠ sp.Name) = []) := by
  cases hspec : (GenerateTaskSpec x cfg build buildRun strategy.GetBuildSteps
      strategy.GetParameters).2 with
  | some err => exact Or.inl ⟨err, GenerateTaskRun_spec_error x cfg build buildRun sa strategy err hspec⟩
  | none =>
    by_cases hres : (x.overrideParams build.Spec.ParamValues buildRun.Spec.ParamValues).filter
        (fun p => x.IsSystemReservedParameter p.Name) = []
    · by_cases hun : strategy.GetParameters.filter
          (fun sp => sp.Default = none ∧
            ∀ p ∈ x.overrideParams build.Spec.ParamValues buildRun.Spec.ParamValues,
              p.Name ≠ sp.Name) = []
      · obtain ⟨tr, htr, _⟩ := GenerateTaskRun_ok x cfg build buildRun sa strategy hspec hres hun
        exact Or.inr ⟨tr, htr, rfl, hres, hun⟩
      · exact Or.inl ⟨_, GenerateTaskRun_unresolved x cfg build buildRun sa strategy hspec hres hun⟩
    · exact Or.inl ⟨_, GenerateTaskRun_reserved x cfg build buildRun sa strategy hspec hres⟩

theorem GenerateTaskRun_success (x : Externals) (cfg : Config) (build : Build)
    (buildRun : BuildRun) (sa : String) (strategy : BuilderStrategy) (tr : TaskRun)
    (h : GenerateTaskRun x cfg build buildRun sa strategy = (some tr, none)) :
    tr.Spec.Timeout = effectiveTimeout build buildRun ∧
      tr.Spec.Params =
        systemParams build
          (match buildRun.Spec.Output with
            | some output => output.Image
            | none => build.Spec.Output.Image) ++
        (x.overrideParams build.Spec.ParamValues buildRun.Spec.ParamValues).map
          (fun p => stringParam p.Name p.Value) ∧
      tr.Annotations =
        (if (propagatedAnnotations x strategy.GetAnnotations).length > 0
          then some (propagatedAnnotations x strategy.GetAnnotations) else none) := by
  rcases GenerateTaskRun_cases x cfg build buildRun sa strategy with ⟨err, he⟩ | ⟨tr2, _, hspec, hres, hun⟩
  · rw [he] at h
    simp at h
  · obtain ⟨tr3, h3, hrest⟩ := GenerateTaskRun_ok x cfg build buildRun sa strategy hspec hres hun
    rw [h3] at h
    simp only [Prod.mk.injEq, Option.some.injEq, and_true] at h
    subst h
    exact hrest

/-! ## Lemmas on maps and on the propagated annotations -/

theorem GoMap.get_of_not_mem_keys (m : GoMap) (k : String) (h : k ∉ m.map Prod.fst) :
    GoMap.get m k = none := by
  induction m with
  | nil => rfl
  | cons kv rest ih =>
    obtain ⟨k', v'⟩ := kv
    simp only [List.map_cons, List.mem_cons, not_or] at h
    have hne : ¬ k' = k := fun he => h.1 he.symm
    simp only [GoMap.get, if_neg hne]
    exact ih h.2

theorem GoMap.mem_keys_of_get (m : GoMap) (k v : String) (h : GoMap.get m k = some v) :
    k ∈ m.map Prod.fst := by
  by_contra hk
  rw [GoMap.get_of_not_mem_keys m k hk] at h
  exact Option.noConfusion h

theorem GoMap.get_set_same (m : GoMap) (k v : String) :
    GoMap.get (GoMap.set m k v) k = some v := by
  induction m with
  | nil => simp [GoMap.set, GoMap.get]
  | cons kv rest ih =>
    obtain ⟨k', v'⟩ := kv
    by_cases he : k' = k
    · simp [GoMap.set, GoMap.get, he]
    · simp [GoMap.set, GoMap.get, he, ih]

theorem GoMap.get_set_ne (m : GoMap) (k v j : String) (hne : k ≠ j) :
    GoMap.get (GoMap.set m k v) j = GoMap.get m j := by
  induction m with
  | nil => simp [GoMap.set, GoMap.get, hne]
  | cons kv rest ih =>
    obtain ⟨k', v'⟩ := kv
    by_cases he : k' = k
    · subst he
      simp [GoMap.set, GoMap.get, hne]
    · by_cases hj : k' = j
      · subst hj
        simp [GoMap.set, GoMap.get, he]
      · simp [GoMap.set, GoMap.get, he, hj, ih]

theorem propagated_fold_get_filtered (x : Externals) (annotations : GoMap) (acc : GoMap)
    (k : String) (hk : isPropagatableAnnotation x k = false) :
    GoMap.get (annotations.foldl
      (fun taskRunAnnotations kv =>
        if isPropagatableAnnotation x kv.1 then GoMap.set taskRunAnnotations kv.1 kv.2
        else taskRunAnnotations) acc) k = GoMap.get acc k := by
  induction annotations generalizing acc with
  | nil => rfl
  | cons kv rest ih =>
    simp only [List.foldl_cons]
    rw [ih]
    by_cases hp : isPropagatableAnnotation x kv.1 = true
    · have hne : kv.1 ≠ k := by
        intro he
        rw [he, hk] at hp
        exact Bool.noConfusion hp
      rw [if_pos hp, GoMap.get_set_ne _ _ _ _ hne]
    · rw [if_neg hp]

theorem propagated_fold_get (x : Externals) (annotations : GoMap) (acc : GoMap)
    (k : String) (hwf : GoMap.WF annotations) (hk : isPropagatableAnnotation x k = true) :
    GoMap.get (annotations.foldl
      (fun taskRunAnnotations kv =>
        if isPropagatableAnnotation x kv.1 then GoMap.set taskRunAnnotations kv.1 kv.2
        else taskRunAnnotations) acc) k =
      match GoMap.get annotations k with
      | some v => some v
      | none => GoMap.get acc k := by
  induction annotations generalizing acc with
  | nil => rfl
  | cons kv rest ih =>
    obtain ⟨k', v'⟩ := kv
    have hwf' : GoMap.WF rest := by
      unfold GoMap.WF at hwf ⊢
      exact (List.nodup_cons.mp hwf).2
    have hnot : k' ∉ rest.map Prod.fst := by
      unfold GoMap.WF at hwf
      exact (List.nodup_cons.mp hwf).1
    simp only [List.foldl_cons]
    rw [ih _ hwf']
    by_cases he : k' = k
    · subst he
      rw [GoMap.get_of_not_mem_keys rest k' hnot]
      simp [GoMap.get, hk, GoMap.get_set_same]
    · have hget : GoMap.get ((k', v') :: rest) k = GoMap.get rest k := by
        simp [GoMap.get, he]
      rw [hget]
      by_cases hp : isPropagatableAnnotation x k' = true
      · simp only [hp, if_true]
        rw [GoMap.get_set_ne _ _ _ _ he]
      · simp only [hp, if_false]
        rfl

theorem annotationValue_propagated (m : GoMap) (k : String) :
    annotationValue (if m.length > 0 then some m else none) k = GoMap.get m k := by
  cases m with
  | nil => rfl
  | cons kv rest => simp [annotationValue]

/-! ## Lemmas on the environment merger and on the step loop -/

theorem mergeEnvVar_fold_error (ow : Bool) (lower new acc : List EnvVar) (err : String) :
    new.foldl (mergeEnvVar ow lower) (acc, some err) = (acc, some err) := by
  induction new with
  | nil => rfl
  | cons n rest ih => simpa [List.foldl_cons, mergeEnvVar] using ih

theorem mergeEnvVar_reject_disjoint (lower new acc : List EnvVar)
    (h : ∀ n ∈ new, ∀ e ∈ lower, e.Name ≠ n.Name) :
    new.foldl (mergeEnvVar false lower) (acc, none) = (acc ++ new, none) := by
  induction new generalizing acc with
  | nil => simp
  | cons n rest ih =>
    have hn : lower.any (fun e => decide (e.Name = n.Name)) = false := by
      rw [List.any_eq_false]
      intro e he
      simpa using h n (List.mem_cons_self _ _) e he
    simp only [List.foldl_cons, mergeEnvVar, hn]
    rw [show (if false = true then
        (if false = true then (acc.map (fun e => if e.Name = n.Name then n else e), none)
          else (acc, some (environmentConflict n.Name)))
        else (acc ++ [n], (none : Option String))) = (acc ++ [n], none) from rfl]
    rw [ih (acc ++ [n]) (fun m hm => h m (List.mem_cons_of_mem _ hm))]
    simp

theorem mergeEnvVar_reject_collision (lower new acc : List EnvVar)
    (h : ∃ n ∈ new, ∃ e ∈ lower, e.Name = n.Name) :
    ∃ name, (new.foldl (mergeEnvVar false lower) (acc, none)).2 =
        some (environmentConflict name) ∧
      (∃ n ∈ new, n.Name = name) ∧ (∃ e ∈ lower, e.Name = name) := by
  induction new generalizing acc with
  | nil =>
    obtain ⟨n, hn, _⟩ := h
    exact absurd hn (List.not_mem_nil _)
  | cons n rest ih =>
    by_cases hn : lower.any (fun e => decide (e.Name = n.Name)) = true
    · refine ⟨n.Name, ?_, ⟨n, List.mem_cons_self _ _, rfl⟩, ?_⟩
      · simp only [List.foldl_cons, mergeEnvVar, hn, if_true]
        rw [show (if false = true then
            (acc.map (fun e => if e.Name = n.Name then n else e), (none : Option String))
            else (acc, some (environmentConflict n.Name))) =
            (acc, some (environmentConflict n.Name)) from rfl]
        rw [mergeEnvVar_fold_error]
      · simpa [List.any_eq_true] using hn
    · have hrest : ∃ m ∈ rest, ∃ e ∈ lower, e.Name = m.Name := by
        obtain ⟨m, hm, e, he, hname⟩ := h
        rcases List.mem_cons.mp hm with hmn | hmr
        · exfalso
          apply hn
          rw [List.any_eq_true]
          exact ⟨e, he, by simpa [hmn] using hname⟩
        · exact ⟨m, hmr, e, he, hname⟩
      obtain ⟨name, hres, ⟨m, hm, hmn⟩, hlow⟩ := ih (acc ++ [n]) hrest
      refine ⟨name, ?_, ⟨m, List.mem_cons_of_mem _ hm, hmn⟩, hlow⟩
      simp only [List.foldl_cons, mergeEnvVar, hn, if_false]
      exact hres

theorem mergeEnvVar_override_ok (lower new acc : List EnvVar) :
    (new.foldl (mergeEnvVar true lower) (acc, none)).2 = none := by
  induction new generalizing acc with
  | nil => rfl
  | cons n rest ih =>
    simp only [List.foldl_cons, mergeEnvVar]
    by_cases hn : lower.any (fun e => decide (e.Name = n.Name)) = true
    · simp only [hn, if_true]
      exact ih _
    · simp only [hn, if_false]
      exact ih _

theorem mergeEnvVar_override_mem (lower new acc : List EnvVar) (e : EnvVar)
    (he : e ∈ (new.foldl (mergeEnvVar true lower) (acc, none)).1) : e ∈ acc ∨ e ∈ new := by
  induction new generalizing acc with
  | nil => exact Or.inl he
  | cons n rest ih =>
    simp only [List.foldl_cons, mergeEnvVar] at he
    by_cases hn : lower.any (fun e => decide (e.Name = n.Name)) = true
    · simp only [hn, if_true] at he
      rcases ih _ he with h | h
      · rw [List.mem_map] at h
        obtain ⟨a, ha, hae⟩ := h
        by_cases hname : a.Name = n.Name
        · rw [if_pos hname] at hae
          exact Or.inr (hae ▸ List.mem_cons_self _ _)
        · rw [if_neg hname] at hae
          exact Or.inl (hae ▸ ha)
      · exact Or.inr (List.mem_cons_of_mem _ h)
    · simp only [hn, if_false] at he
      rcases ih _ he with h | h
      · rcases List.mem_append.mp h with h | h
        · exact Or.inl h
        · rw [List.mem_singleton] at h
          exact Or.inr (h ▸ List.mem_cons_self _ _)
      · exact Or.inr (List.mem_cons_of_mem _ h)

theorem filter_name_replace_same (acc : List EnvVar) (n : EnvVar) :
    (acc.map (fun e => if e.Name = n.Name then n else e)).filter (fun e => e.Name = n.Name) =
      (acc.filter (fun e => e.Name = n.Name)).map (fun _ => n) := by
  induction acc with
  | nil => rfl
  | cons a rest ih =>
    by_cases ha : a.Name = n.Name
    · simp [List.filter_cons, ha, ih]
    · simp [List.filter_cons, ha, ih]

theorem filter_name_replace_other (acc : List EnvVar) (n : EnvVar) (k : String)
    (hk : n.Name ≠ k) :
    (acc.map (fun e => if e.Name = n.Name then n else e)).filter (fun e => e.Name = k) =
      acc.filter (fun e => e.Name = k) := by
  induction acc with
  | nil => rfl
  | cons a rest ih =>
    by_cases ha : a.Name = n.Name
    · have hak : a.Name ≠ k := ha ▸ hk
      simp [List.filter_cons, ha, hk, hak, ih]
    · simp [List.filter_cons, ha, ih]

theorem mergeEnvVar_override_filter (lower new : List EnvVar) (k : String) (b : EnvVar)
    (hlow : ∃ e ∈ lower, e.Name = k)
    (hnew : ∀ n ∈ new, n.Name = k → n = b) (acc : List EnvVar) (a : EnvVar)
    (hacc : acc.filter (fun e => e.Name = k) = [a]) :
    (new.foldl (mergeEnvVar true lower) (acc, none)).1.filter (fun e => e.Name = k) =
      [if new.any (fun n => n.Name = k) then b else a] := by
  induction new generalizing acc a with
  | nil => simpa using hacc
  | cons n rest ih =>
    have hrest : ∀ m ∈ rest, m.Name = k → m = b :=
      fun m hm => hnew m (List.mem_cons_of_mem _ hm)
    simp only [List.foldl_cons, mergeEnvVar]
    by_cases hnk : n.Name = k
    · have hnb : n = b := hnew n (List.mem_cons_self _ _) hnk
      have hn : lower.any (fun e => decide (e.Name = n.Name)) = true := by
        rw [List.any_eq_true]
        obtain ⟨e, he, hek⟩ := hlow
        exact ⟨e, he, by simp [hek, hnk]⟩
      simp only [hn, if_true]
      have hacc' : (acc.map (fun e => if e.Name = n.Name then n else e)).filter
          (fun e => e.Name = k) = [b] := by
        have := filter_name_replace_same acc n
        rw [hnk] at this
        rw [hnk, this, hacc, hnb]
        rfl
      rw [ih hrest _ b hacc']
      simp [hnk]
    · by_cases hn : lower.any (fun e => decide (e.Name = n.Name)) = true
      · simp only [hn, if_true]
        have hacc' : (acc.map (fun e => if e.Name = n.Name then n else e)).filter
            (fun e => e.Name = k) = [a] := by
          rw [filter_name_replace_other acc n k hnk, hacc]
        rw [ih hrest _ a hacc']
        simp [hnk]
      · simp only [hn, Bool.false_eq_true, if_false]
        have hacc' : (acc ++ [n]).filter (fun e => e.Name = k) = [a] := by
          simp [List.filter_append, hacc, List.filter_cons, hnk]
        rw [ih hrest _ a hacc']
        simp [hnk]

theorem compileSteps_ok (x : Externals) (build : Build) (combinedEnvs : List EnvVar)
    (buildSteps : List BuildStep) (taskSpec : TaskSpec)
    (h : ∀ s ∈ buildSteps, (x.MergeEnvVars combinedEnvs s.Env false).2 = none) :
    compileSteps x build combinedEnvs buildSteps taskSpec =
      ({ taskSpec with
          Steps := taskSpec.Steps ++ buildSteps.map
            (fun s => compileStep s (x.MergeEnvVars combinedEnvs s.Env false).1),
          Volumes := buildSteps.foldl (fun vols s => addStepVolumes vols s.VolumeMounts)
            taskSpec.Volumes }, none) := by
  induction buildSteps generalizing taskSpec with
  | nil => simp [compileSteps]
  | cons s rest ih =>
    have hs := h s (List.mem_cons_self _ _)
    rcases hm : x.MergeEnvVars combinedEnvs s.Env false with ⟨stepEnv, e⟩
    rw [hm] at hs
    simp only at hs
    subst hs
    simp only [compileSteps, hm]
    rw [ih _ (fun t ht => h t (List.mem_cons_of_mem _ ht))]
    simp [hm]

theorem compileSteps_error (x : Externals) (build : Build) (combinedEnvs : List EnvVar)
    (buildSteps : List BuildStep) (taskSpec : TaskSpec)
    (h : ∃ s ∈ buildSteps, (x.MergeEnvVars combinedEnvs s.Env false).2 ≠ none) :
    ∃ s ∈ buildSteps, ∃ err, (x.MergeEnvVars combinedEnvs s.Env false).2 = some err ∧
      (compileSteps x build combinedEnvs buildSteps taskSpec).2 =
        some ("error(s) occurred merging environment variables into BuildStrategy "
          ++ x.quote (x.StrategyName build.Spec) ++ " steps: " ++ err) := by
  induction buildSteps generalizing taskSpec with
  | nil =>
    obtain ⟨s, hs, _⟩ := h
    exact absurd hs (List.not_mem_nil _)
  | cons s rest ih =>
    rcases hm : x.MergeEnvVars combinedEnvs s.Env false with ⟨stepEnv, e⟩
    cases e with
    | some err =>
      refine ⟨s, List.mem_cons_self _ _, err, by rw [hm], ?_⟩
      simp only [compileSteps, hm]
    | none =>
      have hrest : ∃ t ∈ rest, (x.MergeEnvVars combinedEnvs t.Env false).2 ≠ none := by
        obtain ⟨t, ht, hne⟩ := h
        rcases List.mem_cons.mp ht with hts | htr
        · subst hts
          rw [hm] at hne
          exact absurd rfl hne
        · exact ⟨t, htr, hne⟩
      obtain ⟨t, ht, err, herr, hres⟩ := ih _ hrest
      refine ⟨t, List.mem_cons_of_mem _ ht, err, herr, ?_⟩
      simp only [compileSteps, hm]
      exact hres

theorem GenerateTaskSpec_of_merge (x : Externals) (cfg : Config) (build : Build)
    (buildRun : BuildRun) (buildSteps : List BuildStep) (strategyParams : List Parameter)
    (combinedEnvs : List EnvVar)
    (hm : x.MergeEnvVars buildRun.Spec.Env build.Spec.Env true = (combinedEnvs, none)) :
    ((GenerateTaskSpec x cfg build buildRun buildSteps strategyParams).2 =
        (compileSteps x build combinedEnvs buildSteps
          (declareTaskSpec x cfg build strategyParams)).2) ∧
    ((compileSteps x build combinedEnvs buildSteps
          (declareTaskSpec x cfg build strategyParams)).2 = none →
      GenerateTaskSpec x cfg build buildRun buildSteps strategyParams =
        (some (amendImageMutate x cfg build
          (compileSteps x build combinedEnvs buildSteps
            (declareTaskSpec x cfg build strategyParams)).1), none)) := by
  unfold GenerateTaskSpec
  rw [hm]
  dsimp only
  rcases compileSteps x build combinedEnvs buildSteps
    (declareTaskSpec x cfg build strategyParams) with ⟨spec4, e⟩
  cases e with
  | some err => exact ⟨rfl, fun h => Option.noConfusion h⟩
  | none => exact ⟨rfl, fun _ => rfl⟩

/-! ## Parameter checks of `GenerateTaskRun` -/

/-- C1: when `GenerateTaskSpec` succeeds and at least one parameter of the merged user
parameter list has a system reserved name, `GenerateTaskRun` fails with the message
`restricted parameters in use: ` followed by the comma-joined names of all reserved
parameters of the list, in list order. -/
theorem reserved_parameters_all_reported (x : Externals) (cfg : Config) (build : Build)
    (buildRun : BuildRun) (serviceAccountName : String) (strategy : BuilderStrategy)
    (hspec : (GenerateTaskSpec x cfg build buildRun strategy.GetBuildSteps
      strategy.GetParameters).2 = none)
    (hres : ∃ p ∈ x.overrideParams build.Spec.ParamValues buildRun.Spec.ParamValues,
      x.IsSystemReservedParameter p.Name = true) :
    GenerateTaskRun x cfg build buildRun serviceAccountName strategy =
      (none, some ("restricted parameters in use: " ++
        Join (((x.overrideParams build.Spec.ParamValues buildRun.Spec.ParamValues).filter
          (fun p => x.IsSystemReservedParameter p.Name)).map (fun p => p.Name)) ",")) := by
  apply GenerateTaskRun_reserved x cfg build buildRun serviceAccountName strategy hspec
  obtain ⟨p, hp, hr⟩ := hres
  intro hnil
  have hmem : p ∈ (x.overrideParams build.Spec.ParamValues buildRun.Spec.ParamValues).filter
      (fun p => x.IsSystemReservedParameter p.Name) := List.mem_filter.mpr ⟨hp, hr⟩
  rw [hnil] at hmem
  exact List.not_mem_nil _ hmem

/-- Witness of C1: a Build whose parameters `shp-output-image` and `DOCKERFILE` are
reserved and whose parameter `foo` is not; both offenders are reported, in order. -/
theorem reserved_parameters_all_reported_witness :
    GenerateTaskRun sampleExternals sampleConfig
        (sampleBuild [⟨"shp-output-image", "x"⟩, ⟨"foo", "1"⟩, ⟨"DOCKERFILE", "y"⟩] [] none)
        (sampleBuildRun [] [] none none) "sa" (sampleStrategy [] [sampleStep "s1" []] []) =
      (none, some "restricted parameters in use: shp-output-image,DOCKERFILE") :=
  (reserved_parameters_all_reported sampleExternals sampleConfig
    (sampleBuild [⟨"shp-output-image", "x"⟩, ⟨"foo", "1"⟩, ⟨"DOCKERFILE", "y"⟩] [] none)
    (sampleBuildRun [] [] none none) "sa" (sampleStrategy [] [sampleStep "s1" []] [])
    (by decide) ⟨⟨"shp-output-image", "x"⟩, by decide, by decide⟩).trans (by decide)

/-- C2: when `GenerateTaskSpec` succeeds and no merged user parameter is reserved, let `S`
be the strategy parameters without default whose name no merged user parameter has.
`GenerateTaskRun` fails if and only if `S` is non-empty, and then its message is
`parameters without a value definition: ` followed by the comma-joined names of `S`. -/
theorem unresolved_parameters_exactly_reported (x : Externals) (cfg : Config) (build : Build)
    (buildRun : BuildRun) (serviceAccountName : String) (strategy : BuilderStrategy)
    (hspec : (GenerateTaskSpec x cfg build buildRun strategy.GetBuildSteps
      strategy.GetParameters).2 = none)
    (hres : ∀ p ∈ x.overrideParams build.Spec.ParamValues buildRun.Spec.ParamValues,
      x.IsSystemReservedParameter p.Name = false) :
    ((GenerateTaskRun x cfg build buildRun serviceAccountName strategy).2 ≠ none ↔
      strategy.GetParameters.filter
        (fun sp => sp.Default = none ∧
          ∀ p ∈ x.overrideParams build.Spec.ParamValues buildRun.Spec.ParamValues,
            p.Name ≠ sp.Name) ≠ []) ∧
    (strategy.GetParameters.filter
        (fun sp => sp.Default = none ∧
          ∀ p ∈ x.overrideParams build.Spec.ParamValues buildRun.Spec.ParamValues,
            p.Name ≠ sp.Name) ≠ [] →
      GenerateTaskRun x cfg build buildRun serviceAccountName strategy =
        (none, some ("parameters without a value definition: " ++
          Join ((strategy.GetParameters.filter
            (fun sp => sp.Default = none ∧
              ∀ p ∈ x.overrideParams build.Spec.ParamValues buildRun.Spec.ParamValues,
                p.Name ≠ sp.Name)).map (fun sp => sp.Name)) ","))) := by
  have hnil : (x.overrideParams build.Spec.ParamValues buildRun.Spec.ParamValues).filter
      (fun p => x.IsSystemReservedParameter p.Name) = [] := by
    rw [List.filter_eq_nil_iff]
    intro p hp
    simp [hres p hp]
  refine ⟨⟨fun herr hS => ?_, fun hS => ?_⟩, fun hS => ?_⟩
  · obtain ⟨tr, htr, _⟩ :=
      GenerateTaskRun_ok x cfg build buildRun serviceAccountName strategy hspec hnil hS
    rw [htr] at herr
    exact herr rfl
  · rw [GenerateTaskRun_unresolved x cfg build buildRun serviceAccountName strategy hspec hnil hS]
    simp
  · exact GenerateTaskRun_unresolved x cfg build buildRun serviceAccountName strategy hspec hnil hS

/-- Witness of C2: the strategy parameters `a` and `c` have no default and no value,
`b` has a value from the Build and `d` has a default. -/
theorem unresolved_parameters_exactly_reported_witness :
    GenerateTaskRun sampleExternals sampleConfig
        (sampleBuild [⟨"b", "1"⟩] [] none) (sampleBuildRun [] [] none none) "sa"
        (sampleStrategy [] [sampleStep "s1" []]
          [⟨"a", "", none⟩, ⟨"b", "", none⟩, ⟨"c", "", none⟩, ⟨"d", "", some "x"⟩]) =
      (none, some "parameters without a value definition: a,c") :=
  ((unresolved_parameters_exactly_reported sampleExternals sampleConfig
    (sampleBuild [⟨"b", "1"⟩] [] none) (sampleBuildRun [] [] none none) "sa"
    (sampleStrategy [] [sampleStep "s1" []]
      [⟨"a", "", none⟩, ⟨"b", "", none⟩, ⟨"c", "", none⟩, ⟨"d", "", some "x"⟩])
    (by decide) (by decide)).2 (by decide)).trans (by decide)

/-- Counterexample to C3: the Build supplies the reserved parameter `shp-output-image`
and the strategy parameter `zzz` has neither default nor value; the returned error
names the reserved parameter only and does not mention `zzz`. -/
theorem both_checks_reported_counterexample :
    (GenerateTaskSpec sampleExternals sampleConfig
        (sampleBuild [⟨"shp-output-image", "x"⟩] [] none) (sampleBuildRun [] [] none none)
        [sampleStep "s1" []] [⟨"zzz", "", none⟩]).2 = none ∧
    (∃ p ∈ sampleExternals.overrideParams [⟨"shp-output-image", "x"⟩] [],
      sampleExternals.IsSystemReservedParameter p.Name = true) ∧
    (∃ sp ∈ [(⟨"zzz", "", none⟩ : Parameter)], sp.Default = none ∧
      ∀ p ∈ sampleExternals.overrideParams [⟨"shp-output-image", "x"⟩] [], p.Name ≠ sp.Name) ∧
    GenerateTaskRun sampleExternals sampleConfig
        (sampleBuild [⟨"shp-output-image", "x"⟩] [] none) (sampleBuildRun [] [] none none) "sa"
        (sampleStrategy [] [sampleStep "s1" []] [⟨"zzz", "", none⟩]) =
      (none, some "restricted parameters in use: shp-output-image") ∧
    Contains "restricted parameters in use: shp-output-image" "zzz" = false := by
  decide

/-- C3 (amended): the two parameter checks run one after the other, each reporting all
of its offenders.  When `GenerateTaskSpec` succeeds and the merged user parameters
contain a reserved name, the error is the one of the reserved-name check, listing every
reserved offender, whether or not a strategy parameter lacks a value; the parameters
without a value are reported, all of them, when no merged user parameter is reserved. -/
theorem parameter_checks_in_sequence (x : Externals) (cfg : Config) (build : Build)
    (buildRun : BuildRun) (serviceAccountName : String) (strategy : BuilderStrategy)
    (hspec : (GenerateTaskSpec x cfg build buildRun strategy.GetBuildSteps
      strategy.GetParameters).2 = none) :
    ((x.overrideParams build.Spec.ParamValues buildRun.Spec.ParamValues).filter
        (fun p => x.IsSystemReservedParameter p.Name) ≠ [] →
      GenerateTaskRun x cfg build buildRun serviceAccountName strategy =
        (none, some ("restricted parameters in use: " ++
          Join (((x.overrideParams build.Spec.ParamValues buildRun.Spec.ParamValues).filter
            (fun p => x.IsSystemReservedParameter p.Name)).map (fun p => p.Name)) ","))) ∧
    ((x.overrideParams build.Spec.ParamValues buildRun.Spec.ParamValues).filter
        (fun p => x.IsSystemReservedParameter p.Name) = [] →
      strategy.GetParameters.filter
        (fun sp => sp.Default = none ∧
          ∀ p ∈ x.overrideParams build.Spec.ParamValues buildRun.Spec.ParamValues,
            p.Name ≠ sp.Name) ≠ [] →
      GenerateTaskRun x cfg build buildRun serviceAccountName strategy =
        (none, some ("parameters without a value definition: " ++
          Join ((strategy.GetParameters.filter
            (fun sp => sp.Default = none ∧
              ∀ p ∈ x.overrideParams build.Spec.ParamValues buildRun.Spec.ParamValues,
                p.Name ≠ sp.Name)).map (fun sp => sp.Name)) ","))) :=
  ⟨GenerateTaskRun_reserved x cfg build buildRun serviceAccountName strategy hspec,
    GenerateTaskRun_unresolved x cfg build buildRun serviceAccountName strategy hspec⟩

/-- Witness of C3 (amended): with the reserved parameters `shp-output-image` and `shp-x`
and the unresolved strategy parameter `zzz`, both reserved names are reported. -/
theorem parameter_checks_in_sequence_witness :
    GenerateTaskRun sampleExternals sampleConfig
        (sampleBuild [⟨"shp-output-image", "x"⟩, ⟨"shp-x", "y"⟩] [] none)
        (sampleBuildRun [] [] none none) "sa"
        (sampleStrategy [] [sampleStep "s1" []] [⟨"zzz", "", none⟩]) =
      (none, some "restricted parameters in use: shp-output-image,shp-x") :=
  ((parameter_checks_in_sequence sampleExternals sampleConfig
    (sampleBuild [⟨"shp-output-image", "x"⟩, ⟨"shp-x", "y"⟩] [] none)
    (sampleBuildRun [] [] none none) "sa"
    (sampleStrategy [] [sampleStep "s1" []] [⟨"zzz", "", none⟩]) (by decide)).1
    (by decide)).trans (by decide)

/-- C4: whenever `GenerateTaskRun` returns a non-nil error, the returned TaskRun is
nil. -/
theorem error_returns_nil_taskrun (x : Externals) (cfg : Config) (build : Build)
    (buildRun : BuildRun) (serviceAccountName : String) (strategy : BuilderStrategy)
    (herr : (GenerateTaskRun x cfg build buildRun serviceAccountName strategy).2 ≠ none) :
    (GenerateTaskRun x cfg build buildRun serviceAccountName strategy).1 = none := by
  rcases GenerateTaskRun_cases x cfg build buildRun serviceAccountName strategy with
    ⟨err, he⟩ | ⟨tr, htr, _⟩
  · rw [he]
  · rw [htr] at herr
    exact absurd rfl herr

/-- Witness of C4: the step environment collides with the Build environment, so
`GenerateTaskSpec` returns its partial task spec together with an error, and
`GenerateTaskRun` returns no TaskRun. -/
theorem error_returns_nil_taskrun_witness :
    (GenerateTaskSpec sampleExternals sampleConfig (sampleBuild [] [⟨"FOO", "1"⟩] none)
        (sampleBuildRun [] [] none none) [sampleStep "s1" [⟨"FOO", "2"⟩]] []).1 ≠ none ∧
    (GenerateTaskRun sampleExternals sampleConfig (sampleBuild [] [⟨"FOO", "1"⟩] none)
        (sampleBuildRun [] [] none none) "sa"
        (sampleStrategy [] [sampleStep "s1" [⟨"FOO", "2"⟩]] [])).2 ≠ none ∧
    (GenerateTaskRun sampleExternals sampleConfig (sampleBuild [] [⟨"FOO", "1"⟩] none)
        (sampleBuildRun [] [] none none) "sa"
        (sampleStrategy [] [sampleStep "s1" [⟨"FOO", "2"⟩]] [])).1 = none :=
  ⟨by decide, by decide,
    error_returns_nil_taskrun sampleExternals sampleConfig (sampleBuild [] [⟨"FOO", "1"⟩] none)
      (sampleBuildRun [] [] none none) "sa"
      (sampleStrategy [] [sampleStep "s1" [⟨"FOO", "2"⟩]] []) (by decide)⟩

/-! ## Timeout and output image -/

/-- C7: `effectiveTimeout` is the timeout of the BuildRun when the BuildRun sets one,
otherwise the timeout of the Build when the Build sets one, otherwise nil; and it is
the `Timeout` of every TaskRun that `GenerateTaskRun` returns. -/
theorem effective_timeout_precedence (x : Externals) (cfg : Config) (build : Build)
    (buildRun : BuildRun) (serviceAccountName : String) (strategy : BuilderStrategy) :
    (∀ d, buildRun.Spec.Timeout = some d → effectiveTimeout build buildRun = some d) ∧
    (buildRun.Spec.Timeout = none → ∀ d, build.Spec.Timeout = some d →
      effectiveTimeout build buildRun = some d) ∧
    (buildRun.Spec.Timeout = none → build.Spec.Timeout = none →
      effectiveTimeout build buildRun = none) ∧
    (∀ tr, GenerateTaskRun x cfg build buildRun serviceAccountName strategy = (some tr, none) →
      tr.Spec.Timeout = effectiveTimeout build buildRun) := by
  refine ⟨?_, ?_, ?_, ?_⟩
  · intro d hd
    simp [effectiveTimeout, hd]
  · intro hr d hd
    simp [effectiveTimeout, hr, hd]
  · intro hr hb
    simp [effectiveTimeout, hr, hb]
  · intro tr htr
    exact (GenerateTaskRun_success x cfg build buildRun serviceAccountName strategy tr htr).1

/-- Witness of C7: the Build sets 600 and the BuildRun 300 (seconds, in nanoseconds);
the generated TaskRun has the timeout of the BuildRun. -/
theorem effective_timeout_precedence_witness :
    ∃ tr, GenerateTaskRun sampleExternals sampleConfig
        (sampleBuild [] [] (some 600000000000))
        (sampleBuildRun [] [] none (some 300000000000)) "sa"
        (sampleStrategy [] [sampleStep "s1" []] []) = (some tr, none) ∧
      tr.Spec.Timeout = some 300000000000 := by
  obtain ⟨tr, htr, _⟩ := GenerateTaskRun_ok sampleExternals sampleConfig
    (sampleBuild [] [] (some 600000000000))
    (sampleBuildRun [] [] none (some 300000000000)) "sa"
    (sampleStrategy [] [sampleStep "s1" []] []) (by decide) (by decide) (by decide)
  have h := effective_timeout_precedence sampleExternals sampleConfig
    (sampleBuild [] [] (some 600000000000))
    (sampleBuildRun [] [] none (some 300000000000)) "sa"
    (sampleStrategy [] [sampleStep "s1" []] [])
  exact ⟨tr, htr, (h.2.2.2 tr htr).trans (h.1 300000000000 rfl)⟩

/-- C8: in every TaskRun that `GenerateTaskRun` returns, the first parameter is
`shp-output-image`, and its value is the output image of the BuildRun when the
BuildRun has an output, and the output image of the Build otherwise. -/
theorem output_image_precedence (x : Externals) (cfg : Config) (build : Build)
    (buildRun : BuildRun) (serviceAccountName : String) (strategy : BuilderStrategy)
    (tr : TaskRun)
    (h : GenerateTaskRun x cfg build buildRun serviceAccountName strategy = (some tr, none)) :
    (∀ output, buildRun.Spec.Output = some output →
      tr.Spec.Params.head? =
        some { Name := "shp-output-image",
               Value := { Type_ := "string", StringVal := output.Image } }) ∧
    (buildRun.Spec.Output = none →
      tr.Spec.Params.head? =
        some { Name := "shp-output-image",
               Value := { Type_ := "string", StringVal := build.Spec.Output.Image } }) := by
  have hp := (GenerateTaskRun_success x cfg build buildRun serviceAccountName strategy tr h).2.1
  constructor
  · intro output ho
    rw [hp, ho]
    rfl
  · intro ho
    rw [hp, ho]
    rfl

/-- Witness of C8: the BuildRun overrides the output image of the Build. -/
theorem output_image_precedence_witness :
    (GenerateTaskRun sampleExternals sampleConfig (sampleBuild [] [] none)
        (sampleBuildRun [] [] (some (imageRef "registry/run-image")) none) "sa"
        (sampleStrategy [] [sampleStep "s1" []] [])).1.bind
      (fun tr => tr.Spec.Params.head?) =
      some { Name := "shp-output-image",
             Value := { Type_ := "string", StringVal := "registry/run-image" } } := by
  obtain ⟨tr, htr, _⟩ := GenerateTaskRun_ok sampleExternals sampleConfig
    (sampleBuild [] [] none)
    (sampleBuildRun [] [] (some (imageRef "registry/run-image")) none) "sa"
    (sampleStrategy [] [sampleStep "s1" []] []) (by decide) (by decide) (by decide)
  have h := (output_image_precedence sampleExternals sampleConfig (sampleBuild [] [] none)
    (sampleBuildRun [] [] (some (imageRef "registry/run-image")) none) "sa"
    (sampleStrategy [] [sampleStep "s1" []] []) tr htr).1 (imageRef "registry/run-image") rfl
  rw [htr]
  exact h

/-! ## Environment variables -/

/-- C5 (reject mode): if the env of some strategy step contains a variable name that also
occurs in the combined user environment (the BuildRun env merged with the Build env),
`GenerateTaskSpec` returns an error; its message ends with the conflict error naming a
variable that a strategy step and the combined user environment both define. -/
theorem step_env_collision_rejected (x : Externals) (cfg : Config) (build : Build)
    (buildRun : BuildRun) (buildSteps : List BuildStep) (strategyParams : List Parameter)
    (hcol : ∃ s ∈ buildSteps, ∃ e ∈ s.Env,
      ∃ u ∈ (MergeEnvVars buildRun.Spec.Env build.Spec.Env true).1, u.Name = e.Name) :
    ∃ name,
      (GenerateTaskSpec x.withSpecMerge cfg build buildRun buildSteps strategyParams).2 =
        some ("error(s) occurred merging environment variables into BuildStrategy "
          ++ x.quote (x.StrategyName build.Spec) ++ " steps: "
          ++ environmentConflict name) ∧
      (∃ s ∈ buildSteps, ∃ e ∈ s.Env, e.Name = name) ∧
      (∃ u ∈ (MergeEnvVars buildRun.Spec.Env build.Spec.Env true).1, u.Name = name) := by
  rcases hc : MergeEnvVars buildRun.Spec.Env build.Spec.Env true with ⟨combinedEnvs, e⟩
  have he : e = none := by
    have := mergeEnvVar_override_ok build.Spec.Env buildRun.Spec.Env build.Spec.Env
    unfold MergeEnvVars at hc
    rw [hc] at this
    exact this
  subst he
  rw [hc] at hcol
  have hm : x.withSpecMerge.MergeEnvVars buildRun.Spec.Env build.Spec.Env true =
      (combinedEnvs, none) := hc
  rw [(GenerateTaskSpec_of_merge x.withSpecMerge cfg build buildRun buildSteps strategyParams
    combinedEnvs hm).1]
  have hfail : ∃ s ∈ buildSteps,
      (x.withSpecMerge.MergeEnvVars combinedEnvs s.Env false).2 ≠ none := by
    obtain ⟨s, hs, e, he, u, hu, hue⟩ := hcol
    obtain ⟨name, hres, _⟩ := mergeEnvVar_reject_collision s.Env combinedEnvs s.Env
      ⟨u, hu, e, he, hue.symm⟩
    refine ⟨s, hs, ?_⟩
    show (MergeEnvVars combinedEnvs s.Env false).2 ≠ none
    unfold MergeEnvVars
    rw [hres]
    exact fun h => Option.noConfusion h
  obtain ⟨s, hs, err, herr, hres⟩ := compileSteps_error x.withSpecMerge build combinedEnvs
    buildSteps (declareTaskSpec x.withSpecMerge cfg build strategyParams) hfail
  have herr' : (MergeEnvVars combinedEnvs s.Env false).2 = some err := herr
  by_cases hdis : ∀ n ∈ combinedEnvs, ∀ e ∈ s.Env, e.Name ≠ n.Name
  · unfold MergeEnvVars at herr'
    rw [mergeEnvVar_reject_disjoint s.Env combinedEnvs s.Env hdis] at herr'
    exact Option.noConfusion herr'
  · have hex : ∃ n ∈ combinedEnvs, ∃ e ∈ s.Env, e.Name = n.Name := by
      by_contra hno
      apply hdis
      intro n hn e he hname
      exact hno ⟨n, hn, e, he, hname⟩
    obtain ⟨name, hname, ⟨n, hn, hnn⟩, ⟨e, he, hen⟩⟩ :=
      mergeEnvVar_reject_collision s.Env combinedEnvs s.Env hex
    unfold MergeEnvVars at herr'
    rw [hname] at herr'
    have : err = environmentConflict name := (Option.some.inj herr').symm
    subst this
    exact ⟨name, hres, ⟨s, hs, e, he, hen⟩, ⟨n, hn, hnn⟩⟩

/-- Witness of C5: the user env sets `FOO` to `1`, the step env sets `FOO` to `2`; the
merge fails naming `FOO`. -/
theorem step_env_collision_rejected_witness :
    (∃ name,
      (GenerateTaskSpec sampleExternals.withSpecMerge sampleConfig
          (sampleBuild [] [⟨"FOO", "1"⟩] none) (sampleBuildRun [] [] none none)
          [sampleStep "s1" [⟨"FOO", "2"⟩]] []).2 =
        some ("error(s) occurred merging environment variables into BuildStrategy "
          ++ sampleExternals.quote (sampleExternals.StrategyName
              (sampleBuild [] [⟨"FOO", "1"⟩] none).Spec) ++ " steps: "
          ++ environmentConflict name) ∧
      (∃ s ∈ [sampleStep "s1" [⟨"FOO", "2"⟩]], ∃ e ∈ s.Env, e.Name = name) ∧
      (∃ u ∈ (MergeEnvVars (sampleBuildRun [] [] none none).Spec.Env
          (sampleBuild [] [⟨"FOO", "1"⟩] none).Spec.Env true).1, u.Name = name)) ∧
    (GenerateTaskSpec sampleExternals.withSpecMerge sampleConfig
        (sampleBuild [] [⟨"FOO", "1"⟩] none) (sampleBuildRun [] [] none none)
        [sampleStep "s1" [⟨"FOO", "2"⟩]] []).2 =
      some ("error(s) occurred merging environment variables into BuildStrategy \"buildah\" "
        ++ "steps: EnvironmentConflict: FOO") :=
  ⟨step_env_collision_rejected sampleExternals sampleConfig
      (sampleBuild [] [⟨"FOO", "1"⟩] none) (sampleBuildRun [] [] none none)
      [sampleStep "s1" [⟨"FOO", "2"⟩]] []
      ⟨sampleStep "s1" [⟨"FOO", "2"⟩], by decide, ⟨"FOO", "2"⟩, by decide,
        ⟨"FOO", "1"⟩, by decide, by decide⟩,
    by decide⟩

/-- Counterexample to C6: the Build env sets `FOO` to `1` and `BAR`, the BuildRun env sets
`FOO` to `2`, and the only strategy step defines `BAR` but not `FOO`;
`GenerateTaskSpec` fails with the conflict on `BAR`. -/
theorem run_env_override_counterexample :
    (⟨"FOO", "1"⟩ : EnvVar) ∈
      (sampleBuild [] [⟨"FOO", "1"⟩, ⟨"BAR", "x"⟩] none).Spec.Env ∧
    (⟨"FOO", "2"⟩ : EnvVar) ∈ (sampleBuildRun [] [⟨"FOO", "2"⟩] none none).Spec.Env ∧
    (∀ s ∈ [sampleStep "s1" [⟨"BAR", "y"⟩]], ∀ e ∈ s.Env, e.Name ≠ "FOO") ∧
    (GenerateTaskSpec sampleExternals.withSpecMerge sampleConfig
        (sampleBuild [] [⟨"FOO", "1"⟩, ⟨"BAR", "x"⟩] none)
        (sampleBuildRun [] [⟨"FOO", "2"⟩] none none)
        [sampleStep "s1" [⟨"BAR", "y"⟩]] []).2 =
      some ("error(s) occurred merging environment variables into BuildStrategy \"buildah\" "
        ++ "steps: EnvironmentConflict: BAR") := by
  decide

/-- C6 (amended, override mode): for a Build whose env has exactly one entry `FOO`, with
value `1`, a BuildRun whose env sets `FOO` to `2` (and to nothing else), and strategy
steps whose env defines no variable of the Build env or the BuildRun env (in
particular not `FOO`), `GenerateTaskSpec` succeeds; the task spec has one compiled
step per strategy step, appended in order to the declared task spec, and the env of
each contains `FOO` exactly once, with the value `2` of the BuildRun. -/
theorem run_env_overrides_build_env (x : Externals) (cfg : Config) (build : Build)
    (buildRun : BuildRun) (buildSteps : List BuildStep) (strategyParams : List Parameter)
    (hbuild : build.Spec.Env.filter (fun e => e.Name = "FOO") = [⟨"FOO", "1"⟩])
    (hrun : (⟨"FOO", "2"⟩ : EnvVar) ∈ buildRun.Spec.Env)
    (hrun2 : ∀ e ∈ buildRun.Spec.Env, e.Name = "FOO" → e.Value = "2")
    (hsteps : ∀ s ∈ buildSteps, ∀ e ∈ s.Env,
      ∀ u ∈ build.Spec.Env ++ buildRun.Spec.Env, e.Name ≠ u.Name) :
    ∃ (compiled : List Step) (volumes : List Volume),
      GenerateTaskSpec x.withSpecMerge cfg build buildRun buildSteps strategyParams =
        (some (amendImageMutate x.withSpecMerge cfg build
          { declareTaskSpec x.withSpecMerge cfg build strategyParams with
            Steps := (declareTaskSpec x.withSpecMerge cfg build strategyParams).Steps ++ compiled,
            Volumes := volumes }), none) ∧
      compiled.map (fun st => st.Name) = buildSteps.map (fun s => s.Name) ∧
      ∀ st ∈ compiled, st.Env.filter (fun e => e.Name = "FOO") = [⟨"FOO", "2"⟩] := by
  rcases hc : MergeEnvVars buildRun.Spec.Env build.Spec.Env true with ⟨combinedEnvs, e⟩
  have he : e = none := by
    have := mergeEnvVar_override_ok build.Spec.Env buildRun.Spec.Env build.Spec.Env
    unfold MergeEnvVars at hc
    rw [hc] at this
    exact this
  subst he
  have hfoo1 : (⟨"FOO", "1"⟩ : EnvVar) ∈ build.Spec.Env := by
    have : (⟨"FOO", "1"⟩ : EnvVar) ∈ build.Spec.Env.filter (fun e => e.Name = "FOO") := by
      rw [hbuild]
      exact List.mem_singleton_self _
    exact (List.mem_filter.mp this).1
  have hcomb : combinedEnvs.filter (fun e => e.Name = "FOO") = [⟨"FOO", "2"⟩] := by
    have h := mergeEnvVar_override_filter build.Spec.Env buildRun.Spec.Env "FOO" ⟨"FOO", "2"⟩
      ⟨_, hfoo1, rfl⟩
      (by
        intro n hn hname
        have hv := hrun2 n hn hname
        cases n
        simp only at hname hv
        rw [hname, hv])
      build.Spec.Env ⟨"FOO", "1"⟩ hbuild
    unfold MergeEnvVars at hc
    rw [hc] at h
    rw [h]
    have hany : buildRun.Spec.Env.any (fun n => decide (n.Name = "FOO")) = true := by
      rw [List.any_eq_true]
      exact ⟨_, hrun, by simp⟩
    rw [if_pos hany]
  have hmem : ∀ n ∈ combinedEnvs, n ∈ build.Spec.Env ++ buildRun.Spec.Env := by
    intro n hn
    have h := mergeEnvVar_override_mem build.Spec.Env buildRun.Spec.Env build.Spec.Env n
    unfold MergeEnvVars at hc
    rw [hc] at h
    exact List.mem_append.mpr (h hn)
  have hstep : ∀ s ∈ buildSteps,
      x.withSpecMerge.MergeEnvVars combinedEnvs s.Env false = (s.Env ++ combinedEnvs, none) := by
    intro s hs
    show MergeEnvVars combinedEnvs s.Env false = (s.Env ++ combinedEnvs, none)
    unfold MergeEnvVars
    exact mergeEnvVar_reject_disjoint s.Env combinedEnvs s.Env
      (fun n hn e he => hsteps s hs e he n (hmem n hn))
  have hm : x.withSpecMerge.MergeEnvVars buildRun.Spec.Env build.Spec.Env true =
      (combinedEnvs, none) := hc
  have hok := compileSteps_ok x.withSpecMerge build combinedEnvs buildSteps
    (declareTaskSpec x.withSpecMerge cfg build strategyParams)
    (fun s hs => by rw [hstep s hs])
  refine ⟨buildSteps.map
      (fun s => compileStep s (x.withSpecMerge.MergeEnvVars combinedEnvs s.Env false).1),
    buildSteps.foldl (fun vols s => addStepVolumes vols s.VolumeMounts)
      (declareTaskSpec x.withSpecMerge cfg build strategyParams).Volumes, ?_, ?_, ?_⟩
  · rw [(GenerateTaskSpec_of_merge x.withSpecMerge cfg build buildRun buildSteps strategyParams
      combinedEnvs hm).2 (by rw [hok]), hok]
  · simp [compileStep]
  · intro st hst
    rw [List.mem_map] at hst
    obtain ⟨s, hs, rfl⟩ := hst
    rw [hstep s hs]
    have hnone : s.Env.filter (fun e => e.Name = "FOO") = [] := by
      rw [List.filter_eq_nil_iff]
      intro e he
      have := hsteps s hs e he ⟨"FOO", "1"⟩ (List.mem_append_left _ hfoo1)
      simpa using this
    simp only [compileStep, List.filter_append, hnone, hcomb, List.nil_append]

/-- Witness of C6 (amended): the Build env sets `FOO` to `1` and `A`, the BuildRun env
sets `FOO` to `2` and `B`, the step env sets `C`; the compiled step has `FOO` once,
with value `2`. -/
theorem run_env_overrides_build_env_witness :
    ∃ (compiled : List Step) (volumes : List Volume),
      GenerateTaskSpec sampleExternals.withSpecMerge sampleConfig
          (sampleBuild [] [⟨"FOO", "1"⟩, ⟨"A", "a"⟩] none)
          (sampleBuildRun [] [⟨"FOO", "2"⟩, ⟨"B", "b"⟩] none none)
          [sampleStep "s1" [⟨"C", "c"⟩]] [] =
        (some (amendImageMutate sampleExternals.withSpecMerge sampleConfig
          (sampleBuild [] [⟨"FOO", "1"⟩, ⟨"A", "a"⟩] none)
          { declareTaskSpec sampleExternals.withSpecMerge sampleConfig
              (sampleBuild [] [⟨"FOO", "1"⟩, ⟨"A", "a"⟩] none) [] with
            Steps := (declareTaskSpec sampleExternals.withSpecMerge sampleConfig
              (sampleBuild [] [⟨"FOO", "1"⟩, ⟨"A", "a"⟩] none) []).Steps ++ compiled,
            Volumes := volumes }), none) ∧
      compiled.map (fun st => st.Name) =
        [sampleStep "s1" [⟨"C", "c"⟩]].map (fun s => s.Name) ∧
      ∀ st ∈ compiled, st.Env.filter (fun e => e.Name = "FOO") = [⟨"FOO", "2"⟩] :=
  run_env_overrides_build_env sampleExternals sampleConfig
    (sampleBuild [] [⟨"FOO", "1"⟩, ⟨"A", "a"⟩] none)
    (sampleBuildRun [] [⟨"FOO", "2"⟩, ⟨"B", "b"⟩] none none)
    [sampleStep "s1" [⟨"C", "c"⟩]] [] (by decide) (by decide) (by decide) (by decide)

/-! ## Annotation propagation -/

/-- C9: for a strategy annotation map and a successful `GenerateTaskRun`, the key
`kubectl.kubernetes.io/last-applied-configuration` is not among the annotations of the
TaskRun; every strategy annotation whose key is neither that key nor starts with one
of the four reserved domains followed by `/` is on the TaskRun with its value; and the
TaskRun has no annotation that the strategy does not have. -/
theorem strategy_annotations_filtered (x : Externals) (cfg : Config) (build : Build)
    (buildRun : BuildRun) (serviceAccountName : String) (strategy : BuilderStrategy)
    (tr : TaskRun) (hwf : GoMap.WF strategy.GetAnnotations)
    (h : GenerateTaskRun x cfg build buildRun serviceAccountName strategy = (some tr, none)) :
    annotationValue tr.Annotations "kubectl.kubernetes.io/last-applied-configuration" = none ∧
    (∀ k v, GoMap.get strategy.GetAnnotations k = some v →
      k ≠ "kubectl.kubernetes.io/last-applied-configuration" →
      HasPrefix k (x.ClusterBuildStrategyDomain ++ "/") = false →
      HasPrefix k (x.BuildStrategyDomain ++ "/") = false →
      HasPrefix k (x.BuildDomain ++ "/") = false →
      HasPrefix k (x.BuildRunDomain ++ "/") = false →
      annotationValue tr.Annotations k = some v) ∧
    (∀ k v, annotationValue tr.Annotations k = some v →
      GoMap.get strategy.GetAnnotations k = some v) := by
  have ha := (GenerateTaskRun_success x cfg build buildRun serviceAccountName strategy tr h).2.2
  have hval : ∀ k, annotationValue tr.Annotations k =
      GoMap.get (propagatedAnnotations x strategy.GetAnnotations) k := by
    intro k
    rw [ha]
    exact annotationValue_propagated _ k
  refine ⟨?_, ?_, ?_⟩
  · rw [hval]
    exact propagated_fold_get_filtered x strategy.GetAnnotations [] _
      (by simp [ isPropagatableAnnotation, lastAppliedConfiguration])
  · intro k v hget hk h1 h2 h3 h4
    rw [hval]
    have hp : isPropagatableAnnotation x k = true := by
      simp [ isPropagatableAnnotation, lastAppliedConfiguration, hk, h1, h2, h3, h4]
    have := propagated_fold_get x strategy.GetAnnotations [] k hwf hp
    rw [hget] at this
    exact this
  · intro k v hv
    rw [hval] at hv
    by_cases hp : isPropagatableAnnotation x k = true
    · have := propagated_fold_get x strategy.GetAnnotations [] k hwf hp
      unfold propagatedAnnotations at hv
      rw [this] at hv
      cases hg : GoMap.get strategy.GetAnnotations k with
      | none =>
        rw [hg] at hv
        exact Option.noConfusion hv
      | some w =>
        rw [hg] at hv
        exact hv
    · have hf : isPropagatableAnnotation x k = false := by
        cases hb : isPropagatableAnnotation x k with
        | true => exact absurd hb hp
        | false => rfl
      have := propagated_fold_get_filtered x strategy.GetAnnotations [] k hf
      unfold propagatedAnnotations at hv
      rw [this] at hv
      exact Option.noConfusion hv

/-- Witness of C9: of the annotations of the strategy, the one of kubectl and the one in
the build domain are dropped and `anything.else/key` is copied. -/
theorem strategy_annotations_filtered_witness :
    ∃ tr, GenerateTaskRun sampleExternals sampleConfig (sampleBuild [] [] none)
        (sampleBuildRun [] [] none none) "sa"
        (sampleStrategy
          [("kubectl.kubernetes.io/last-applied-configuration", "cfg"),
            ("anything.else/key", "v"), ("build.shipwright.io/verify", "true")]
          [sampleStep "s1" []] []) = (some tr, none) ∧
      annotationValue tr.Annotations "kubectl.kubernetes.io/last-applied-configuration" = none ∧
      annotationValue tr.Annotations "anything.else/key" = some "v" := by
  obtain ⟨tr, htr, _⟩ := GenerateTaskRun_ok sampleExternals sampleConfig
    (sampleBuild [] [] none) (sampleBuildRun [] [] none none) "sa"
    (sampleStrategy
      [("kubectl.kubernetes.io/last-applied-configuration", "cfg"),
        ("anything.else/key", "v"), ("build.shipwright.io/verify", "true")]
      [sampleStep "s1" []] []) (by decide) (by decide) (by decide)
  have h := strategy_annotations_filtered sampleExternals sampleConfig
    (sampleBuild [] [] none) (sampleBuildRun [] [] none none) "sa"
    (sampleStrategy
      [("kubectl.kubernetes.io/last-applied-configuration", "cfg"),
        ("anything.else/key", "v"), ("build.shipwright.io/verify", "true")]
      [sampleStep "s1" []] []) tr (by decide) htr
  exact ⟨tr, htr, h.1,
    h.2.1 "anything.else/key" "v" (by decide) (by decide) (by decide) (by decide)
      (by decide) (by decide)⟩

/-- Counterexample to C10: the keys `build.shipwright.io` and
`build.shipwright.io.example.com/key` have the build domain `build.shipwright.io` as a
string prefix, and the filter lets both pass. -/
theorem domain_prefix_counterexample :
    HasPrefix "build.shipwright.io" sampleExternals.BuildDomain = true ∧
    isPropagatableAnnotation sampleExternals "build.shipwright.io" = true ∧
    HasPrefix "build.shipwright.io.example.com/key" sampleExternals.BuildDomain = true ∧
    isPropagatableAnnotation sampleExternals "build.shipwright.io.example.com/key" = true := by
  decide

/-- C10 (amended): for every annotation key that has one of the four reserved API-group
domains followed by `/` as a prefix, the filter returns false, and the key is not among
the annotations of a TaskRun that `GenerateTaskRun` returns. -/
theorem reserved_domain_annotations_excluded (x : Externals) (key : String)
    (hkey : HasPrefix key (x.ClusterBuildStrategyDomain ++ "/") = true ∨
      HasPrefix key (x.BuildStrategyDomain ++ "/") = true ∨
      HasPrefix key (x.BuildDomain ++ "/") = true ∨
      HasPrefix key (x.BuildRunDomain ++ "/") = true) :
    isPropagatableAnnotation x key = false ∧
    ∀ (cfg : Config) (build : Build) (buildRun : BuildRun) (serviceAccountName : String)
      (strategy : BuilderStrategy) (tr : TaskRun),
      GenerateTaskRun x cfg build buildRun serviceAccountName strategy = (some tr, none) →
      annotationValue tr.Annotations key = none := by
  have hf : isPropagatableAnnotation x key = false := by
    rcases hkey with h | h | h | h <;> simp [ isPropagatableAnnotation, h]
  refine ⟨hf, ?_⟩
  intro cfg build buildRun serviceAccountName strategy tr h
  rw [(GenerateTaskRun_success x cfg build buildRun serviceAccountName strategy tr h).2.2,
    annotationValue_propagated]
  exact propagated_fold_get_filtered x strategy.GetAnnotations [] key hf

/-- Witness of C10 (amended): the key `buildrun.shipwright.io/name` is in the build run
domain and is filtered out. -/
theorem reserved_domain_annotations_excluded_witness :
    isPropagatableAnnotation sampleExternals "buildrun.shipwright.io/name" = false :=
  (reserved_domain_annotations_excluded sampleExternals "buildrun.shipwright.io/name"
    (Or.inr (Or.inr (Or.inr (by decide))))).1

/-! ## Result slots of the sources and their extraction -/

theorem sources.key_length_ne (a b c d : String) (h : a.length + c.length ≠ b.length + d.length)
    (n : String) : a ++ n ++ c ≠ b ++ n ++ d := by
  intro he
  have := congrArg String.length he
  simp only [String.length_append] at this
  omega

/-- C11 (the code evaluated): for every source name `n`, the result slots that
`AppendGitStep` declares are named `shp--source-<n>-commit-sha`,
`shp--source-<n>-commit-author` and `shp--source-<n>-branch-name`, and the slot that
`AppendBundleStep` declares is named `shp--source-<n>-image-digest`: the prefix `shp-`
is followed by a second hyphen, so none of them is the name `shp-source-<n>-<slot>`. -/
theorem declared_result_slot_names (x : sources.Externals) (cfg : Config) (taskSpec : TaskSpec)
    (source : Source) (buildStrategySteps : List BuildStep) (n url : String)
    (bundleContainer : BundleContainer) :
    (sources.AppendGitStep x cfg taskSpec { source with URL := some url }
        buildStrategySteps n).map (fun t => t.Results.map (fun r => r.Name)) =
      some (taskSpec.Results.map (fun r => r.Name) ++
        [ "shp--source-" ++ n ++ "-commit-sha", "shp--source-" ++ n ++ "-commit-author",
          "shp--source-" ++ n ++ "-branch-name" ]) ∧
    (sources.AppendBundleStep x cfg taskSpec { source with BundleContainer := some bundleContainer }
        buildStrategySteps n).map (fun t => t.Results.map (fun r => r.Name)) =
      some (taskSpec.Results.map (fun r => r.Name) ++ [ "shp--source-" ++ n ++ "-image-digest" ]) ∧
    "shp--source-" ++ n ++ "-commit-sha" ≠ "shp-source-" ++ n ++ "-commit-sha" ∧
    "shp--source-" ++ n ++ "-commit-author" ≠ "shp-source-" ++ n ++ "-commit-author" ∧
    "shp--source-" ++ n ++ "-branch-name" ≠ "shp-source-" ++ n ++ "-branch-name" ∧
    "shp--source-" ++ n ++ "-image-digest" ≠ "shp-source-" ++ n ++ "-image-digest" := by
  refine ⟨?_, ?_, ?_, ?_, ?_, ?_⟩
  · cases hc : source.Credentials with
    | none =>
      simp [sources.AppendGitStep, hc, sources.sprintfSourceSlot,
        sources.prefixParamsResultsVolumes, sources.commitSHAResult, sources.commitAuthorResult,
        sources.branchName, String.append_assoc]
    | some credentials =>
      simp only [sources.AppendGitStep, sources.AppendSecretVolume, hc, Option.map_some']
      split <;>
        simp [sources.sprintfSourceSlot, sources.prefixParamsResultsVolumes,
          sources.commitSHAResult, sources.commitAuthorResult, sources.branchName,
          String.append_assoc]
  · cases hc : source.Credentials with
    | none =>
      simp [sources.AppendBundleStep, hc, sources.sprintfSourceImageDigest,
        sources.prefixParamsResultsVolumes, String.append_assoc]
    | some credentials =>
      simp only [sources.AppendBundleStep, sources.AppendSecretVolume, hc, Option.map_some']
      split <;>
        simp [sources.sprintfSourceImageDigest, sources.prefixParamsResultsVolumes,
          String.append_assoc]
  · exact sources.key_length_ne _ _ _ _ (by decide) n
  · exact sources.key_length_ne _ _ _ _ (by decide) n
  · exact sources.key_length_ne _ _ _ _ (by decide) n
  · exact sources.key_length_ne _ _ _ _ (by decide) n

/-- C12 (the code evaluated at the failing input): the reported results hold the key
`shp-source-a-commit-sha` with the value `abc123` and nothing else; `AppendGitResult`
for the source `a` looks up the keys `shp--source-a-...`, finds no value and appends
no source result. -/
theorem commit_sha_result_not_found :
    sources.AppendGitResult sources.sampleExternals (sampleBuildRun [] [] none none) "a"
        [⟨"shp-source-a-commit-sha", "abc123"⟩] = sampleBuildRun [] [] none none ∧
    (sources.AppendGitResult sources.sampleExternals (sampleBuildRun [] [] none none) "a"
        [⟨"shp-source-a-commit-sha", "abc123"⟩]).Status.Sources = [] ∧
    (sources.AppendGitResult sources.sampleExternals (sampleBuildRun [] [] none none) "a"
        [⟨"shp--source-a-commit-sha", "abc123"⟩]).Status.Sources =
      [{ Name := "a",
         Git := some { CommitSha := "abc123", CommitAuthor := "", BranchName := "" },
         Bundle := none }] := by
  decide

/-- C13: when each of the three values that `AppendGitResult` looks up for the source `n`
(commit-sha, commit-author, branch-name) is blank after trimming, which is the case for
an absent, an empty and a whitespace-only value, the build run is returned as it is:
`Status.Sources` is unchanged. -/
theorem blank_git_results_not_recorded (x : sources.Externals) (buildRun : BuildRun)
    (n : String) (results : List TaskRunResult)
    (hsha : TrimSpace (x.findResultValue results
      (sources.sprintfSourceSlot sources.prefixParamsResultsVolumes n sources.commitSHAResult))
      = "")
    (hauthor : TrimSpace (x.findResultValue results
      (sources.sprintfSourceSlot sources.prefixParamsResultsVolumes n
        sources.commitAuthorResult)) = "")
    (hbranch : TrimSpace (x.findResultValue results
      (sources.sprintfSourceSlot sources.prefixParamsResultsVolumes n sources.branchName))
      = "") :
    sources.AppendGitResult x buildRun n results = buildRun ∧
    (sources.AppendGitResult x buildRun n results).Status.Sources = buildRun.Status.Sources := by
  have h : sources.AppendGitResult x buildRun n results = buildRun := by
    simp [sources.AppendGitResult, hsha, hauthor, hbranch]
  exact ⟨h, by rw [h]⟩

/-- Witness of C13: for the source `a` the commit-sha is reported empty, the
commit-author as white space and the branch name not at all. -/
theorem blank_git_results_not_recorded_witness :
    sources.AppendGitResult sources.sampleExternals (sampleBuildRun [] [] none none) "a"
        [⟨"shp--source-a-commit-sha", ""⟩, ⟨"shp--source-a-commit-author", " \t "⟩,
          ⟨"shp--source-b-branch-name", "main"⟩] = sampleBuildRun [] [] none none :=
  (blank_git_results_not_recorded sources.sampleExternals (sampleBuildRun [] [] none none) "a"
    [⟨"shp--source-a-commit-sha", ""⟩, ⟨"shp--source-a-commit-author", " \t "⟩,
      ⟨"shp--source-b-branch-name", "main"⟩] (by decide) (by decide) (by decide)).1

/-- C14: if at least one of the three values that `AppendGitResult` looks up for `n` is
non-blank after trimming, `Status.Sources` is the previous list followed by exactly one
element, which has the name `n`, a Git result and no Bundle result, and nothing else
of the build run changes; and in no case does one call append more than one element. -/
theorem git_result_appended_once (x : sources.Externals) (buildRun : BuildRun)
    (n : String) (results : List TaskRunResult) :
    ((TrimSpace (x.findResultValue results
          (sources.sprintfSourceSlot sources.prefixParamsResultsVolumes n
            sources.commitAuthorResult)) ≠ "" ∨
        TrimSpace (x.findResultValue results
          (sources.sprintfSourceSlot sources.prefixParamsResultsVolumes n
            sources.commitSHAResult)) ≠ "" ∨
        TrimSpace (x.findResultValue results
          (sources.sprintfSourceSlot sources.prefixParamsResultsVolumes n
            sources.branchName)) ≠ "") →
      ∃ e : SourceResult,
        (sources.AppendGitResult x buildRun n results).Status.Sources =
          buildRun.Status.Sources ++ [e] ∧
        e.Name = n ∧ e.Git ≠ none ∧ e.Bundle = none ∧
        sources.AppendGitResult x buildRun n results =
          { buildRun with Status := { Sources := buildRun.Status.Sources ++ [e] } }) ∧
    ((sources.AppendGitResult x buildRun n results).Status.Sources = buildRun.Status.Sources ∨
      ∃ e : SourceResult, (sources.AppendGitResult x buildRun n results).Status.Sources =
        buildRun.Status.Sources ++ [e]) := by
  constructor
  · intro h
    refine ⟨{ Name := n,
              Git := some
                { CommitAuthor := x.findResultValue results
                    (sources.sprintfSourceSlot sources.prefixParamsResultsVolumes n
                      sources.commitAuthorResult),
                  CommitSha := x.findResultValue results
                    (sources.sprintfSourceSlot sources.prefixParamsResultsVolumes n
                      sources.commitSHAResult),
                  BranchName := x.findResultValue results
                    (sources.sprintfSourceSlot sources.prefixParamsResultsVolumes n
                      sources.branchName) },
              Bundle := none }, ?_, rfl, ?_, rfl, ?_⟩
    · simp only [sources.AppendGitResult, if_pos h]
    · simp
    · simp only [sources.AppendGitResult, if_pos h]
  · unfold sources.AppendGitResult
    dsimp only
    split
    · exact Or.inr ⟨_, rfl⟩
    · exact Or.inl rfl

/-- Witness of C14: only the branch name of the source `a` is reported; one element is
appended after the source result that the build run already has. -/
theorem git_result_appended_once_witness :
    ∃ e : SourceResult,
      (sources.AppendGitResult sources.sampleExternals
          { sampleBuildRun [] [] none none with
            Status := { Sources := [⟨"b", none, some ⟨"sha256:0"⟩⟩] } } "a"
          [⟨"shp--source-a-branch-name", "main"⟩]).Status.Sources =
        [⟨"b", none, some ⟨"sha256:0"⟩⟩] ++ [e] ∧
      e.Name = "a" ∧ e.Git ≠ none ∧ e.Bundle = none := by
  obtain ⟨e, he, hn, hg, hb, _⟩ := (git_result_appended_once sources.sampleExternals
    { sampleBuildRun [] [] none none with
      Status := { Sources := [⟨"b", none, some ⟨"sha256:0"⟩⟩] } } "a"
    [⟨"shp--source-a-branch-name", "main"⟩]).1 (Or.inr (Or.inr (by decide)))
  exact ⟨e, he, hn, hg, hb⟩

/-- Counterexample to C15: for the source `a` the commit-sha `abc` is reported together
with the whitespace-only commit-author of three blanks; the appended Git result
records the three blanks as `CommitAuthor`, not the empty string. -/
theorem whitespace_slot_recorded_counterexample :
    TrimSpace "   " = "" ∧
    (sources.AppendGitResult sources.sampleExternals (sampleBuildRun [] [] none none) "a"
        [⟨"shp--source-a-commit-sha", "abc"⟩,
          ⟨"shp--source-a-commit-author", "   "⟩]).Status.Sources =
      [{ Name := "a",
         Git := some { CommitSha := "abc", CommitAuthor := "   ", BranchName := "" },
         Bundle := none }] ∧
    ("   " : String) ≠ "" := by
  decide

/-- C15 (amended): in the source result that `AppendGitResult` appends, each field
(`CommitSha`, `CommitAuthor`, `BranchName`) of the Git result is the value looked up for
its slot, unchanged; so the field of a slot whose value is the empty string is the
empty string, and a whitespace-only value is recorded as it was reported. -/
theorem git_result_fields_verbatim (x : sources.Externals) (buildRun : BuildRun)
    (n : String) (results : List TaskRunResult)
    (h : TrimSpace (x.findResultValue results
          (sources.sprintfSourceSlot sources.prefixParamsResultsVolumes n
            sources.commitAuthorResult)) ≠ "" ∨
        TrimSpace (x.findResultValue results
          (sources.sprintfSourceSlot sources.prefixParamsResultsVolumes n
            sources.commitSHAResult)) ≠ "" ∨
        TrimSpace (x.findResultValue results
          (sources.sprintfSourceSlot sources.prefixParamsResultsVolumes n
            sources.branchName)) ≠ "") :
    (sources.AppendGitResult x buildRun n results).Status.Sources =
      buildRun.Status.Sources ++
        [{ Name := n,
           Git := some
             { CommitSha := x.findResultValue results
                 (sources.sprintfSourceSlot sources.prefixParamsResultsVolumes n
                   sources.commitSHAResult),
               CommitAuthor := x.findResultValue results
                 (sources.sprintfSourceSlot sources.prefixParamsResultsVolumes n
                   sources.commitAuthorResult),
               BranchName := x.findResultValue results
                 (sources.sprintfSourceSlot sources.prefixParamsResultsVolumes n
                   sources.branchName) },
           Bundle := none }] := by
  simp only [sources.AppendGitResult, if_pos h]

/-- Witness of C15 (amended): the commit-sha `abc` is reported for the source `a` and its
commit-author is reported empty; the fields are `abc` and the empty string. -/
theorem git_result_fields_verbatim_witness :
    (sources.AppendGitResult sources.sampleExternals (sampleBuildRun [] [] none none) "a"
        [⟨"shp--source-a-commit-sha", "abc"⟩,
          ⟨"shp--source-a-commit-author", ""⟩]).Status.Sources =
      [{ Name := "a",
         Git := some { CommitSha := "abc", CommitAuthor := "", BranchName := "" },
         Bundle := none }] :=
  (git_result_fields_verbatim sources.sampleExternals (sampleBuildRun [] [] none none) "a"
    [⟨"shp--source-a-commit-sha", "abc"⟩, ⟨"shp--source-a-commit-author", ""⟩]
    (Or.inr (Or.inl (by decide)))).trans (by decide)

/-- C16: `AppendBundleResult` appends exactly one source result, with the name `n`, the
Bundle digest `d` and no Git result, when the value `d` looked up for the image-digest
slot of `n` is non-blank after trimming; otherwise it returns the build run, and so
`Status.Sources`, unchanged. -/
theorem bundle_result_recorded (x : sources.Externals) (buildRun : BuildRun)
    (n : String) (results : List TaskRunResult) :
    (TrimSpace (x.findResultValue results
        (sources.sprintfSourceImageDigest sources.prefixParamsResultsVolumes n)) ≠ "" →
      sources.AppendBundleResult x buildRun n results =
        { buildRun with
          Status :=
            { Sources := buildRun.Status.Sources ++
                [{ Name := n, Git := none,
                   Bundle := some
                     { Digest := x.findResultValue results
                         (sources.sprintfSourceImageDigest
                           sources.prefixParamsResultsVolumes n) } }] } }) ∧
    (TrimSpace (x.findResultValue results
        (sources.sprintfSourceImageDigest sources.prefixParamsResultsVolumes n)) = "" →
      sources.AppendBundleResult x buildRun n results = buildRun) := by
  constructor
  · intro h
    simp only [sources.AppendBundleResult, if_pos h]
  · intro h
    simp [sources.AppendBundleResult, h]

/-- Witness of C16: the digest of the source `a` is reported, so it is recorded; for the
source `b` only white space is reported, so nothing is recorded. -/
theorem bundle_result_recorded_witness :
    (sources.AppendBundleResult sources.sampleExternals (sampleBuildRun [] [] none none) "a"
        [⟨"shp--source-a-image-digest", "sha256:1f"⟩,
          ⟨"shp--source-b-image-digest", "  "⟩]).Status.Sources =
      [{ Name := "a", Git := none, Bundle := some { Digest := "sha256:1f" } }] ∧
    sources.AppendBundleResult sources.sampleExternals (sampleBuildRun [] [] none none) "b"
        [⟨"shp--source-a-image-digest", "sha256:1f"⟩,
          ⟨"shp--source-b-image-digest", "  "⟩] = sampleBuildRun [] [] none none :=
  ⟨(congrArg (fun b => b.Status.Sources)
      ((bundle_result_recorded sources.sampleExternals (sampleBuildRun [] [] none none) "a"
        [⟨"shp--source-a-image-digest", "sha256:1f"⟩,
          ⟨"shp--source-b-image-digest", "  "⟩]).1 (by decide))).trans (by decide),
    (bundle_result_recorded sources.sampleExternals (sampleBuildRun [] [] none none) "b"
      [⟨"shp--source-a-image-digest", "sha256:1f"⟩,
        ⟨"shp--source-b-image-digest", "  "⟩]).2 (by decide)⟩

/-! ## Secret volumes and the git step -/

theorem sources.AppendSecretVolume_of_present (taskSpec : TaskSpec) (s : String)
    (h : ∃ v ∈ taskSpec.Volumes, v.Secret ≠ none ∧ v.Name = sources.prefixParamsResultsVolumes ++ s) :
    sources.AppendSecretVolume taskSpec s = taskSpec := by
  have hany : taskSpec.Volumes.any
      (fun volume => decide (volume.Secret ≠ none ∧
        volume.Name = sources.prefixParamsResultsVolumes ++ s)) = true := by
    rw [List.any_eq_true]
    obtain ⟨v, hv, hp⟩ := h
    exact ⟨v, hv, by simpa using hp⟩
  simp only [sources.AppendSecretVolume, hany, if_true]

theorem sources.AppendSecretVolume_of_absent (taskSpec : TaskSpec) (s : String)
    (h : ¬ ∃ v ∈ taskSpec.Volumes, v.Secret ≠ none ∧
      v.Name = sources.prefixParamsResultsVolumes ++ s) :
    sources.AppendSecretVolume taskSpec s =
      { taskSpec with
        Volumes := taskSpec.Volumes ++
          [{ Name := sources.prefixParamsResultsVolumes ++ s,
             Secret := some { SecretName := s, DefaultMode := sources.secretMountMode } }] } := by
  have hany : ¬ taskSpec.Volumes.any
      (fun volume => decide (volume.Secret ≠ none ∧
        volume.Name = sources.prefixParamsResultsVolumes ++ s)) = true := by
    rw [List.any_eq_true]
    rintro ⟨v, hv, hp⟩
    exact h ⟨v, hv, by simpa using hp⟩
  simp only [sources.AppendSecretVolume, hany, Bool.false_eq_true, if_false]

/-- C17: `AppendSecretVolume` is idempotent: a second call with the same secret name
leaves the task spec of the first call as it is; and the first call on a task spec
without a secret volume of that name appends exactly one volume, whose secret has the
name `s` and the default mode `0444` (octal), so that after both calls there is one
such volume. -/
theorem secret_volume_idempotent (taskSpec : TaskSpec) (s : String) :
    sources.AppendSecretVolume (sources.AppendSecretVolume taskSpec s) s =
      sources.AppendSecretVolume taskSpec s ∧
    ((∀ v ∈ taskSpec.Volumes, ¬ (v.Secret ≠ none ∧ v.Name = "shp-" ++ s)) →
      (sources.AppendSecretVolume taskSpec s).Volumes =
        taskSpec.Volumes ++
          [{ Name := "shp-" ++ s,
             Secret := some { SecretName := s, DefaultMode := some 0o444 } }] ∧
      ((sources.AppendSecretVolume (sources.AppendSecretVolume taskSpec s) s).Volumes.filter
        (fun v => v.Secret ≠ none ∧ v.Name = "shp-" ++ s)).length = 1) := by
  have hidem : sources.AppendSecretVolume (sources.AppendSecretVolume taskSpec s) s =
      sources.AppendSecretVolume taskSpec s := by
    by_cases h : ∃ v ∈ taskSpec.Volumes, v.Secret ≠ none ∧
        v.Name = sources.prefixParamsResultsVolumes ++ s
    · rw [sources.AppendSecretVolume_of_present taskSpec s h,
        sources.AppendSecretVolume_of_present taskSpec s h]
    · rw [sources.AppendSecretVolume_of_absent taskSpec s h]
      apply sources.AppendSecretVolume_of_present
      exact ⟨_, List.mem_append_right _ (List.mem_singleton_self _), by simp, rfl⟩
  refine ⟨hidem, fun hno => ?_⟩
  have habs : ¬ ∃ v ∈ taskSpec.Volumes, v.Secret ≠ none ∧
      v.Name = sources.prefixParamsResultsVolumes ++ s := by
    rintro ⟨v, hv, hp⟩
    exact hno v hv hp
  have hfilter : taskSpec.Volumes.filter
      (fun v => decide (v.Secret ≠ none ∧ v.Name = "shp-" ++ s)) = [] := by
    rw [List.filter_eq_nil_iff]
    intro v hv
    simpa using hno v hv
  rw [hidem, sources.AppendSecretVolume_of_absent taskSpec s habs]
  refine ⟨rfl, ?_⟩
  simp only [List.filter_append, hfilter, List.nil_append]
  simp [sources.prefixParamsResultsVolumes]

/-- Witness of C17: two sources reference the credential `cred` in a task spec that has
one other volume; the secret volume is there once. -/
theorem secret_volume_idempotent_witness :
    (sources.AppendSecretVolume
        (sources.AppendSecretVolume (sources.sampleTaskSpec [⟨"cache", none⟩]) "cred")
        "cred").Volumes =
      [⟨"cache", none⟩, ⟨"shp-cred", some ⟨"cred", some 0o444⟩⟩] :=
  ((congrArg (fun t => t.Volumes)
    (secret_volume_idempotent (sources.sampleTaskSpec [⟨"cache", none⟩]) "cred").1).trans
    ((secret_volume_idempotent (sources.sampleTaskSpec [⟨"cache", none⟩]) "cred").2
      (by decide)).1).trans (by decide)

/-- Counterexample to C18: the task spec has one volume, named `shp-s`, that is not a
secret volume; after `AppendSecretVolume` for the secret `s` two volumes have the name
`shp-s`. -/
theorem volume_names_distinct_counterexample :
    ((sources.sampleTaskSpec [⟨"shp-s", none⟩]).Volumes.map (fun v => v.Name)).Nodup ∧
    (sources.AppendSecretVolume (sources.sampleTaskSpec [⟨"shp-s", none⟩]) "s").Volumes.map
        (fun v => v.Name) = ["shp-s", "shp-s"] ∧
    ¬ ((sources.AppendSecretVolume (sources.sampleTaskSpec [⟨"shp-s", none⟩]) "s").Volumes.map
        (fun v => v.Name)).Nodup := by
  decide

/-- C18 (amended): `AppendSecretVolume` deduplicates against the secret volumes: for every
task spec whose volumes have pairwise distinct names and in which every volume with the
name `shp-` followed by `s` is a secret volume, the volumes after
`AppendSecretVolume` for `s` still have pairwise distinct names. -/
theorem secret_volume_names_distinct (taskSpec : TaskSpec) (s : String)
    (hnodup : (taskSpec.Volumes.map (fun v => v.Name)).Nodup)
    (hsecret : ∀ v ∈ taskSpec.Volumes, v.Name = "shp-" ++ s → v.Secret ≠ none) :
    ((sources.AppendSecretVolume taskSpec s).Volumes.map (fun v => v.Name)).Nodup := by
  by_cases h : ∃ v ∈ taskSpec.Volumes, v.Secret ≠ none ∧
      v.Name = sources.prefixParamsResultsVolumes ++ s
  · rw [sources.AppendSecretVolume_of_present taskSpec s h]
    exact hnodup
  · rw [sources.AppendSecretVolume_of_absent taskSpec s h]
    simp only [List.map_append, List.map_cons, List.map_nil]
    rw [List.nodup_append]
    refine ⟨hnodup, List.nodup_singleton _, ?_⟩
    intro name hname hname2
    rw [List.mem_singleton] at hname2
    rw [List.mem_map] at hname
    obtain ⟨v, hv, hvn⟩ := hname
    exact h ⟨v, hv, hsecret v hv (hvn.trans hname2), hvn.trans hname2⟩

/-- Witness of C18 (amended): the task spec has the secret volume of `s` and one other
volume; the names stay distinct. -/
theorem secret_volume_names_distinct_witness :
    ((sources.AppendSecretVolume
        (sources.sampleTaskSpec [⟨"shp-s", some ⟨"s", some 0o444⟩⟩, ⟨"cache", none⟩])
        "s").Volumes.map (fun v => v.Name)).Nodup :=
  secret_volume_names_distinct
    (sources.sampleTaskSpec [⟨"shp-s", some ⟨"s", some 0o444⟩⟩, ⟨"cache", none⟩]) "s"
    (by decide) (by decide)

theorem sources.literal_append_ne (a b t : String) (c d : Char) (r q : List Char)
    (ha : a.data = c :: r) (ht : t.data = d :: q) (hcd : c ≠ d) : a ++ b ≠ t := by
  intro h
  have h2 := congrArg String.data h
  rw [String.data_append, ha, ht] at h2
  simp only [List.cons_append, List.cons.injEq] at h2
  exact hcd h2.1

theorem sources.AppendSecretVolume_results (t : TaskSpec) (r : List TaskResult) (c : String) :
    sources.AppendSecretVolume { t with Results := r } c =
      { sources.AppendSecretVolume t c with Results := r } := by
  unfold sources.AppendSecretVolume
  dsimp only
  split <;> rfl

theorem sources.AppendGitStep_eq (x : sources.Externals) (cfg : Config) (taskSpec : TaskSpec)
    (source : Source) (buildStrategySteps : List BuildStep) (n url : String)
    (hurl : source.URL = some url) :
    sources.AppendGitStep x cfg taskSpec source buildStrategySteps n =
      some
        { Params := taskSpec.Params,
          Workspaces := taskSpec.Workspaces,
          Results := taskSpec.Results ++
            [ { Name := sources.sprintfSourceSlot sources.prefixParamsResultsVolumes n
                  sources.commitSHAResult,
                Description := "The commit SHA of the cloned source." },
              { Name := sources.sprintfSourceSlot sources.prefixParamsResultsVolumes n
                  sources.commitAuthorResult,
                Description := "The author of the last commit of the cloned source." },
              { Name := sources.sprintfSourceSlot sources.prefixParamsResultsVolumes n
                  sources.branchName,
                Description := "The name of the branch used of the cloned source." } ],
          Volumes :=
            (match source.Credentials with
              | some credentials => (sources.AppendSecretVolume taskSpec credentials).Volumes
              | none => taskSpec.Volumes),
          Steps := taskSpec.Steps ++
            [sources.withRunAs x (sources.gitStepConfigured x cfg source url n)
              buildStrategySteps] } := by
  unfold sources.AppendGitStep sources.withRunAs sources.gitStepConfigured sources.gitStepArgs
  rw [hurl]
  cases hc : source.Credentials with
  | none =>
    cases hrev : source.Revision <;> cases hrw : cfg.GitRewriteRule <;> rfl
  | some credentials =>
    dsimp only
    rw [sources.AppendSecretVolume_results]
    by_cases h : ∃ v ∈ taskSpec.Volumes, v.Secret ≠ none ∧
        v.Name = sources.prefixParamsResultsVolumes ++ credentials
    · rw [sources.AppendSecretVolume_of_present taskSpec credentials h]
      cases hrev : source.Revision <;> cases hrw : cfg.GitRewriteRule <;> rfl
    · rw [sources.AppendSecretVolume_of_absent taskSpec credentials h]
      cases hrev : source.Revision <;> cases hrw : cfg.GitRewriteRule <;> rfl

/-- Counterexample to C19: the git source has no credentials and the revision
`--secret-path`; the args of the git step contain `--secret-path`. -/
theorem git_step_secret_path_counterexample :
    (sources.sampleGitSource (some "--secret-path") none).Credentials = none ∧
    (sources.AppendGitStep sources.sampleExternals sampleConfig (sources.sampleTaskSpec [])
        (sources.sampleGitSource (some "--secret-path") none) [] "a").map
      (fun t => t.Steps.map (fun st => st.Args.contains "--secret-path")) = some [true] := by
  decide

/-- C19 (amended): for a git source (its URL is set) `AppendGitStep` appends one step.  If
the credentials are set, the step has the volume mounts of the step template followed
by exactly one more, which is read-only and mounted at the fixed path
`/workspace/shp--source-secret`, and its args end with `--secret-path` and that path.
If the credentials are nil, the step has the volume mounts of the template and no
other, the volumes of the task are unchanged, and the args contain `--secret-path`
only if the URL or the revision of the source is that string. -/
theorem git_step_credentials (x : sources.Externals) (cfg : Config) (taskSpec : TaskSpec)
    (source : Source) (buildStrategySteps : List BuildStep) (n url : String)
    (hurl : source.URL = some url) :
    ∃ (t : TaskSpec) (gitStep : Step),
      sources.AppendGitStep x cfg taskSpec source buildStrategySteps n = some t ∧
      t.Steps = taskSpec.Steps ++ [gitStep] ∧
      (∀ credentials, source.Credentials = some credentials →
        gitStep.VolumeMounts = cfg.GitContainerTemplate.VolumeMounts ++
          [{ Name := x.SanitizeVolumeNameForSecretName credentials,
             MountPath := "/workspace/shp--source-secret",
             ReadOnly := true }] ∧
        ∃ base, gitStep.Args = base ++ ["--secret-path", "/workspace/shp--source-secret"]) ∧
      (source.Credentials = none →
        gitStep.VolumeMounts = cfg.GitContainerTemplate.VolumeMounts ∧
        t.Volumes = taskSpec.Volumes ∧
        (url ≠ "--secret-path" → source.Revision ≠ some "--secret-path" →
          "--secret-path" ∉ gitStep.Args)) := by
  have hne : ∀ s : String, "--secret-path" ≠ "$(results." ++ s := fun s h =>
    sources.literal_append_ne "$(results." s "--secret-path" '$' '-' _ _ rfl rfl (by decide)
      h.symm
  refine ⟨_, _, sources.AppendGitStep_eq x cfg taskSpec source buildStrategySteps n url hurl,
    rfl, ?_, ?_⟩
  · intro credentials hc
    constructor
    · simp only [sources.withRunAs, sources.UpdateSecurityContext, sources.gitStepConfigured, hc]
      rfl
    · simp only [sources.withRunAs, sources.UpdateSecurityContext, sources.gitStepConfigured,
        sources.gitStepArgs, hc]
      exact ⟨_, rfl⟩
  · intro hc
    refine ⟨?_, ?_, ?_⟩
    · simp only [sources.withRunAs, sources.UpdateSecurityContext, sources.gitStepConfigured, hc]
    · simp only [hc]
    · intro hu hr
      have hu2 : ¬ "--secret-path" = url := fun h => hu h.symm
      simp only [sources.withRunAs, sources.UpdateSecurityContext, sources.gitStepConfigured,
        sources.gitStepArgs, hc]
      cases hrev : source.Revision with
      | none =>
        cases hrw : cfg.GitRewriteRule <;>
          simp [hu2, String.append_assoc, hne, sources.prefixParamsResultsVolumes,
            sources.paramSourceRoot]
      | some revision =>
        have hr2 : ¬ "--secret-path" = revision := by
          intro h
          apply hr
          rw [hrev, h]
        cases hrw : cfg.GitRewriteRule <;>
          simp [hu2, hr2, String.append_assoc, hne, sources.prefixParamsResultsVolumes,
            sources.paramSourceRoot]

/-- Witness of C19 (amended): a git source with the credentials `cred` and a revision;
the step has the one read-only mount and its args end with the secret path. -/
theorem git_step_credentials_witness :
    ∃ (t : TaskSpec) (gitStep : Step),
      sources.AppendGitStep sources.sampleExternals sampleConfig (sources.sampleTaskSpec [])
        (sources.sampleGitSource (some "main") (some "cred")) [] "a" = some t ∧
      t.Steps = [gitStep] ∧
      gitStep.VolumeMounts = [⟨"shp-cred", "/workspace/shp--source-secret", true⟩] ∧
      ∃ base, gitStep.Args = base ++ ["--secret-path", "/workspace/shp--source-secret"] := by
  obtain ⟨t, gitStep, ht, hs, hcred, _⟩ := git_step_credentials sources.sampleExternals
    sampleConfig (sources.sampleTaskSpec []) (sources.sampleGitSource (some "main") (some "cred"))
    [] "a" "https://github.com/shipwright-io/sample-go" rfl
  exact ⟨t, gitStep, ht, hs, (hcred "cred" rfl).1, (hcred "cred" rfl).2⟩

/-! ## Parameters of the task spec -/

theorem compileSteps_params (x : Externals) (build : Build) (combinedEnvs : List EnvVar)
    (buildSteps : List BuildStep) (taskSpec : TaskSpec) :
    (compileSteps x build combinedEnvs buildSteps taskSpec).1.Params = taskSpec.Params := by
  induction buildSteps generalizing taskSpec with
  | nil => rfl
  | cons s rest ih =>
    rcases hm : x.MergeEnvVars combinedEnvs s.Env false with ⟨stepEnv, e⟩
    cases e with
    | some err => simp only [compileSteps, hm]
    | none =>
      simp only [compileSteps, hm]
      rw [ih]

theorem GenerateTaskSpec_success_params (x : Externals) (cfg : Config) (build : Build)
    (buildRun : BuildRun) (buildSteps : List BuildStep) (strategyParams : List Parameter)
    (ts : TaskSpec)
    (h : GenerateTaskSpec x cfg build buildRun buildSteps strategyParams = (some ts, none)) :
    ∃ generated : TaskSpec, ts = amendImageMutate x cfg build generated ∧
      generated.Params = (declareTaskSpec x cfg build strategyParams).Params := by
  rcases hm : x.MergeEnvVars buildRun.Spec.Env build.Spec.Env true with ⟨combinedEnvs, e⟩
  cases e with
  | some err =>
    unfold GenerateTaskSpec at h
    rw [hm] at h
    simp at h
  | none =>
    have h2 := GenerateTaskSpec_of_merge x cfg build buildRun buildSteps strategyParams
      combinedEnvs hm
    have hnone : (compileSteps x build combinedEnvs buildSteps
        (declareTaskSpec x cfg build strategyParams)).2 = none := by
      rw [← h2.1, h]
    have h3 := h2.2 hnone
    rw [h] at h3
    simp only [Prod.mk.injEq, Option.some.injEq, and_true] at h3
    exact ⟨_, h3, compileSteps_params x build combinedEnvs buildSteps _⟩

/-- Counterexample to C20: the strategy declares a parameter `DOCKERFILE`;
`GenerateTaskSpec` succeeds and the parameters of the task spec have the name
`DOCKERFILE` twice. -/
theorem task_spec_params_distinct_counterexample :
    (GenerateTaskSpec sampleExternals sampleConfig (sampleBuild [] [] none)
        (sampleBuildRun [] [] none none) [sampleStep "s1" []] [⟨"DOCKERFILE", "", none⟩]).2 =
      none ∧
    (GenerateTaskSpec sampleExternals sampleConfig (sampleBuild [] [] none)
        (sampleBuildRun [] [] none none) [sampleStep "s1" []] [⟨"DOCKERFILE", "", none⟩]).1.map
      (fun t => t.Params.map (fun p => p.Name)) =
      some ["DOCKERFILE", "CONTEXT_DIR", "shp-output-image", "shp-source-context",
        "shp-source-root", "DOCKERFILE"] ∧
    ¬ (["DOCKERFILE", "CONTEXT_DIR", "shp-output-image", "shp-source-context",
        "shp-source-root", "DOCKERFILE"] : List String).Nodup := by
  decide

/-- C20 (amended): when `GenerateTaskSpec` succeeds, and the amendments for the sources and
for the image mutation add no parameter, the parameters of the task spec are named
`DOCKERFILE`, `CONTEXT_DIR`, `shp-output-image`, `shp-source-context`,
`shp-source-root`, then `BUILDER_IMAGE` if the Build has a builder, then the strategy
parameters in their order; so no two entries have the same name if and only if the
strategy parameters have pairwise distinct names and none of them has one of these
built-in names. -/
theorem task_spec_param_names (x : Externals) (cfg : Config) (build : Build)
    (buildRun : BuildRun) (buildSteps : List BuildStep) (strategyParams : List Parameter)
    (ts : TaskSpec)
    (hsrc : ∀ spec, (x.AmendTaskSpecWithSources cfg spec build).Params = spec.Params)
    (himg : ∀ spec,
      (x.amendTaskSpecWithImageMutate cfg spec build.Spec.Output).Params = spec.Params)
    (h : GenerateTaskSpec x cfg build buildRun buildSteps strategyParams = (some ts, none)) :
    ts.Params.map (fun p => p.Name) =
      ["DOCKERFILE", "CONTEXT_DIR", "shp-output-image", "shp-source-context",
        "shp-source-root"] ++
      (if build.Spec.Builder.isSome then ["BUILDER_IMAGE"] else []) ++
      strategyParams.map (fun p => p.Name) ∧
    ((ts.Params.map (fun p => p.Name)).Nodup ↔
      (strategyParams.map (fun p => p.Name)).Nodup ∧
      ∀ p ∈ strategyParams,
        p.Name ∉ ["DOCKERFILE", "CONTEXT_DIR", "shp-output-image", "shp-source-context",
          "shp-source-root"] ++
          (if build.Spec.Builder.isSome then ["BUILDER_IMAGE"] else [])) := by
  obtain ⟨generated, hts, hgen⟩ :=
    GenerateTaskSpec_success_params x cfg build buildRun buildSteps strategyParams ts h
  have hparams : ts.Params = (declareTaskSpec x cfg build strategyParams).Params := by
    rw [hts, ← hgen]
    unfold amendImageMutate
    split
    · exact himg generated
    · rfl
  have hnames : ts.Params.map (fun p => p.Name) =
      ["DOCKERFILE", "CONTEXT_DIR", "shp-output-image", "shp-source-context",
        "shp-source-root"] ++
      (if build.Spec.Builder.isSome then ["BUILDER_IMAGE"] else []) ++
      strategyParams.map (fun p => p.Name) := by
    rw [hparams]
    unfold declareTaskSpec
    dsimp only
    rw [hsrc]
    cases hb : build.Spec.Builder with
    | none =>
      simp only [List.map_append, List.map_map]
      rfl
    | some builder =>
      simp only [List.map_append, List.map_map]
      rfl
  refine ⟨hnames, ?_⟩
  rw [hnames, List.nodup_append]
  have hbuiltin : (["DOCKERFILE", "CONTEXT_DIR", "shp-output-image", "shp-source-context",
        "shp-source-root"] ++
      (if build.Spec.Builder.isSome then ["BUILDER_IMAGE"] else []) : List String).Nodup := by
    cases build.Spec.Builder with
    | none => decide
    | some builder =>
      show (["DOCKERFILE", "CONTEXT_DIR", "shp-output-image", "shp-source-context",
        "shp-source-root", "BUILDER_IMAGE"] : List String).Nodup
      decide
  constructor
  · rintro ⟨_, hs, hdis⟩
    refine ⟨hs, fun p hp hmem => hdis hmem (List.mem_map.mpr ⟨p, hp, rfl⟩)⟩
  · rintro ⟨hs, hnot⟩
    refine ⟨hbuiltin, hs, ?_⟩
    intro name hname hmem
    obtain ⟨p, hp, rfl⟩ := List.mem_map.mp hmem
    exact hnot p hp hname

/-- Witness of C20 (amended): the strategy declares the parameters `a` and `b`; the six
names of the task spec parameters are distinct. -/
theorem task_spec_param_names_witness :
    ∃ ts, GenerateTaskSpec sampleExternals sampleConfig (sampleBuild [] [] none)
        (sampleBuildRun [] [] none none) [sampleStep "s1" []]
        [⟨"a", "", none⟩, ⟨"b", "", some "x"⟩] = (some ts, none) ∧
      (ts.Params.map (fun p => p.Name)).Nodup := by
  refine ⟨_, rfl, ?_⟩
  exact (task_spec_param_names sampleExternals sampleConfig (sampleBuild [] [] none)
    (sampleBuildRun [] [] none none) [sampleStep "s1" []]
    [⟨"a", "", none⟩, ⟨"b", "", some "x"⟩] _ (fun _ => rfl) (fun _ => rfl) rfl).2.mpr
    (by decide)

/-! ## Service account name and the target of the source steps -/

/-- C23: the name of the generated service account is the name of the build run, for every
build run; it is a function of that name alone, so two build runs with the same name
(one run seen in two reconciliations) get the same account name. -/
theorem generated_service_account_name (buildRun : BuildRun) :
    GetGeneratedServiceAccountName buildRun = buildRun.Name ∧
    ∀ other : BuildRun, other.Name = buildRun.Name →
      GetGeneratedServiceAccountName other = GetGeneratedServiceAccountName buildRun := by
  refine ⟨rfl, fun other h => ?_⟩
  unfold GetGeneratedServiceAccountName
  exact h

/-- Witness of C23: a build run named `run` whose status has changed between two
reconciliations. -/
theorem generated_service_account_name_witness :
    GetGeneratedServiceAccountName (sampleBuildRun [] [] none none) = "run" ∧
    GetGeneratedServiceAccountName
        { sampleBuildRun [] [] none none with
          Status := { Sources := [⟨"a", none, some ⟨"sha256:0"⟩⟩] } } =
      GetGeneratedServiceAccountName (sampleBuildRun [] [] none none) :=
  ⟨(generated_service_account_name (sampleBuildRun [] [] none none)).1,
    (generated_service_account_name (sampleBuildRun [] [] none none)).2 _ rfl⟩

/-- C24 (the code evaluated): for every git source with a URL and every bundle source, the
step that `AppendGitStep` resp. `AppendBundleStep` appends has the third and fourth
argument `--target` and `$(params.shp--source-root)`; a parameter `shp--source-root` is
neither among the parameters that `GenerateTaskSpec` declares first nor among those
for which `GenerateTaskRun` supplies a value, which have `shp-source-root`. -/
theorem source_step_target_parameter (x : sources.Externals) (cfg : Config)
    (taskSpec : TaskSpec) (source : Source) (buildStrategySteps : List BuildStep)
    (n url : String) (bundleContainer : BundleContainer) (build : Build) (image : String) :
    (sources.AppendGitStep x cfg taskSpec { source with URL := some url }
        buildStrategySteps n).map
      (fun t => (t.Steps.drop taskSpec.Steps.length).map (fun st => (st.Args.drop 2).take 2)) =
      some [["--target", "$(params.shp--source-root)"]] ∧
    (sources.AppendBundleStep x cfg taskSpec
        { source with BundleContainer := some bundleContainer } buildStrategySteps n).map
      (fun t => (t.Steps.drop taskSpec.Steps.length).map (fun st => (st.Args.drop 2).take 2)) =
      some [["--target", "$(params.shp--source-root)"]] ∧
    "shp--source-root" ∉ builtinParams.map (fun p => p.Name) ∧
    "shp-source-root" ∈ builtinParams.map (fun p => p.Name) ∧
    "shp--source-root" ∉ (systemParams build image).map (fun p => p.Name) ∧
    "shp-source-root" ∈ (systemParams build image).map (fun p => p.Name) := by
  refine ⟨?_, ?_, by decide, by decide, ?_, ?_⟩
  · rw [sources.AppendGitStep_eq x cfg taskSpec { source with URL := some url }
      buildStrategySteps n url rfl]
    simp [sources.withRunAs, sources.UpdateSecurityContext, sources.gitStepConfigured,
      sources.gitStepArgs, sources.prefixParamsResultsVolumes, sources.paramSourceRoot]
  · cases hc : source.Credentials with
    | none =>
      simp [sources.AppendBundleStep, hc, sources.UpdateSecurityContext,
        sources.prefixParamsResultsVolumes, sources.paramSourceRoot]
      split <;> simp
    | some credentials =>
      have hsteps : ∀ t : TaskSpec, (sources.AppendSecretVolume t credentials).Steps = t.Steps := by
        intro t
        unfold sources.AppendSecretVolume
        dsimp only
        split <;> rfl
      simp [sources.AppendBundleStep, hc, sources.UpdateSecurityContext,
        sources.prefixParamsResultsVolumes, sources.paramSourceRoot, hsteps]
      split <;> simp
  · cases hb : build.Spec.Builder <;> cases hd : build.Spec.Dockerfile <;>
      cases hcd : build.Spec.Source.ContextDir <;>
      simp [systemParams, hb, hd, hcd, stringParam, prefixParamsResultsVolumes,
        paramOutputImage, paramSourceRoot, paramSourceContext, inputParamBuilder,
        inputParamDockerfile, inputParamContextDir]
  · simp [systemParams, stringParam, prefixParamsResultsVolumes, paramSourceRoot]

/-! ## The task spec and task run of a successful generation -/

theorem GenerateTaskSpec_success_steps (x : Externals) (cfg : Config) (build : Build)
    (buildRun : BuildRun) (buildSteps : List BuildStep) (strategyParams : List Parameter)
    (ts : TaskSpec)
    (h : GenerateTaskSpec x cfg build buildRun buildSteps strategyParams = (some ts, none)) :
    ts = amendImageMutate x cfg build
      { declareTaskSpec x cfg build strategyParams with
        Steps := (declareTaskSpec x cfg build strategyParams).Steps ++ buildSteps.map
          (fun s => compileStep s
            (x.MergeEnvVars (x.MergeEnvVars buildRun.Spec.Env build.Spec.Env true).1
              s.Env false).1),
        Volumes := buildSteps.foldl (fun vols s => addStepVolumes vols s.VolumeMounts)
          (declareTaskSpec x cfg build strategyParams).Volumes } := by
  rcases hm : x.MergeEnvVars buildRun.Spec.Env build.Spec.Env true with ⟨combinedEnvs, e⟩
  cases e with
  | some err =>
    unfold GenerateTaskSpec at h
    rw [hm] at h
    simp at h
  | none =>
    have h2 := GenerateTaskSpec_of_merge x cfg build buildRun buildSteps strategyParams
      combinedEnvs hm
    have hnone : (compileSteps x build combinedEnvs buildSteps
        (declareTaskSpec x cfg build strategyParams)).2 = none := by
      rw [← h2.1, h]
    have h3 := h2.2 hnone
    rw [h] at h3
    simp only [Prod.mk.injEq, Option.some.injEq, and_true] at h3
    have hall : ∀ s ∈ buildSteps, (x.MergeEnvVars combinedEnvs s.Env false).2 = none := by
      intro s hs
      by_contra hne
      obtain ⟨_, _, err, _, herr⟩ := compileSteps_error x build combinedEnvs buildSteps
        (declareTaskSpec x cfg build strategyParams) ⟨s, hs, hne⟩
      rw [hnone] at herr
      exact Option.noConfusion herr
    rw [compileSteps_ok x build combinedEnvs buildSteps _ hall] at h3
    exact h3

theorem GenerateTaskRun_success_full (x : Externals) (cfg : Config) (build : Build)
    (buildRun : BuildRun) (sa : String) (strategy : BuilderStrategy) (tr : TaskRun)
    (h : GenerateTaskRun x cfg build buildRun sa strategy = (some tr, none)) :
    tr =
      { GenerateName := buildRun.Name ++ "-",
        Namespace := buildRun.Namespace,
        Labels := strategy.GetResourceLabels.foldl (fun ls kv => GoMap.set ls kv.1 kv.2)
          (GoMap.set
            (GoMap.set
              (GoMap.set (GoMap.set [] x.LabelBuild build.Name)
                x.LabelBuildGeneration (FormatInt build.Generation))
              x.LabelBuildRun buildRun.Name)
            x.LabelBuildRunGeneration (FormatInt buildRun.Generation)),
        Annotations :=
          if (propagatedAnnotations x strategy.GetAnnotations).length > 0
          then some (propagatedAnnotations x strategy.GetAnnotations) else none,
        Spec :=
          { ServiceAccountName := sa,
            TaskSpec := (GenerateTaskSpec x cfg build buildRun strategy.GetBuildSteps
              strategy.GetParameters).1,
            Workspaces := [{ Name := workspaceSource, EmptyDir := true }],
            Timeout := effectiveTimeout build buildRun,
            Params :=
              systemParams build
                (match buildRun.Spec.Output with
                  | some output => output.Image
                  | none => build.Spec.Output.Image) ++
              (x.overrideParams build.Spec.ParamValues buildRun.Spec.ParamValues).map
                (fun p => stringParam p.Name p.Value) } } := by
  rcases GenerateTaskRun_cases x cfg build buildRun sa strategy with
    ⟨err, he⟩ | ⟨tr2, _, hspec, hres, hun⟩
  · rw [he] at h
    simp at h
  · unfold GenerateTaskRun at h
    rcases hts : GenerateTaskSpec x cfg build buildRun strategy.GetBuildSteps
      strategy.GetParameters with ⟨ts, e⟩
    rw [hts] at hspec h
    simp only at hspec
    subst hspec
    simp only [userParamsLoop_eq, strategyParametersLoop_eq, List.nil_append, hres, hun,
      List.map_nil, List.length_nil, gt_iff_lt, lt_self_iff_false, if_false, Prod.mk.injEq,
      Option.some.injEq, and_true] at h
    exact h.symm

theorem GenerateTaskSpec_params (x : Externals) (cfg : Config) (build : Build)
    (buildRun : BuildRun) (buildSteps : List BuildStep) (strategyParams : List Parameter)
    (ts : TaskSpec)
    (hsrc : ∀ spec, (x.AmendTaskSpecWithSources cfg spec build).Params = spec.Params)
    (himg : ∀ spec,
      (x.amendTaskSpecWithImageMutate cfg spec build.Spec.Output).Params = spec.Params)
    (h : GenerateTaskSpec x cfg build buildRun buildSteps strategyParams = (some ts, none)) :
    ts.Params =
      builtinParams ++
      (match build.Spec.Builder with
        | some builder =>
          [{ Description := "Image containing the build tools/logic",
             Name := inputParamBuilder,
             Type_ := "",
             Default := some { Type_ := ParamTypeString, StringVal := builder.Image } }]
        | none => []) ++
      strategyParams.map strategyParamSpec := by
  obtain ⟨generated, hts, hgen⟩ :=
    GenerateTaskSpec_success_params x cfg build buildRun buildSteps strategyParams ts h
  have hparams : ts.Params = (declareTaskSpec x cfg build strategyParams).Params := by
    rw [hts, ← hgen]
    unfold amendImageMutate
    split
    · exact himg generated
    · rfl
  rw [hparams]
  unfold declareTaskSpec
  dsimp only
  rw [hsrc]
  cases hb : build.Spec.Builder with
  | none => simp
  | some builder => rfl

/-! ## Compiled strategy steps -/

/-- C29: when `GenerateTaskSpec` succeeds, the steps compiled from the strategy follow the
steps that the task spec has before the loop, one per strategy step and in the same
order; the image of a compiled step is `getStringTransformations` of the image of its
strategy step, its command and args are the element-wise images of the command and
args, and the name, image pull policy, volume mounts, security context, working
directory and resources are those of the strategy step, unchanged. -/
theorem placeholder_pass_image_command_args (x : Externals) (cfg : Config) (build : Build)
    (buildRun : BuildRun) (buildSteps : List BuildStep) (strategyParams : List Parameter)
    (ts : TaskSpec)
    (h : GenerateTaskSpec x cfg build buildRun buildSteps strategyParams = (some ts, none)) :
    ∃ (generated : TaskSpec) (compiled : List Step),
      ts = amendImageMutate x cfg build generated ∧
      generated.Steps = (declareTaskSpec x cfg build strategyParams).Steps ++ compiled ∧
      List.Forall₂
        (fun (s : BuildStep) (st : Step) =>
          st.Image = getStringTransformations s.Image ∧
          st.Command = s.Command.map getStringTransformations ∧
          st.Args = s.Args.map getStringTransformations ∧
          st.Command.length = s.Command.length ∧ st.Args.length = s.Args.length ∧
          st.Name = s.Name ∧ st.ImagePullPolicy = s.ImagePullPolicy ∧
          st.VolumeMounts = s.VolumeMounts ∧ st.SecurityContext = s.SecurityContext ∧
          st.WorkingDir = s.WorkingDir ∧ st.Resources = s.Resources)
        buildSteps compiled := by
  refine ⟨_, _, GenerateTaskSpec_success_steps x cfg build buildRun buildSteps strategyParams
    ts h, rfl, ?_⟩
  rw [List.forall₂_map_right_iff, List.forall₂_same]
  intro s _
  simp [compileStep]

/-- Witness of C29: a strategy step whose name and working directory are legacy tokens;
they are copied, while the image and the argument are substituted. -/
theorem placeholder_pass_image_command_args_witness :
    (GenerateTaskSpec sampleExternals sampleConfig (sampleBuild [] [] none)
        (sampleBuildRun [] [] none none)
        [{ toContainer :=
            { emptyContainer with
              Name := "$(build.dockerfile)", WorkingDir := "$(build.source.contextDir)",
              Image := "$(build.builder.image)", Args := ["-f", "$(build.dockerfile)"] } }]
        []).1.map
      (fun t => t.Steps.map (fun st => (st.Name, st.WorkingDir, st.Image, st.Args))) =
      some [("$(build.dockerfile)", "$(build.source.contextDir)",
        "$(inputs.params.BUILDER_IMAGE)", ["-f", "$(inputs.params.DOCKERFILE)"])] := by
  obtain ⟨generated, compiled, _, _, _⟩ := placeholder_pass_image_command_args sampleExternals
    sampleConfig (sampleBuild [] [] none) (sampleBuildRun [] [] none none)
    [{ toContainer :=
        { emptyContainer with
          Name := "$(build.dockerfile)", WorkingDir := "$(build.source.contextDir)",
          Image := "$(build.builder.image)", Args := ["-f", "$(build.dockerfile)"] } }]
    [] _ rfl
  decide

/-- C30: when `GenerateTaskSpec` succeeds, the steps of the task spec are the steps that
the amendment for the sources has put there (the source steps), followed by the steps
compiled from the strategy, one per strategy step, in the order of the strategy and
with the same names; the image mutate step, named `mutate-image`, follows them if the
output of the Build has an annotation or a label, and otherwise nothing follows them,
so that the last strategy step is the last step of the task. -/
theorem strategy_steps_order (x : Externals) (mutateStep : Image → Step) (cfg : Config)
    (build : Build) (buildRun : BuildRun) (buildSteps : List BuildStep)
    (strategyParams : List Parameter) (ts : TaskSpec)
    (h : GenerateTaskSpec (x.withSpecImageMutate mutateStep) cfg build buildRun buildSteps
      strategyParams = (some ts, none)) :
    ∃ compiled : List Step,
      compiled.map (fun st => st.Name) = buildSteps.map (fun s => s.Name) ∧
      ((build.Spec.Output.Annotations.length > 0 ∨ build.Spec.Output.Labels.length > 0) →
        ∃ mutate : Step, mutate.Name = "mutate-image" ∧
          ts.Steps =
            (declareTaskSpec (x.withSpecImageMutate mutateStep) cfg build strategyParams).Steps
              ++ compiled ++ [mutate]) ∧
      (¬ (build.Spec.Output.Annotations.length > 0 ∨ build.Spec.Output.Labels.length > 0) →
        ts.Steps =
          (declareTaskSpec (x.withSpecImageMutate mutateStep) cfg build strategyParams).Steps
            ++ compiled ∧
        (buildSteps ≠ [] → ts.Steps.getLast?.map (fun st => st.Name) =
          buildSteps.getLast?.map (fun s => s.Name))) := by
  have hts := GenerateTaskSpec_success_steps (x.withSpecImageMutate mutateStep) cfg build
    buildRun buildSteps strategyParams ts h
  refine ⟨buildSteps.map (fun s => compileStep s
      ((x.withSpecImageMutate mutateStep).MergeEnvVars
        ((x.withSpecImageMutate mutateStep).MergeEnvVars buildRun.Spec.Env build.Spec.Env
          true).1 s.Env false).1), ?_, ?_, ?_⟩
  · simp [compileStep]
  · intro hc
    refine ⟨{ mutateStep build.Spec.Output with Name := imageMutateContainerName }, rfl, ?_⟩
    rw [hts]
    simp only [amendImageMutate, if_pos hc]
    rfl
  · intro hc
    have hsteps : ts.Steps =
        (declareTaskSpec (x.withSpecImageMutate mutateStep) cfg build strategyParams).Steps
          ++ buildSteps.map (fun s => compileStep s
            ((x.withSpecImageMutate mutateStep).MergeEnvVars
              ((x.withSpecImageMutate mutateStep).MergeEnvVars buildRun.Spec.Env
                build.Spec.Env true).1 s.Env false).1) := by
      rw [hts]
      simp only [amendImageMutate, if_neg hc]
    refine ⟨hsteps, fun hne => ?_⟩
    rw [hsteps]
    have hmap : buildSteps.map (fun s => compileStep s
        ((x.withSpecImageMutate mutateStep).MergeEnvVars
          ((x.withSpecImageMutate mutateStep).MergeEnvVars buildRun.Spec.Env
            build.Spec.Env true).1 s.Env false).1) ≠ [] := by
      simpa using hne
    rw [List.getLast?_append_of_ne_nil _ hmap, List.getLast?_map, Option.map_map]
    rfl

/-- Witness of C30: the output of the Build has a label and the strategy has the steps
`s1` and `s2`; the steps of the task are `s1`, `s2` and `mutate-image`. -/
theorem strategy_steps_order_witness :
    (GenerateTaskSpec (sampleExternals.withSpecImageMutate (fun _ => ⟨emptyContainer⟩))
        sampleConfig
        { sampleBuild [] [] none with
          Spec := { (sampleBuild [] [] none).Spec with
            Output := { imageRef "registry/build-image" with Labels := [("team", "a")] } } }
        (sampleBuildRun [] [] none none) [sampleStep "s1" [], sampleStep "s2" []] []).1.map
      (fun t => t.Steps.map (fun st => st.Name)) = some ["s1", "s2", "mutate-image"] := by
  obtain ⟨compiled, _, _, _⟩ := strategy_steps_order sampleExternals
    (fun _ => ⟨emptyContainer⟩) sampleConfig
    { sampleBuild [] [] none with
      Spec := { (sampleBuild [] [] none).Spec with
        Output := { imageRef "registry/build-image" with Labels := [("team", "a")] } } }
    (sampleBuildRun [] [] none none) [sampleStep "s1" [], sampleStep "s2" []] [] _ rfl
  decide

/-! ## Declared and supplied parameters -/

theorem GenerateTaskSpec_fst_some (x : Externals) (cfg : Config) (build : Build)
    (buildRun : BuildRun) (buildSteps : List BuildStep) (strategyParams : List Parameter)
    (h : (GenerateTaskSpec x cfg build buildRun buildSteps strategyParams).2 = none) :
    ∃ ts, GenerateTaskSpec x cfg build buildRun buildSteps strategyParams = (some ts, none) := by
  rcases hm : x.MergeEnvVars buildRun.Spec.Env build.Spec.Env true with ⟨combinedEnvs, e⟩
  cases e with
  | some err =>
    unfold GenerateTaskSpec at h
    rw [hm] at h
    simp at h
  | none =>
    have h2 := GenerateTaskSpec_of_merge x cfg build buildRun buildSteps strategyParams
      combinedEnvs hm
    exact ⟨_, h2.2 (by rw [← h2.1, h])⟩

/-- C25: whenever `GenerateTaskRun` succeeds (and the amendments for the sources and for
the image mutation add no parameter), every parameter that the embedded task spec
declares without a default, which is one of `shp-output-image`, `shp-source-context`,
`shp-source-root` or a strategy parameter without default, has an entry of the same
name among the parameters of the task run. -/
theorem required_parameters_bound (x : Externals) (cfg : Config) (build : Build)
    (buildRun : BuildRun) (serviceAccountName : String) (strategy : BuilderStrategy)
    (tr : TaskRun)
    (hsrc : ∀ spec, (x.AmendTaskSpecWithSources cfg spec build).Params = spec.Params)
    (himg : ∀ spec,
      (x.amendTaskSpecWithImageMutate cfg spec build.Spec.Output).Params = spec.Params)
    (h : GenerateTaskRun x cfg build buildRun serviceAccountName strategy = (some tr, none)) :
    ∃ ts : TaskSpec, tr.Spec.TaskSpec = some ts ∧
      ∀ p ∈ ts.Params, p.Default = none → ∃ q ∈ tr.Spec.Params, q.Name = p.Name := by
  have htr := GenerateTaskRun_success_full x cfg build buildRun serviceAccountName strategy tr h
  rcases GenerateTaskRun_cases x cfg build buildRun serviceAccountName strategy with
    ⟨err, he⟩ | ⟨tr2, _, hspec, _, hun⟩
  · rw [he] at h
    simp at h
  obtain ⟨ts, hts⟩ := GenerateTaskSpec_fst_some x cfg build buildRun strategy.GetBuildSteps
    strategy.GetParameters hspec
  · refine ⟨ts, (congrArg (fun t => t.Spec.TaskSpec) htr).trans (by rw [hts]), ?_⟩
    have hparams := GenerateTaskSpec_params x cfg build buildRun strategy.GetBuildSteps
      strategy.GetParameters ts hsrc himg hts
    have hsupplied : tr.Spec.Params =
        systemParams build
          (match buildRun.Spec.Output with
            | some output => output.Image
            | none => build.Spec.Output.Image) ++
        (x.overrideParams build.Spec.ParamValues buildRun.Spec.ParamValues).map
          (fun p => stringParam p.Name p.Value) :=
      congrArg (fun t => t.Spec.Params) htr
    intro p hp hdef
    rw [hparams, List.mem_append, List.mem_append] at hp
    rw [hsupplied]
    rcases hp with (hp | hp) | hp
    · have hcase : p.Name = "shp-output-image" ∨ p.Name = "shp-source-context" ∨
          p.Name = "shp-source-root" := by
        simp only [builtinParams, List.mem_cons, List.mem_singleton, List.not_mem_nil,
          or_false] at hp
        rcases hp with rfl | rfl | rfl | rfl | rfl
        · exact absurd hdef (by simp)
        · exact absurd hdef (by simp)
        · exact Or.inl rfl
        · exact Or.inr (Or.inl rfl)
        · exact Or.inr (Or.inr rfl)
      rcases hcase with hn | hn | hn
      · exact ⟨stringParam (prefixParamsResultsVolumes ++ "-" ++ paramOutputImage)
          (match buildRun.Spec.Output with
            | some output => output.Image
            | none => build.Spec.Output.Image),
          List.mem_append_left _ (by simp [systemParams]), by rw [hn]; rfl⟩
      · cases hcd : build.Spec.Source.ContextDir with
        | none =>
          exact ⟨stringParam (prefixParamsResultsVolumes ++ "-" ++ paramSourceContext)
            "/workspace/source",
            List.mem_append_left _ (by simp [systemParams, hcd]), by rw [hn]; rfl⟩
        | some contextDir =>
          exact ⟨stringParam (prefixParamsResultsVolumes ++ "-" ++ paramSourceContext)
            (pathJoin ["/workspace/source", contextDir]),
            List.mem_append_left _ (by simp [systemParams, hcd]), by rw [hn]; rfl⟩
      · exact ⟨stringParam (prefixParamsResultsVolumes ++ "-" ++ paramSourceRoot)
          "/workspace/source",
          List.mem_append_left _ (by simp [systemParams]), by rw [hn]; rfl⟩
    · exfalso
      cases hb : build.Spec.Builder with
      | none =>
        rw [hb] at hp
        exact absurd hp (List.not_mem_nil _)
      | some builder =>
        rw [hb] at hp
        rw [List.mem_singleton] at hp
        rw [hp] at hdef
        exact Option.noConfusion hdef
    · rw [List.mem_map] at hp
      obtain ⟨sp, hsp, rfl⟩ := hp
      have hspdef : sp.Default = none := by
        cases hd : sp.Default with
        | none => rfl
        | some d =>
          simp [strategyParamSpec, hd] at hdef
      have hex : ∃ u ∈ x.overrideParams build.Spec.ParamValues buildRun.Spec.ParamValues,
          u.Name = sp.Name := by
        by_contra hno
        have hmem : sp ∈ strategy.GetParameters.filter
            (fun sp => sp.Default = none ∧
              ∀ p ∈ x.overrideParams build.Spec.ParamValues buildRun.Spec.ParamValues,
                p.Name ≠ sp.Name) := by
          rw [List.mem_filter]
          refine ⟨hsp, ?_⟩
          simp only [decide_eq_true_eq]
          exact ⟨hspdef, fun u hu hname => hno ⟨u, hu, hname⟩⟩
        rw [hun] at hmem
        exact List.not_mem_nil _ hmem
      obtain ⟨u, hu, hname⟩ := hex
      exact ⟨stringParam u.Name u.Value,
        List.mem_append_right _ (List.mem_map.mpr ⟨u, hu, rfl⟩), hname⟩

/-- Witness of C25: the strategy parameter `a` has no default and the Build gives it a
value; the task run supplies `a` and the three infrastructure parameters. -/
theorem required_parameters_bound_witness :
    ∃ (tr : TaskRun) (ts : TaskSpec),
      GenerateTaskRun sampleExternals sampleConfig (sampleBuild [⟨"a", "1"⟩] [] none)
        (sampleBuildRun [] [] none none) "sa"
        (sampleStrategy [] [sampleStep "s1" []] [⟨"a", "", none⟩]) = (some tr, none) ∧
      tr.Spec.TaskSpec = some ts ∧
      ∀ p ∈ ts.Params, p.Default = none → ∃ q ∈ tr.Spec.Params, q.Name = p.Name := by
  obtain ⟨tr, htr, _⟩ := GenerateTaskRun_ok sampleExternals sampleConfig
    (sampleBuild [⟨"a", "1"⟩] [] none) (sampleBuildRun [] [] none none) "sa"
    (sampleStrategy [] [sampleStep "s1" []] [⟨"a", "", none⟩])
    (by decide) (by decide) (by decide)
  obtain ⟨ts, hts, hall⟩ := required_parameters_bound sampleExternals sampleConfig
    (sampleBuild [⟨"a", "1"⟩] [] none) (sampleBuildRun [] [] none none) "sa"
    (sampleStrategy [] [sampleStep "s1" []] [⟨"a", "", none⟩]) tr (fun _ => rfl)
    (fun _ => rfl) htr
  exact ⟨tr, ts, htr, hts, hall⟩

/-- Counterexample to C26: the Build has no `spec.builder`; the step text
`$(build.builder.image)` becomes the reference `$(inputs.params.BUILDER_IMAGE)`, and
`GenerateTaskSpec` declares no parameter `BUILDER_IMAGE`. -/
theorem placeholder_parameters_counterexample :
    (sampleBuild [] [] none).Spec.Builder = none ∧
    getStringTransformations "$(build.builder.image)" = "$(inputs.params.BUILDER_IMAGE)" ∧
    (GenerateTaskSpec sampleExternals sampleConfig (sampleBuild [] [] none)
        (sampleBuildRun [] [] none none) [sampleStep "s1" []] []).1.map
      (fun t => t.Params.map (fun p => p.Name)) =
      some ["DOCKERFILE", "CONTEXT_DIR", "shp-output-image", "shp-source-context",
        "shp-source-root"] ∧
    "BUILDER_IMAGE" ∉ ["DOCKERFILE", "CONTEXT_DIR", "shp-output-image", "shp-source-context",
        "shp-source-root"] := by
  decide

/-- C26 (amended): the references that `getStringTransformations` substitutes for the four
legacy tokens are `$(params.shp-output-image)`, `$(inputs.params.BUILDER_IMAGE)`,
`$(inputs.params.DOCKERFILE)` and `$(inputs.params.CONTEXT_DIR)`.  When
`GenerateTaskSpec` succeeds (and the amendments for the sources and for the image
mutation add no parameter), the task spec declares `shp-output-image`, `DOCKERFILE`
and `CONTEXT_DIR` for every Build; it declares `BUILDER_IMAGE` for a Build with
`spec.builder`, and for a Build without it only if the strategy has a parameter of
that name. -/
theorem placeholder_parameters_declared (x : Externals) (cfg : Config) (build : Build)
    (buildRun : BuildRun) (buildSteps : List BuildStep) (strategyParams : List Parameter)
    (ts : TaskSpec)
    (hsrc : ∀ spec, (x.AmendTaskSpecWithSources cfg spec build).Params = spec.Params)
    (himg : ∀ spec,
      (x.amendTaskSpecWithImageMutate cfg spec build.Spec.Output).Params = spec.Params)
    (h : GenerateTaskSpec x cfg build buildRun buildSteps strategyParams = (some ts, none)) :
    stringTransformations.map (fun kv => kv.2) =
      ["$(params.shp-output-image)", "$(inputs.params.BUILDER_IMAGE)",
        "$(inputs.params.DOCKERFILE)", "$(inputs.params.CONTEXT_DIR)"] ∧
    "shp-output-image" ∈ ts.Params.map (fun p => p.Name) ∧
    "DOCKERFILE" ∈ ts.Params.map (fun p => p.Name) ∧
    "CONTEXT_DIR" ∈ ts.Params.map (fun p => p.Name) ∧
    (build.Spec.Builder ≠ none → "BUILDER_IMAGE" ∈ ts.Params.map (fun p => p.Name)) ∧
    (build.Spec.Builder = none →
      ("BUILDER_IMAGE" ∈ ts.Params.map (fun p => p.Name) ↔
        ∃ sp ∈ strategyParams, sp.Name = "BUILDER_IMAGE")) := by
  have hparams := GenerateTaskSpec_params x cfg build buildRun buildSteps strategyParams ts
    hsrc himg h
  have hbuiltin : ∀ name ∈ builtinParams.map (fun p => p.Name),
      name ∈ ts.Params.map (fun p => p.Name) := by
    intro name hname
    rw [hparams, List.map_append, List.map_append]
    exact List.mem_append_left _ (List.mem_append_left _ hname)
  refine ⟨by decide, hbuiltin _ (by decide), hbuiltin _ (by decide), hbuiltin _ (by decide),
    ?_, ?_⟩
  · intro hb
    cases hbuilder : build.Spec.Builder with
    | none => exact absurd hbuilder hb
    | some builder =>
      rw [hparams, hbuilder, List.map_append, List.map_append]
      exact List.mem_append_left _ (List.mem_append_right _ (by simp [inputParamBuilder]))
  · intro hb
    rw [hparams, hb]
    simp only [List.append_nil, List.map_append, List.mem_append, List.map_map, List.mem_map,
      Function.comp]
    constructor
    · rintro (hmem | ⟨sp, hsp, hname⟩)
      · exact absurd hmem (by decide)
      · exact ⟨sp, hsp, hname⟩
    · rintro ⟨sp, hsp, hname⟩
      exact Or.inr ⟨sp, hsp, hname⟩

/-- Witness of C26 (amended): a Build with `spec.builder`; all four parameters that the
references name are declared. -/
theorem placeholder_parameters_declared_witness :
    ∃ ts, GenerateTaskSpec sampleExternals sampleConfig
        { sampleBuild [] [] none with
          Spec := { (sampleBuild [] [] none).Spec with Builder := some (imageRef "builder") } }
        (sampleBuildRun [] [] none none) [sampleStep "s1" []] [] = (some ts, none) ∧
      "shp-output-image" ∈ ts.Params.map (fun p => p.Name) ∧
      "DOCKERFILE" ∈ ts.Params.map (fun p => p.Name) ∧
      "CONTEXT_DIR" ∈ ts.Params.map (fun p => p.Name) ∧
      "BUILDER_IMAGE" ∈ ts.Params.map (fun p => p.Name) := by
  have h := placeholder_parameters_declared sampleExternals sampleConfig
    { sampleBuild [] [] none with
      Spec := { (sampleBuild [] [] none).Spec with Builder := some (imageRef "builder") } }
    (sampleBuildRun [] [] none none) [sampleStep "s1" []] [] _ (fun _ => rfl) (fun _ => rfl) rfl
  exact ⟨_, rfl, h.2.1, h.2.2.1, h.2.2.2.1, h.2.2.2.2.1 (by decide)⟩

/-! ## The source context directory -/

theorem splitSlash_ne_nil (l : List Char) : splitSlash l ≠ [] := by
  cases l with
  | nil => simp [splitSlash]
  | cons c cs =>
    unfold splitSlash
    split
    · simp
    · split <;> simp

theorem splitSlash_cons (c : Char) (cs w : List Char) (ws : List (List Char))
    (h : splitSlash cs = w :: ws) :
    splitSlash (c :: cs) = if c = '/' then [] :: w :: ws else (c :: w) :: ws := by
  rw [splitSlash, h]

theorem splitSlash_append_slash (a b : List Char) :
    splitSlash (a ++ '/' :: b) = splitSlash a ++ splitSlash b := by
  induction a with
  | nil =>
    obtain ⟨w, ws, hw⟩ := List.exists_cons_of_ne_nil (splitSlash_ne_nil b)
    rw [List.nil_append, splitSlash_cons _ _ _ _ hw, if_pos rfl, hw]
    rfl
  | cons c cs ih =>
    obtain ⟨w, ws, hw⟩ := List.exists_cons_of_ne_nil (splitSlash_ne_nil cs)
    have h1 : splitSlash (cs ++ '/' :: b) = w :: (ws ++ splitSlash b) := by
      rw [ih, hw]
      rfl
    rw [List.cons_append, splitSlash_cons _ _ _ _ h1, splitSlash_cons _ _ _ _ hw]
    split <;> rfl

theorem cleanStep_foldl_plain (rooted : Bool) (elems stack : List (List Char))
    (h : ∀ e ∈ elems, e ≠ ['.', '.']) :
    elems.foldl (cleanStep rooted) stack =
      (elems.filter (fun e => ¬ (e = [] ∨ e = ['.']))).reverse ++ stack := by
  induction elems generalizing stack with
  | nil => rfl
  | cons e rest ih =>
    have he : e ≠ ['.', '.'] := h e (List.mem_cons_self _ _)
    simp only [List.foldl_cons]
    rw [ih _ (fun e2 he2 => h e2 (List.mem_cons_of_mem _ he2))]
    by_cases hskip : e = [] ∨ e = ['.']
    · have hstep : cleanStep rooted stack e = stack := by
        unfold cleanStep
        rw [if_pos hskip]
      rw [hstep, List.filter_cons_of_neg
        (by rw [decide_eq_true_eq]; exact fun hn => hn hskip)]
    · have hstep : cleanStep rooted stack e = e :: stack := by
        unfold cleanStep
        rw [if_neg hskip, if_neg he]
      rw [hstep, List.filter_cons_of_pos (p := fun e => decide (¬ (e = [] ∨ e = ['.'])))
        (decide_eq_true hskip)]
      simp

theorem intercalate_go_shape (acc s : String) (l : List String) :
    ∃ r, String.intercalate.go acc s l = acc ++ r ∧ (l = [] → r = "") ∧
      (l ≠ [] → ∃ r2, r = s ++ r2) := by
  induction l generalizing acc with
  | nil => exact ⟨"", by simp [String.intercalate.go], fun _ => rfl, fun h => absurd rfl h⟩
  | cons a rest ih =>
    obtain ⟨r, hr, _, _⟩ := ih (acc ++ s ++ a)
    refine ⟨s ++ (a ++ r), ?_, fun h => List.noConfusion h, fun _ => ⟨a ++ r, rfl⟩⟩
    rw [String.intercalate.go, hr]
    simp only [String.append_assoc]

theorem HasPrefix_append (a b : String) : HasPrefix (a ++ b) a = true := by
  unfold HasPrefix
  rw [String.data_append, List.isPrefixOf_iff_prefix]
  exact List.prefix_append _ _

theorem pathJoin_source_inside (dir : String)
    (h : ∀ elem ∈ splitSlash dir.data, elem ≠ ['.', '.']) :
    pathJoin ["/workspace/source", dir] = "/workspace/source" ∨
      HasPrefix (pathJoin ["/workspace/source", dir]) "/workspace/source/" = true := by
  by_cases hd : dir = ""
  · subst hd
    exact Or.inl (by decide)
  · have hjoin : pathJoin ["/workspace/source", dir] =
        pathClean ("/workspace/source" ++ "/" ++ dir) := by
      simp [pathJoin, List.filter_cons, hd, String.intercalate, String.intercalate.go]
    have hdata : ("/workspace/source" ++ "/" ++ dir : String).data =
        "/workspace/source".data ++ '/' :: dir.data := by
      simp [String.data_append]
    have hrooted : HasPrefix ("/workspace/source" ++ "/" ++ dir) "/" = true := by
      unfold HasPrefix
      rw [hdata]
      rfl
    have hstack : (splitSlash ("/workspace/source" ++ "/" ++ dir : String).data).foldl
        (cleanStep true) [] =
        ((splitSlash dir.data).filter (fun e => ¬ (e = [] ∨ e = ['.']))).reverse ++
          ["source".data, "workspace".data] := by
      rw [hdata, splitSlash_append_slash, List.foldl_append,
        cleanStep_foldl_plain true (splitSlash dir.data) _ h]
      rfl
    obtain ⟨r, hr, hnil, hcons⟩ := intercalate_go_shape ("workspace" ++ "/" ++ "source") "/"
      (((splitSlash dir.data).filter (fun e => ¬ (e = [] ∨ e = ['.']))).map String.mk)
    have hout : pathClean ("/workspace/source" ++ "/" ++ dir) = "/workspace/source" ++ r := by
      unfold pathClean
      simp only [hrooted, hstack, if_true, List.reverse_append, List.reverse_reverse,
        List.reverse_cons, List.reverse_nil, List.nil_append, List.cons_append,
        List.map_cons, List.map_append, List.map_nil, String.intercalate,
        String.intercalate.go]
      rw [show (String.mk "workspace".data) = "workspace" from rfl,
        show (String.mk "source".data) = "source" from rfl, hr]
      have hne : ¬ ("/" ++ ("workspace" ++ "/" ++ "source" ++ r) = "") := by
        intro he
        have := congrArg String.length he
        simp only [String.length_append] at this
        have h1 : ("/" : String).length = 1 := by decide
        have h2 : ("" : String).length = 0 := by decide
        omega
      rw [if_neg hne]
      simp only [← String.append_assoc]
      rfl
    rw [hjoin, hout]
    by_cases hf : (splitSlash dir.data).filter (fun e => ¬ (e = [] ∨ e = ['.'])) = []
    · left
      rw [hnil (by rw [hf]; rfl)]
      rfl
    · right
      obtain ⟨r2, hr2⟩ := hcons (by simpa using hf)
      rw [hr2, ← String.append_assoc]
      exact HasPrefix_append _ _

/-- C22 (the code evaluated at the failing input): the context directory of the Build is
`../..`; the value that `GenerateTaskRun` supplies for `shp-source-context`, the
parameter that `GenerateTaskSpec` describes as the context directory inside the source
directory, is `/`, which is neither `/workspace/source` nor a path below it. -/
theorem source_context_escapes_source :
    (GenerateTaskRun sampleExternals sampleConfig
        { sampleBuild [] [] none with
          Spec := { (sampleBuild [] [] none).Spec with
            Source := { (sampleBuild [] [] none).Spec.Source with ContextDir := some "../.." } } }
        (sampleBuildRun [] [] none none) "sa"
        (sampleStrategy [] [sampleStep "s1" []] [])).1.map
      (fun tr => (tr.Spec.Params.filter (fun p => p.Name = "shp-source-context")).map
        (fun p => p.Value.StringVal)) = some ["/"] ∧
    pathJoin ["/workspace/source", "../.."] = "/" ∧
    HasPrefix "/" "/workspace/source" = false ∧
    (builtinParams.filter (fun p => p.Name = "shp-source-context")).map
        (fun p => p.Description) = ["The context directory inside the source directory"] := by
  decide

/-- In a task run that `GenerateTaskRun` returns, the value supplied for the parameter
`shp-source-context` is `/workspace/source` when the Build has no context directory,
and otherwise `path.Join` of `/workspace/source` and the context directory; for a
context directory none of whose elements (the parts between the slashes) is `..`, this
is `/workspace/source` or a path below it. -/
theorem source_context_inside_source (x : Externals) (cfg : Config) (build : Build)
    (buildRun : BuildRun) (serviceAccountName : String) (strategy : BuilderStrategy)
    (tr : TaskRun)
    (h : GenerateTaskRun x cfg build buildRun serviceAccountName strategy = (some tr, none)) :
    (build.Spec.Source.ContextDir = none →
      ({ Name := "shp-source-context",
         Value := { Type_ := "string", StringVal := "/workspace/source" } } : Param) ∈
        tr.Spec.Params) ∧
    (∀ contextDir, build.Spec.Source.ContextDir = some contextDir →
      ({ Name := "shp-source-context",
         Value := { Type_ := "string",
                    StringVal := pathJoin ["/workspace/source", contextDir] } } : Param) ∈
        tr.Spec.Params ∧
      ((∀ elem ∈ splitSlash contextDir.data, elem ≠ ['.', '.']) →
        pathJoin ["/workspace/source", contextDir] = "/workspace/source" ∨
        HasPrefix (pathJoin ["/workspace/source", contextDir]) "/workspace/source/" = true)) := by
  have hp := (GenerateTaskRun_success x cfg build buildRun serviceAccountName strategy tr h).2.1
  constructor
  · intro hc
    rw [hp]
    apply List.mem_append_left
    simp only [systemParams, hc]
    simp [stringParam, prefixParamsResultsVolumes, paramSourceContext, ParamTypeString]
  · intro contextDir hc
    refine ⟨?_, pathJoin_source_inside contextDir⟩
    rw [hp]
    apply List.mem_append_left
    simp only [systemParams, hc]
    simp [stringParam, prefixParamsResultsVolumes, paramSourceContext, ParamTypeString]

/-- Example: the context directory `docker//./build/` gives the value
`/workspace/source/docker/build`. -/
theorem source_context_inside_source_witness :
    ∃ tr, GenerateTaskRun sampleExternals sampleConfig
        { sampleBuild [] [] none with
          Spec := { (sampleBuild [] [] none).Spec with
            Source := { (sampleBuild [] [] none).Spec.Source with
              ContextDir := some "docker//./build/" } } }
        (sampleBuildRun [] [] none none) "sa"
        (sampleStrategy [] [sampleStep "s1" []] []) = (some tr, none) ∧
      ({ Name := "shp-source-context",
         Value := { Type_ := "string",
                    StringVal := "/workspace/source/docker/build" } } : Param) ∈
        tr.Spec.Params ∧
      HasPrefix "/workspace/source/docker/build" "/workspace/source/" = true := by
  obtain ⟨tr, htr, _⟩ := GenerateTaskRun_ok sampleExternals sampleConfig
    { sampleBuild [] [] none with
      Spec := { (sampleBuild [] [] none).Spec with
        Source := { (sampleBuild [] [] none).Spec.Source with
          ContextDir := some "docker//./build/" } } }
    (sampleBuildRun [] [] none none) "sa"
    (sampleStrategy [] [sampleStep "s1" []] []) (by decide) (by decide) (by decide)
  have h := (source_context_inside_source sampleExternals sampleConfig _
    (sampleBuildRun [] [] none none) "sa"
    (sampleStrategy [] [sampleStep "s1" []] []) tr htr).2 "docker//./build/" rfl
  have hval : pathJoin ["/workspace/source", "docker//./build/"] =
      "/workspace/source/docker/build" := by decide
  rw [hval] at h
  exact ⟨tr, htr, h.1, by decide⟩

/-! ## Lemmas on `ReplaceAll` for tokens that start with `$` -/

theorem replaceAllAux_nil (old new : List Char) (k : Nat) : replaceAllAux old new k [] = [] := by
  cases k <;> rfl

theorem replaceAllAux_skip (old new : List Char) (k : Nat) (cs : List Char) :
    replaceAllAux old new k cs = replaceAllAux old new 0 (cs.drop k) := by
  induction cs generalizing k with
  | nil => simp [replaceAllAux_nil]
  | cons c cs ih =>
    cases k with
    | zero => rfl
    | succ k =>
      rw [replaceAllAux, ih k]
      rfl

theorem replaceAllAux_cons (old new : List Char) (c : Char) (cs : List Char) :
    replaceAllAux old new 0 (c :: cs) =
      if old.isPrefixOf (c :: cs) then
        new ++ replaceAllAux old new 0 (cs.drop (old.length - 1))
      else c :: replaceAllAux old new 0 cs := by
  rw [replaceAllAux, replaceAllAux_skip old new (old.length - 1) cs]

theorem dollarHeaded_iff (l : List Char) :
    dollarHeaded l = true ↔ ∃ o, l = '$' :: o ∧ '$' ∉ o := by
  cases l with
  | nil => simp [dollarHeaded]
  | cons c cs =>
    constructor
    · intro h
      simp only [dollarHeaded, List.head?_cons, List.tail_cons, Bool.and_eq_true,
        decide_eq_true_eq, Option.some.injEq, Bool.not_eq_true'] at h
      obtain ⟨rfl, h⟩ := h
      refine ⟨cs, rfl, ?_⟩
      intro hmem
      have h2 : cs.contains '$' = true := List.elem_iff.mpr hmem
      rw [h2] at h
      exact Bool.noConfusion h
    · rintro ⟨o, heq, h⟩
      obtain ⟨rfl, rfl⟩ := List.cons.inj heq
      simp only [dollarHeaded, List.head?_cons, List.tail_cons, Bool.and_eq_true,
        decide_eq_true_eq, Bool.not_eq_true', true_and]
      cases hc : cs.contains '$' with
      | false => rfl
      | true => exact absurd (List.elem_iff.mp hc) h

theorem isPrefixOf_cons_ne (o : List Char) (c : Char) (cs : List Char) (h : c ≠ '$') :
    ('$' :: o).isPrefixOf (c :: cs) = false := by
  have : ('$' == c) = false := by
    cases hb : ('$' == c) with
    | false => rfl
    | true => exact absurd (eq_of_beq hb).symm h
  simp [List.isPrefixOf, this]

theorem replaceAllAux_free (o new w X : List Char) (hw : '$' ∉ w) :
    replaceAllAux ('$' :: o) new 0 (w ++ X) = w ++ replaceAllAux ('$' :: o) new 0 X := by
  induction w with
  | nil => rfl
  | cons c w ih =>
    have hc : c ≠ '$' := fun h => hw (h ▸ List.mem_cons_self _ _)
    have hw2 : '$' ∉ w := fun h => hw (List.mem_cons_of_mem _ h)
    rw [List.cons_append, replaceAllAux_cons, isPrefixOf_cons_ne o c _ hc, ih hw2]
    rfl

theorem isPrefixOf_self_append (a X : List Char) : a.isPrefixOf (a ++ X) = true := by
  rw [List.isPrefixOf_iff_prefix]
  exact List.prefix_append _ _

theorem replaceAllAux_match (o new X : List Char) :
    replaceAllAux ('$' :: o) new 0 (('$' :: o) ++ X) =
      new ++ replaceAllAux ('$' :: o) new 0 X := by
  rw [List.cons_append, replaceAllAux_cons]
  have h := isPrefixOf_self_append ('$' :: o) X
  rw [List.cons_append] at h
  rw [h, if_pos rfl]
  simp

theorem replaceAllAux_nomatch (o new cs : List Char)
    (h : ('$' :: o).isPrefixOf ('$' :: cs) = false) :
    replaceAllAux ('$' :: o) new 0 ('$' :: cs) = '$' :: replaceAllAux ('$' :: o) new 0 cs := by
  rw [replaceAllAux_cons, h]
  rfl

theorem isPrefixOf_replaceAllAux (a ob nb : List Char) (ha : '$' ∉ a) (cs : List Char) :
    a.isPrefixOf (replaceAllAux ('$' :: ob) ('$' :: nb) 0 cs) = a.isPrefixOf cs := by
  induction cs generalizing a with
  | nil => rfl
  | cons c cs ih =>
    cases a with
    | nil => simp [List.isPrefixOf]
    | cons x a =>
      have hx : x ≠ '$' := fun h => ha (h ▸ List.mem_cons_self _ _)
      have ha2 : '$' ∉ a := fun h => ha (List.mem_cons_of_mem _ h)
      have hxd : (x == '$') = false := by
        cases hb : (x == '$') with
        | false => rfl
        | true => exact absurd (eq_of_beq hb) hx
      by_cases hc : c = '$'
      · subst hc
        rw [replaceAllAux_cons]
        split
        · simp [List.isPrefixOf, hxd]
        · simp [List.isPrefixOf, hxd]
      · rw [replaceAllAux_cons, isPrefixOf_cons_ne ob c cs hc]
        simp only [Bool.false_eq_true, if_false, List.isPrefixOf]
        rw [ih a ha2]

theorem differAt_isPrefixOf (a b X : List Char) (h : differAt a b = true) :
    a.isPrefixOf (b ++ X) = false := by
  induction a generalizing b with
  | nil => simp [differAt] at h
  | cons x a ih =>
    cases b with
    | nil => simp [differAt] at h
    | cons y b =>
      simp only [differAt, List.zipWith_cons_cons, List.any_cons, id, Bool.or_eq_true,
        bne_iff_ne, ne_eq] at h
      by_cases hxy : x = y
      · subst hxy
        have h2 : differAt a b = true := by
          rcases h with h | h
          · exact absurd rfl h
          · exact h
        simp [List.isPrefixOf, ih b h2]
      · have : (x == y) = false := by
          cases hb : (x == y) with
          | false => rfl
          | true => exact absurd (eq_of_beq hb) hxy
        simp [List.isPrefixOf, this]

theorem replaceAllAux_comm_match (oa na ob nb : List Char)
    (hob : '$' ∉ ob) (hnb : '$' ∉ nb)
    (hAB : differAt ('$' :: oa) ('$' :: ob) = true)
    (hAb : differAt ('$' :: oa) ('$' :: nb) = true) (X : List Char) :
    replaceAllAux ('$' :: oa) ('$' :: na) 0
        (replaceAllAux ('$' :: ob) ('$' :: nb) 0 (('$' :: ob) ++ X)) =
      ('$' :: nb) ++ replaceAllAux ('$' :: oa) ('$' :: na) 0
        (replaceAllAux ('$' :: ob) ('$' :: nb) 0 X) ∧
    replaceAllAux ('$' :: ob) ('$' :: nb) 0
        (replaceAllAux ('$' :: oa) ('$' :: na) 0 (('$' :: ob) ++ X)) =
      ('$' :: nb) ++ replaceAllAux ('$' :: ob) ('$' :: nb) 0
        (replaceAllAux ('$' :: oa) ('$' :: na) 0 X) := by
  constructor
  · have hno : ('$' :: oa).isPrefixOf
        ('$' :: (nb ++ replaceAllAux ('$' :: ob) ('$' :: nb) 0 X)) = false :=
      differAt_isPrefixOf ('$' :: oa) ('$' :: nb) _ hAb
    rw [replaceAllAux_match, List.cons_append, replaceAllAux_nomatch oa ('$' :: na) _ hno,
      replaceAllAux_free oa ('$' :: na) nb _ hnb]
    rfl
  · have hno : ('$' :: oa).isPrefixOf ('$' :: (ob ++ X)) = false :=
      differAt_isPrefixOf ('$' :: oa) ('$' :: ob) X hAB
    rw [List.cons_append, replaceAllAux_nomatch oa ('$' :: na) _ hno,
      replaceAllAux_free oa ('$' :: na) ob X hob, ← List.cons_append, replaceAllAux_match]

theorem isPrefixOf_dollar_replaceAllAux (oa ob nb : List Char) (hoa : '$' ∉ oa)
    (cs : List Char) :
    ('$' :: oa).isPrefixOf ('$' :: replaceAllAux ('$' :: ob) ('$' :: nb) 0 cs) =
      ('$' :: oa).isPrefixOf ('$' :: cs) := by
  simp only [List.isPrefixOf]
  rw [isPrefixOf_replaceAllAux oa ob nb hoa cs]

theorem replaceAllAux_comm (oa na ob nb : List Char)
    (hoa : '$' ∉ oa) (hna : '$' ∉ na) (hob : '$' ∉ ob) (hnb : '$' ∉ nb)
    (hAB : differAt ('$' :: oa) ('$' :: ob) = true)
    (hBA : differAt ('$' :: ob) ('$' :: oa) = true)
    (hAb : differAt ('$' :: oa) ('$' :: nb) = true)
    (hBa : differAt ('$' :: ob) ('$' :: na) = true) (t : List Char) :
    replaceAllAux ('$' :: oa) ('$' :: na) 0 (replaceAllAux ('$' :: ob) ('$' :: nb) 0 t) =
      replaceAllAux ('$' :: ob) ('$' :: nb) 0 (replaceAllAux ('$' :: oa) ('$' :: na) 0 t) := by
  generalize hlen : t.length = n
  induction n using Nat.strong_induction_on generalizing t with
  | _ n ih =>
    cases t with
    | nil => rfl
    | cons c cs =>
      by_cases hc : c = '$'
      · subst hc
        by_cases hb : ('$' :: ob).isPrefixOf ('$' :: cs) = true
        · obtain ⟨X, hX⟩ := List.isPrefixOf_iff_prefix.mp hb
          rw [← hX]
          obtain ⟨h1, h2⟩ := replaceAllAux_comm_match oa na ob nb hob hnb hAB hAb X
          rw [h1, h2]
          have hlt : X.length < n := by
            rw [← hlen, ← hX]
            simp
            omega
          rw [ih X.length hlt X rfl]
        · by_cases ha : ('$' :: oa).isPrefixOf ('$' :: cs) = true
          · obtain ⟨X, hX⟩ := List.isPrefixOf_iff_prefix.mp ha
            rw [← hX]
            obtain ⟨h1, h2⟩ := replaceAllAux_comm_match ob nb oa na hoa hna hBA hBa X
            rw [h1, h2]
            have hlt : X.length < n := by
              rw [← hlen, ← hX]
              simp
              omega
            rw [ih X.length hlt X rfl]
          · have hb2 : ('$' :: ob).isPrefixOf ('$' :: cs) = false := by
              cases h : ('$' :: ob).isPrefixOf ('$' :: cs) with
              | false => rfl
              | true => exact absurd h hb
            have ha2 : ('$' :: oa).isPrefixOf ('$' :: cs) = false := by
              cases h : ('$' :: oa).isPrefixOf ('$' :: cs) with
              | false => rfl
              | true => exact absurd h ha
            rw [replaceAllAux_nomatch ob ('$' :: nb) cs hb2,
              replaceAllAux_nomatch oa ('$' :: na) cs ha2,
              replaceAllAux_nomatch oa ('$' :: na) _
                ((isPrefixOf_dollar_replaceAllAux oa ob nb hoa cs).trans ha2),
              replaceAllAux_nomatch ob ('$' :: nb) _
                ((isPrefixOf_dollar_replaceAllAux ob oa na hob cs).trans hb2)]
            have hlt : cs.length < n := by
              rw [← hlen]
              simp
            rw [ih cs.length hlt cs rfl]
      · have e1 := replaceAllAux_free ob ('$' :: nb) [c] cs
          (by simpa using fun h : '$' = c => hc h.symm)
        have e2 := replaceAllAux_free oa ('$' :: na) [c] cs
          (by simpa using fun h : '$' = c => hc h.symm)
        have e3 := replaceAllAux_free oa ('$' :: na) [c]
          (replaceAllAux ('$' :: ob) ('$' :: nb) 0 cs)
          (by simpa using fun h : '$' = c => hc h.symm)
        have e4 := replaceAllAux_free ob ('$' :: nb) [c]
          (replaceAllAux ('$' :: oa) ('$' :: na) 0 cs)
          (by simpa using fun h : '$' = c => hc h.symm)
        simp only [List.singleton_append] at e1 e2 e3 e4
        rw [e1, e2, e3, e4]
        have hlt : cs.length < n := by
          rw [← hlen]
          simp
        rw [ih cs.length hlt cs rfl]

theorem occursIn_cons (a : List Char) (c : Char) (cs : List Char) :
    occursIn a (c :: cs) = (a.isPrefixOf (c :: cs) || occursIn a cs) := by
  simp [occursIn, List.tails]

theorem occursIn_free (oa w X : List Char) (hw : '$' ∉ w) :
    occursIn ('$' :: oa) (w ++ X) = occursIn ('$' :: oa) X := by
  induction w with
  | nil => rfl
  | cons c w ih =>
    have hc : c ≠ '$' := fun h => hw (h ▸ List.mem_cons_self _ _)
    have hw2 : '$' ∉ w := fun h => hw (List.mem_cons_of_mem _ h)
    rw [List.cons_append, occursIn_cons, isPrefixOf_cons_ne oa c _ hc, ih hw2]
    rfl

theorem occursIn_replaceAllAux (oa ob nb : List Char)
    (hoa : '$' ∉ oa) (hob : '$' ∉ ob) (hnb : '$' ∉ nb)
    (hAb : differAt ('$' :: oa) ('$' :: nb) = true) (t : List Char)
    (h : oa = ob ∨ occursIn ('$' :: oa) t = false) :
    occursIn ('$' :: oa) (replaceAllAux ('$' :: ob) ('$' :: nb) 0 t) = false := by
  generalize hlen : t.length = n
  induction n using Nat.strong_induction_on generalizing t with
  | _ n ih =>
    cases t with
    | nil => rfl
    | cons c cs =>
      have hsub : oa = ob ∨ occursIn ('$' :: oa) cs = false := by
        rcases h with h | h
        · exact Or.inl h
        · rw [occursIn_cons, Bool.or_eq_false_iff] at h
          exact Or.inr h.2
      have hlt : cs.length < n := by
        rw [← hlen]
        simp
      by_cases hc : c = '$'
      · subst hc
        by_cases hb : ('$' :: ob).isPrefixOf ('$' :: cs) = true
        · obtain ⟨X, hX⟩ := List.isPrefixOf_iff_prefix.mp hb
          have hXlt : X.length < n := by
            rw [← hlen, ← hX]
            simp
            omega
          have hXsub : oa = ob ∨ occursIn ('$' :: oa) X = false := by
            rcases h with h | h
            · exact Or.inl h
            · rw [← hX, List.cons_append, occursIn_cons, Bool.or_eq_false_iff,
                occursIn_free oa ob X hob] at h
              exact Or.inr h.2
          rw [← hX, replaceAllAux_match, List.cons_append, occursIn_cons,
            occursIn_free oa nb _ hnb, ih X.length hXlt X hXsub rfl]
          have := differAt_isPrefixOf ('$' :: oa) ('$' :: nb)
            (replaceAllAux ('$' :: ob) ('$' :: nb) 0 X) hAb
          rw [List.cons_append] at this
          rw [this]
          rfl
        · have hb2 : ('$' :: ob).isPrefixOf ('$' :: cs) = false := by
            cases h : ('$' :: ob).isPrefixOf ('$' :: cs) with
            | false => rfl
            | true => exact absurd h hb
          have ha2 : ('$' :: oa).isPrefixOf ('$' :: cs) = false := by
            rcases h with h | h
            · rw [h]
              exact hb2
            · rw [occursIn_cons, Bool.or_eq_false_iff] at h
              exact h.1
          rw [replaceAllAux_nomatch ob ('$' :: nb) cs hb2, occursIn_cons,
            (isPrefixOf_dollar_replaceAllAux oa ob nb hoa cs).trans ha2,
            ih cs.length hlt cs hsub rfl]
          rfl
      · have e1 := replaceAllAux_free ob ('$' :: nb) [c] cs
          (by simpa using fun h : '$' = c => hc h.symm)
        simp only [List.singleton_append] at e1
        rw [e1, occursIn_cons, isPrefixOf_cons_ne oa c _ hc, ih cs.length hlt cs hsub rfl]
        rfl

theorem replaceAllAux_absent (old new t : List Char) (h : occursIn old t = false) :
    replaceAllAux old new 0 t = t := by
  induction t with
  | nil => rfl
  | cons c cs ih =>
    rw [occursIn_cons, Bool.or_eq_false_iff] at h
    rw [replaceAllAux_cons, h.1, ih h.2]
    rfl

theorem Contains_eq_occursIn (s sub : String) : Contains s sub = occursIn sub.data s.data :=
  rfl

theorem ReplaceAll_comm (k1 v1 k2 v2 : String)
    (h1 : dollarHeaded k1.data = true) (h2 : dollarHeaded v1.data = true)
    (h3 : dollarHeaded k2.data = true) (h4 : dollarHeaded v2.data = true)
    (c1 : differAt k1.data k2.data = true) (c2 : differAt k2.data k1.data = true)
    (c3 : differAt k1.data v2.data = true) (c4 : differAt k2.data v1.data = true)
    (z : String) :
    ReplaceAll (ReplaceAll z k1 v1) k2 v2 = ReplaceAll (ReplaceAll z k2 v2) k1 v1 := by
  obtain ⟨o1, e1, f1⟩ := (dollarHeaded_iff _).mp h1
  obtain ⟨n1, e2, f2⟩ := (dollarHeaded_iff _).mp h2
  obtain ⟨o2, e3, f3⟩ := (dollarHeaded_iff _).mp h3
  obtain ⟨n2, e4, f4⟩ := (dollarHeaded_iff _).mp h4
  rw [e1, e3] at c1 c2
  rw [e1, e4] at c3
  rw [e3, e2] at c4
  simp only [ReplaceAll]
  rw [e1, e2, e3, e4, replaceAllAux_comm o2 n2 o1 n1 f3 f4 f1 f2 c2 c1 c4 c3 z.data]

theorem ReplaceAll_absent (a k v : String)
    (ha : dollarHeaded a.data = true) (hk : dollarHeaded k.data = true)
    (hv : dollarHeaded v.data = true) (hd : differAt a.data v.data = true) (z : String)
    (h : a = k ∨ Contains z a = false) : Contains (ReplaceAll z k v) a = false := by
  obtain ⟨oa, e1, f1⟩ := (dollarHeaded_iff _).mp ha
  obtain ⟨ob, e2, f2⟩ := (dollarHeaded_iff _).mp hk
  obtain ⟨nb, e3, f3⟩ := (dollarHeaded_iff _).mp hv
  rw [e1, e3] at hd
  rw [Contains_eq_occursIn]
  simp only [ReplaceAll]
  rw [e1, e2, e3]
  apply occursIn_replaceAllAux oa ob nb f1 f2 f3 hd
  rcases h with h | h
  · left
    have := e1.symm.trans ((congrArg String.data h).trans e2)
    exact (List.cons.inj this).2
  · right
    rw [Contains_eq_occursIn, e1] at h
    exact h

theorem ReplaceAll_of_absent (z k v : String) (h : Contains z k = false) :
    ReplaceAll z k v = z := by
  rw [Contains_eq_occursIn] at h
  simp only [ReplaceAll]
  rw [replaceAllAux_absent k.data v.data z.data h]

theorem applyStringTransformations_absent (table : List (String × String)) (a : String)
    (ha : dollarHeaded a.data = true)
    (hshape : ∀ kv ∈ table, dollarHeaded kv.1.data = true ∧ dollarHeaded kv.2.data = true ∧
      differAt a.data kv.2.data = true)
    (z : String) (h : Contains z a = false ∨ ∃ kv ∈ table, kv.1 = a) :
    Contains (applyStringTransformations table z) a = false := by
  induction table generalizing z with
  | nil =>
    rcases h with h | ⟨kv, hkv, _⟩
    · exact h
    · exact absurd hkv (List.not_mem_nil _)
  | cons kv rest ih =>
    obtain ⟨s1, s2, s3⟩ := hshape kv (List.mem_cons_self _ _)
    have hrest : ∀ kv2 ∈ rest, dollarHeaded kv2.1.data = true ∧
        dollarHeaded kv2.2.data = true ∧ differAt a.data kv2.2.data = true :=
      fun kv2 hkv2 => hshape kv2 (List.mem_cons_of_mem _ hkv2)
    show Contains (applyStringTransformations rest (ReplaceAll z kv.1 kv.2)) a = false
    apply ih hrest
    rcases h with h | ⟨kv2, hkv2, heq⟩
    · exact Or.inl (ReplaceAll_absent a kv.1 kv.2 ha s1 s2 s3 z (Or.inr h))
    · rcases List.mem_cons.mp hkv2 with hhead | htail
      · subst hhead
        exact Or.inl (ReplaceAll_absent a kv2.1 kv2.2 ha s1 s2 s3 z (Or.inl heq.symm))
      · exact Or.inr ⟨kv2, htail, heq⟩

theorem applyStringTransformations_of_absent (table : List (String × String)) (z : String)
    (h : ∀ kv ∈ table, Contains z kv.1 = false) : applyStringTransformations table z = z := by
  induction table with
  | nil => rfl
  | cons kv rest ih =>
    show applyStringTransformations rest (ReplaceAll z kv.1 kv.2) = z
    rw [ReplaceAll_of_absent z kv.1 kv.2 (h kv (List.mem_cons_self _ _))]
    exact ih (fun kv2 hkv2 => h kv2 (List.mem_cons_of_mem _ hkv2))

theorem stringTransformations_shape :
    ∀ x ∈ stringTransformations, ∀ y ∈ stringTransformations,
      dollarHeaded x.1.data = true ∧ dollarHeaded y.2.data = true ∧
      differAt x.1.data y.2.data = true ∧ (x = y ∨ differAt x.1.data y.1.data = true) := by
  decide

theorem stringTransformations_comm (x : String × String) (hx : x ∈ stringTransformations)
    (y : String × String) (hy : y ∈ stringTransformations) (z : String) :
    ReplaceAll (ReplaceAll z x.1 x.2) y.1 y.2 = ReplaceAll (ReplaceAll z y.1 y.2) x.1 x.2 := by
  obtain ⟨a1, a2, a3, a4⟩ := stringTransformations_shape x hx y hy
  obtain ⟨b1, b2, b3, b4⟩ := stringTransformations_shape y hy x hx
  obtain ⟨_, c2, _, _⟩ := stringTransformations_shape x hx x hx
  rcases a4 with heq | hne
  · rw [heq]
  · rcases b4 with heq | hne2
    · rw [heq]
    · exact ReplaceAll_comm x.1 x.2 y.1 y.2 a1 c2 b1 a2 hne hne2 a3 b3 z

theorem applyStringTransformations_perm (table : List (String × String))
    (h : table.Perm stringTransformations) (text : String) :
    applyStringTransformations table text = getStringTransformations text := by
  unfold getStringTransformations applyStringTransformations
  apply List.Perm.foldl_eq' h
  intro x hx y hy z
  exact stringTransformations_comm x (h.mem_iff.mp hx) y (h.mem_iff.mp hy) z

theorem getStringTransformations_absent (text : String) :
    ∀ kv ∈ stringTransformations, Contains (getStringTransformations text) kv.1 = false := by
  intro kv hkv
  have hshape := stringTransformations_shape kv hkv
  apply applyStringTransformations_absent stringTransformations kv.1
    (hshape kv hkv).1
    (fun kv2 hkv2 => ⟨(stringTransformations_shape kv2 hkv2 kv2 hkv2).1,
      (hshape kv2 hkv2).2.1, (hshape kv2 hkv2).2.2.1⟩)
  exact Or.inr ⟨kv, hkv, rfl⟩

/-! ## Order independence and idempotence of `getStringTransformations` -/

/-- C27: the result of `getStringTransformations` does not depend on the order of the four
replacements: for every text and every two permutations of the table of (token,
replacement) pairs, the two loops of `ReplaceAll` give the same string, the one of the
source order. -/
theorem string_transformations_order_independent (text : String)
    (table1 table2 : List (String × String))
    (h1 : table1.Perm stringTransformations) (h2 : table2.Perm stringTransformations) :
    applyStringTransformations table1 text = applyStringTransformations table2 text ∧
    applyStringTransformations table1 text = getStringTransformations text :=
  ⟨(applyStringTransformations_perm table1 h1 text).trans
      (applyStringTransformations_perm table2 h2 text).symm,
    applyStringTransformations_perm table1 h1 text⟩

theorem string_transformations_order_independent_witness :
    stringTransformations.reverse.Perm stringTransformations ∧
    (stringTransformations.rotate 1).Perm stringTransformations ∧
    applyStringTransformations stringTransformations.reverse
        "build $(build.dockerfile) in $(build.source.contextDir) to $(build.output.image)" =
      applyStringTransformations (stringTransformations.rotate 1)
        "build $(build.dockerfile) in $(build.source.contextDir) to $(build.output.image)" ∧
    applyStringTransformations stringTransformations.reverse
        "build $(build.dockerfile) in $(build.source.contextDir) to $(build.output.image)" =
      getStringTransformations
        "build $(build.dockerfile) in $(build.source.contextDir) to $(build.output.image)" :=
  ⟨List.reverse_perm _, List.rotate_perm _ _,
    string_transformations_order_independent _ _ _ (List.reverse_perm _)
      (List.rotate_perm _ _)⟩

/-- C28: for every text the output of `getStringTransformations` contains none of the four
legacy tokens, a text that contains none of them is returned unchanged, and
`getStringTransformations` is idempotent. -/
theorem string_transformations_remove_tokens (text : String) :
    stringTransformations.map Prod.fst =
      ["$(build.output.image)", "$(build.builder.image)", "$(build.dockerfile)",
        "$(build.source.contextDir)"] ∧
    (∀ kv ∈ stringTransformations, Contains (getStringTransformations text) kv.1 = false) ∧
    ((∀ kv ∈ stringTransformations, Contains text kv.1 = false) →
      getStringTransformations text = text) ∧
    getStringTransformations (getStringTransformations text) =
      getStringTransformations text :=
  ⟨rfl, getStringTransformations_absent text,
    applyStringTransformations_of_absent stringTransformations text,
    applyStringTransformations_of_absent stringTransformations _
      (getStringTransformations_absent text)⟩

theorem string_transformations_remove_tokens_witness :
    (∀ kv ∈ stringTransformations, Contains "ko publish ./cmd" kv.1 = false) ∧
    getStringTransformations "ko publish ./cmd" = "ko publish ./cmd" ∧
    Contains (getStringTransformations "push $(build.output.image)")
      "$(build.output.image)" = false :=
  ⟨by decide,
    (string_transformations_remove_tokens "ko publish ./cmd").2.2.1 (by decide),
    (string_transformations_remove_tokens "push $(build.output.image)").2.1
      ("$(build.output.image)",
        "$(params." ++ prefixParamsResultsVolumes ++ "-" ++ paramOutputImage ++ ")")
      (by decide)⟩

/-! ## Independence of the iteration order of the maps -/

theorem GoMap.get_eq_some_iff (m : GoMap) (hwf : GoMap.WF m) (k v : String) :
    GoMap.get m k = some v ↔ (k, v) ∈ m := by
  induction m with
  | nil => simp [GoMap.get]
  | cons kv rest ih =>
    obtain ⟨k', v'⟩ := kv
    have hwf' : GoMap.WF rest := by
      unfold GoMap.WF at hwf ⊢
      exact (List.nodup_cons.mp hwf).2
    have hnot : k' ∉ rest.map Prod.fst := by
      unfold GoMap.WF at hwf
      exact (List.nodup_cons.mp hwf).1
    by_cases he : k' = k
    · subst he
      simp only [GoMap.get, if_true, Option.some.injEq, List.mem_cons, Prod.mk.injEq,
        true_and]
      constructor
      · intro h
        exact Or.inl h.symm
      · rintro (h | h)
        · exact h.symm
        · exact absurd (List.mem_map_of_mem Prod.fst h) hnot
    · simp only [GoMap.get, if_neg he, List.mem_cons, Prod.mk.injEq]
      rw [ih hwf']
      constructor
      · intro h
        exact Or.inr h
      · rintro (h | h)
        · exact absurd h.1.symm he
        · exact h

theorem GoMap.WF_perm (m1 m2 : GoMap) (h : m1.Perm m2) (hwf : GoMap.WF m1) : GoMap.WF m2 := by
  unfold GoMap.WF at hwf ⊢
  exact (h.map Prod.fst).nodup_iff.mp hwf

theorem GoMap.get_perm (m1 m2 : GoMap) (h : m1.Perm m2) (hwf : GoMap.WF m1) (k : String) :
    GoMap.get m1 k = GoMap.get m2 k := by
  have hwf2 := GoMap.WF_perm m1 m2 h hwf
  apply Option.ext
  intro v
  simp only [Option.mem_def]
  rw [GoMap.get_eq_some_iff m1 hwf, GoMap.get_eq_some_iff m2 hwf2]
  exact h.mem_iff

theorem GoMap.eq_nil_iff (m : GoMap) : m = [] ↔ ∀ k, GoMap.get m k = none := by
  cases m with
  | nil => simp [GoMap.get]
  | cons kv rest =>
    obtain ⟨k', v'⟩ := kv
    constructor
    · intro h
      exact List.noConfusion h
    · intro h
      have := h k'
      simp [GoMap.get] at this

theorem labels_fold_get (labels base : GoMap) (k : String) (hwf : GoMap.WF labels) :
    GoMap.get (labels.foldl (fun ls kv => GoMap.set ls kv.1 kv.2) base) k =
      match GoMap.get labels k with
      | some v => some v
      | none => GoMap.get base k := by
  induction labels generalizing base with
  | nil => rfl
  | cons kv rest ih =>
    obtain ⟨k', v'⟩ := kv
    have hwf' : GoMap.WF rest := by
      unfold GoMap.WF at hwf ⊢
      exact (List.nodup_cons.mp hwf).2
    have hnot : k' ∉ rest.map Prod.fst := by
      unfold GoMap.WF at hwf
      exact (List.nodup_cons.mp hwf).1
    simp only [List.foldl_cons]
    rw [ih _ hwf']
    by_cases he : k' = k
    · subst he
      rw [GoMap.get_of_not_mem_keys rest k' hnot]
      simp [GoMap.get, GoMap.get_set_same]
    · have hget : GoMap.get ((k', v') :: rest) k = GoMap.get rest k := by
        simp [GoMap.get, he]
      rw [hget, GoMap.get_set_ne _ _ _ _ he]

theorem labels_fold_perm (labels1 labels2 base : GoMap) (h : labels2.Perm labels1)
    (hwf : GoMap.WF labels1) (k : String) :
    GoMap.get (labels2.foldl (fun ls kv => GoMap.set ls kv.1 kv.2) base) k =
      GoMap.get (labels1.foldl (fun ls kv => GoMap.set ls kv.1 kv.2) base) k := by
  rw [labels_fold_get labels2 base k (GoMap.WF_perm labels1 labels2 h.symm hwf),
    labels_fold_get labels1 base k hwf, GoMap.get_perm labels2 labels1 h
      (GoMap.WF_perm labels1 labels2 h.symm hwf) k]

theorem propagatedAnnotations_perm (x : Externals) (annotations1 annotations2 : GoMap)
    (h : annotations2.Perm annotations1) (hwf : GoMap.WF annotations1) (k : String) :
    GoMap.get (propagatedAnnotations x annotations2) k =
      GoMap.get (propagatedAnnotations x annotations1) k := by
  have hwf2 := GoMap.WF_perm annotations1 annotations2 h.symm hwf
  unfold propagatedAnnotations
  cases hk : isPropagatableAnnotation x k with
  | false =>
    rw [propagated_fold_get_filtered x annotations2 [] k hk,
      propagated_fold_get_filtered x annotations1 [] k hk]
  | true =>
    rw [propagated_fold_get x annotations2 [] k hwf2 hk,
      propagated_fold_get x annotations1 [] k hwf hk,
      GoMap.get_perm annotations2 annotations1 h hwf2 k]

theorem annotations_none_iff (m : GoMap) :
    (if m.length > 0 then some m else none) = none ↔ m = [] := by
  cases m with
  | nil => simp
  | cons kv rest => simp

theorem GenerateTaskRun_strategy_maps (x : Externals) (cfg : Config) (build : Build)
    (buildRun : BuildRun) (sa : String) (strategy1 strategy2 : BuilderStrategy)
    (hsteps : strategy2.GetBuildSteps = strategy1.GetBuildSteps)
    (hparams : strategy2.GetParameters = strategy1.GetParameters) :
    (∃ err, GenerateTaskRun x cfg build buildRun sa strategy1 = (none, some err) ∧
      GenerateTaskRun x cfg build buildRun sa strategy2 = (none, some err)) ∨
    (∃ tr1 tr2, GenerateTaskRun x cfg build buildRun sa strategy1 = (some tr1, none) ∧
      GenerateTaskRun x cfg build buildRun sa strategy2 = (some tr2, none)) := by
  cases hspec : (GenerateTaskSpec x cfg build buildRun strategy1.GetBuildSteps
      strategy1.GetParameters).2 with
  | some err =>
    refine Or.inl ⟨err, GenerateTaskRun_spec_error x cfg build buildRun sa strategy1 err hspec,
      GenerateTaskRun_spec_error x cfg build buildRun sa strategy2 err ?_⟩
    rw [hsteps, hparams]
    exact hspec
  | none =>
    have hspec2 : (GenerateTaskSpec x cfg build buildRun strategy2.GetBuildSteps
        strategy2.GetParameters).2 = none := by
      rw [hsteps, hparams]
      exact hspec
    by_cases hres : (x.overrideParams build.Spec.ParamValues buildRun.Spec.ParamValues).filter
        (fun p => x.IsSystemReservedParameter p.Name) = []
    · by_cases hun : strategy1.GetParameters.filter
          (fun sp => sp.Default = none ∧
            ∀ p ∈ x.overrideParams build.Spec.ParamValues buildRun.Spec.ParamValues,
              p.Name ≠ sp.Name) = []
      · have hun2 : strategy2.GetParameters.filter
            (fun sp => sp.Default = none ∧
              ∀ p ∈ x.overrideParams build.Spec.ParamValues buildRun.Spec.ParamValues,
                p.Name ≠ sp.Name) = [] := by
          rw [hparams]
          exact hun
        obtain ⟨tr1, h1, _⟩ :=
          GenerateTaskRun_ok x cfg build buildRun sa strategy1 hspec hres hun
        obtain ⟨tr2, h2, _⟩ :=
          GenerateTaskRun_ok x cfg build buildRun sa strategy2 hspec2 hres hun2
        exact Or.inr ⟨tr1, tr2, h1, h2⟩
      · have hun2 : strategy2.GetParameters.filter
            (fun sp => sp.Default = none ∧
              ∀ p ∈ x.overrideParams build.Spec.ParamValues buildRun.Spec.ParamValues,
                p.Name ≠ sp.Name) ≠ [] := by
          rw [hparams]
          exact hun
        refine Or.inl ⟨_,
          GenerateTaskRun_unresolved x cfg build buildRun sa strategy1 hspec hres hun, ?_⟩
        rw [GenerateTaskRun_unresolved x cfg build buildRun sa strategy2 hspec2 hres hun2,
          hparams]
    · exact Or.inl ⟨_, GenerateTaskRun_reserved x cfg build buildRun sa strategy1 hspec hres,
        GenerateTaskRun_reserved x cfg build buildRun sa strategy2 hspec2 hres⟩

/-! ## Determinism of `GenerateTaskRun` -/

/-- C21: `GenerateTaskRun` is deterministic.  The embedding is a function of its inputs
(and of the parts of the repository it calls); what the Go code leaves open is the
iteration order of three maps.  For two strategies with the same steps and parameters
whose annotation and label maps hold the same entries in a different iteration order,
the two calls return the same error, fail together, and on success return task runs
with the same name, namespace and spec, the same value for every label and annotation
key, and the same nil-ness of the annotations; and the replacement table gives the same
text in every iteration order. -/
theorem generate_task_run_deterministic (x : Externals) (cfg : Config) (build : Build)
    (buildRun : BuildRun) (serviceAccountName : String) (strategy1 strategy2 : BuilderStrategy)
    (hsteps : strategy2.GetBuildSteps = strategy1.GetBuildSteps)
    (hparams : strategy2.GetParameters = strategy1.GetParameters)
    (hwfa : GoMap.WF strategy1.GetAnnotations)
    (hwfl : GoMap.WF strategy1.GetResourceLabels)
    (hann : strategy2.GetAnnotations.Perm strategy1.GetAnnotations)
    (hlab : strategy2.GetResourceLabels.Perm strategy1.GetResourceLabels) :
    (GenerateTaskRun x cfg build buildRun serviceAccountName strategy2).2 =
      (GenerateTaskRun x cfg build buildRun serviceAccountName strategy1).2 ∧
    ((GenerateTaskRun x cfg build buildRun serviceAccountName strategy1).1 = none →
      (GenerateTaskRun x cfg build buildRun serviceAccountName strategy2).1 = none) ∧
    (∀ tr1, (GenerateTaskRun x cfg build buildRun serviceAccountName strategy1).1 = some tr1 →
      ∃ tr2, (GenerateTaskRun x cfg build buildRun serviceAccountName strategy2).1 = some tr2 ∧
        tr2.GenerateName = tr1.GenerateName ∧ tr2.Namespace = tr1.Namespace ∧
        tr2.Spec = tr1.Spec ∧
        (∀ k, GoMap.get tr2.Labels k = GoMap.get tr1.Labels k) ∧
        (∀ k, annotationValue tr2.Annotations k = annotationValue tr1.Annotations k) ∧
        (tr2.Annotations = none ↔ tr1.Annotations = none)) ∧
    (∀ table : List (String × String), table.Perm stringTransformations →
      ∀ text, applyStringTransformations table text = getStringTransformations text) := by
  rcases GenerateTaskRun_strategy_maps x cfg build buildRun serviceAccountName strategy1
    strategy2 hsteps hparams with ⟨err, h1, h2⟩ | ⟨tr1, tr2, h1, h2⟩
  · rw [h1, h2]
    refine ⟨rfl, fun _ => rfl, ?_,
      fun table h text => applyStringTransformations_perm table h text⟩
    intro tr hsome
    exact Option.noConfusion hsome
  · have e1 := GenerateTaskRun_success_full x cfg build buildRun serviceAccountName
      strategy1 tr1 h1
    have e2 := GenerateTaskRun_success_full x cfg build buildRun serviceAccountName
      strategy2 tr2 h2
    rw [h1, h2]
    refine ⟨rfl, fun hnone => Option.noConfusion hnone, ?_,
      fun table h text => applyStringTransformations_perm table h text⟩
    intro tr hsome
    have htr : tr1 = tr := Option.some.inj hsome
    subst htr
    refine ⟨tr2, rfl, ?_, ?_, ?_, ?_, ?_, ?_⟩
    · rw [e1, e2]
    · rw [e1, e2]
    · rw [e1, e2, hsteps, hparams]
    · intro k
      rw [e1, e2]
      exact labels_fold_perm _ _ _ hlab hwfl k
    · intro k
      rw [e1, e2]
      simp only [annotationValue_propagated]
      exact propagatedAnnotations_perm x _ _ hann hwfa k
    · rw [e1, e2]
      simp only [annotations_none_iff, GoMap.eq_nil_iff]
      constructor
      · intro h k
        rw [← propagatedAnnotations_perm x _ _ hann hwfa k]
        exact h k
      · intro h k
        rw [propagatedAnnotations_perm x _ _ hann hwfa k]
        exact h k

theorem generate_task_run_deterministic_witness :
    (GenerateTaskRun sampleExternals sampleConfig (sampleBuild [] [] none)
        (sampleBuildRun [] [] none none) "pipeline"
        (sampleLabelledStrategy [("team", "a"), ("tier", "b")]
          [("app", "x"), ("env", "y")])).1.isSome = true ∧
    (GenerateTaskRun sampleExternals sampleConfig (sampleBuild [] [] none)
        (sampleBuildRun [] [] none none) "pipeline"
        (sampleLabelledStrategy [("tier", "b"), ("team", "a")]
          [("env", "y"), ("app", "x")])).1 ≠
      (GenerateTaskRun sampleExternals sampleConfig (sampleBuild [] [] none)
        (sampleBuildRun [] [] none none) "pipeline"
        (sampleLabelledStrategy [("team", "a"), ("tier", "b")]
          [("app", "x"), ("env", "y")])).1 ∧
    (GenerateTaskRun sampleExternals sampleConfig (sampleBuild [] [] none)
        (sampleBuildRun [] [] none none) "pipeline"
        (sampleLabelledStrategy [("tier", "b"), ("team", "a")]
          [("env", "y"), ("app", "x")])).2 =
      (GenerateTaskRun sampleExternals sampleConfig (sampleBuild [] [] none)
        (sampleBuildRun [] [] none none) "pipeline"
        (sampleLabelledStrategy [("team", "a"), ("tier", "b")]
          [("app", "x"), ("env", "y")])).2 ∧
    (∀ tr1, (GenerateTaskRun sampleExternals sampleConfig (sampleBuild [] [] none)
        (sampleBuildRun [] [] none none) "pipeline"
        (sampleLabelledStrategy [("team", "a"), ("tier", "b")]
          [("app", "x"), ("env", "y")])).1 = some tr1 →
      ∃ tr2, (GenerateTaskRun sampleExternals sampleConfig (sampleBuild [] [] none)
        (sampleBuildRun [] [] none none) "pipeline"
        (sampleLabelledStrategy [("tier", "b"), ("team", "a")]
          [("env", "y"), ("app", "x")])).1 = some tr2 ∧
        tr2.GenerateName = tr1.GenerateName ∧ tr2.Namespace = tr1.Namespace ∧
        tr2.Spec = tr1.Spec ∧
        (∀ k, GoMap.get tr2.Labels k = GoMap.get tr1.Labels k) ∧
        (∀ k, annotationValue tr2.Annotations k = annotationValue tr1.Annotations k) ∧
        (tr2.Annotations = none ↔ tr1.Annotations = none)) :=
  ⟨by decide, by decide,
    (generate_task_run_deterministic sampleExternals sampleConfig (sampleBuild [] [] none)
      (sampleBuildRun [] [] none none) "pipeline"
      (sampleLabelledStrategy [("team", "a"), ("tier", "b")] [("app", "x"), ("env", "y")])
      (sampleLabelledStrategy [("tier", "b"), ("team", "a")] [("env", "y"), ("app", "x")])
      rfl rfl (by decide) (by decide) (List.Perm.swap _ _ _) (List.Perm.swap _ _ _)).1,
    (generate_task_run_deterministic sampleExternals sampleConfig (sampleBuild [] [] none)
      (sampleBuildRun [] [] none none) "pipeline"
      (sampleLabelledStrategy [("team", "a"), ("tier", "b")] [("app", "x"), ("env", "y")])
      (sampleLabelledStrategy [("tier", "b"), ("team", "a")] [("env", "y"), ("app", "x")])
      rfl rfl (by decide) (by decide) (List.Perm.swap _ _ _) (List.Perm.swap _ _ _)).2.2.1⟩

/-! ## Volumes of the strategy steps -/

theorem addStepVolumes_cons (volumes : List Volume) (m : VolumeMount)
    (mounts : List VolumeMount) :
    addStepVolumes volumes (m :: mounts) =
      addStepVolumes
        (if volumes.any (fun volumeInTask => volumeInTask.Name = m.Name) then volumes
          else volumes ++ [{ Name := m.Name, Secret := none }]) mounts :=
  rfl

theorem addStepVolumes_append (volumes : List Volume) (mounts1 mounts2 : List VolumeMount) :
    addStepVolumes volumes (mounts1 ++ mounts2) =
      addStepVolumes (addStepVolumes volumes mounts1) mounts2 := by
  unfold addStepVolumes
  rw [List.foldl_append]

theorem addStepVolumes_spec (volumes : List Volume) (mounts : List VolumeMount) :
    ∃ added : List Volume, addStepVolumes volumes mounts = volumes ++ added ∧
      (added.map (fun v => v.Name)).Nodup ∧
      (∀ v ∈ added, v.Name ∉ volumes.map (fun v => v.Name) ∧
        v.Name ∈ mounts.map (fun m => m.Name)) ∧
      (∀ m ∈ mounts, m.Name ∈ (volumes ++ added).map (fun v => v.Name)) := by
  induction mounts generalizing volumes with
  | nil => exact ⟨[], by simp [addStepVolumes], List.nodup_nil, by simp, by simp⟩
  | cons m rest ih =>
    rw [addStepVolumes_cons]
    by_cases hany : volumes.any (fun volumeInTask => volumeInTask.Name = m.Name) = true
    · rw [if_pos hany]
      obtain ⟨added, heq, hnd, hnew, hcov⟩ := ih volumes
      refine ⟨added, heq, hnd, ?_, ?_⟩
      · intro v hv
        exact ⟨(hnew v hv).1, List.mem_cons_of_mem _ (hnew v hv).2⟩
      · intro m2 hm2
        rcases List.mem_cons.mp hm2 with rfl | hm2
        · rw [List.any_eq_true] at hany
          obtain ⟨v, hv, hname⟩ := hany
          rw [List.mem_map]
          exact ⟨v, List.mem_append_left _ hv, by simpa using hname⟩
        · exact hcov m2 hm2
    · rw [if_neg hany]
      have habs : m.Name ∉ volumes.map (fun v => v.Name) := by
        intro hmem
        apply hany
        rw [List.mem_map] at hmem
        obtain ⟨v, hv, hname⟩ := hmem
        rw [List.any_eq_true]
        exact ⟨v, hv, by simpa using hname⟩
      obtain ⟨added, heq, hnd, hnew, hcov⟩ := ih (volumes ++ [{ Name := m.Name, Secret := none }])
      refine ⟨{ Name := m.Name, Secret := none } :: added, ?_, ?_, ?_, ?_⟩
      · rw [heq, List.append_assoc]
        rfl
      · rw [List.map_cons, List.nodup_cons]
        refine ⟨?_, hnd⟩
        intro hmem
        rw [List.mem_map] at hmem
        obtain ⟨v, hv, hname⟩ := hmem
        apply (hnew v hv).1
        rw [List.map_append, List.mem_append]
        right
        simpa using hname
      · intro v hv
        rcases List.mem_cons.mp hv with rfl | hv
        · exact ⟨habs, by simp⟩
        · refine ⟨?_, List.mem_cons_of_mem _ (hnew v hv).2⟩
          intro hmem
          apply (hnew v hv).1
          rw [List.map_append, List.mem_append]
          exact Or.inl hmem
      · intro m2 hm2
        rcases List.mem_cons.mp hm2 with rfl | hm2
        · simp
        · have := hcov m2 hm2
          simpa [List.append_assoc] using this

theorem stepVolumes_eq (buildSteps : List BuildStep) (volumes : List Volume) :
    buildSteps.foldl (fun vols s => addStepVolumes vols s.VolumeMounts) volumes =
      addStepVolumes volumes (buildSteps.map (fun s => s.VolumeMounts)).flatten := by
  induction buildSteps generalizing volumes with
  | nil => rfl
  | cons s rest ih =>
    rw [List.foldl_cons, ih, List.map_cons, List.flatten_cons, addStepVolumes_append]

theorem GenerateTaskSpec_success_volumes (x : Externals) (cfg : Config) (build : Build)
    (buildRun : BuildRun) (buildSteps : List BuildStep) (strategyParams : List Parameter)
    (ts : TaskSpec)
    (himg : ∀ spec,
      (x.amendTaskSpecWithImageMutate cfg spec build.Spec.Output).Volumes = spec.Volumes)
    (h : GenerateTaskSpec x cfg build buildRun buildSteps strategyParams = (some ts, none)) :
    ts.Volumes = addStepVolumes (declareTaskSpec x cfg build strategyParams).Volumes
      (buildSteps.map (fun s => s.VolumeMounts)).flatten := by
  have hts := GenerateTaskSpec_success_steps x cfg build buildRun buildSteps strategyParams ts h
  rw [hts, ← stepVolumes_eq]
  unfold amendImageMutate
  split
  · rw [himg]
  · rfl

/-- C31: when `GenerateTaskSpec` succeeds (and the amendment for the image mutation leaves
the volumes as they are), the volumes of the task spec are the volumes it has before
the loop over the strategy steps followed by the appended ones; the appended volumes
have pairwise distinct names, each of them the name of a volume mount of a strategy
step and not the name of a volume that was there before; every volume mount name of
every strategy step is the name of a volume of the task spec; and if the names were
pairwise distinct before the loop they are so after it. -/
theorem strategy_step_volumes (x : Externals) (cfg : Config) (build : Build)
    (buildRun : BuildRun) (buildSteps : List BuildStep) (strategyParams : List Parameter)
    (ts : TaskSpec)
    (himg : ∀ spec,
      (x.amendTaskSpecWithImageMutate cfg spec build.Spec.Output).Volumes = spec.Volumes)
    (h : GenerateTaskSpec x cfg build buildRun buildSteps strategyParams = (some ts, none)) :
    ∃ added : List Volume,
      ts.Volumes = (declareTaskSpec x cfg build strategyParams).Volumes ++ added ∧
      (added.map (fun v => v.Name)).Nodup ∧
      (∀ v ∈ added,
        v.Name ∉ (declareTaskSpec x cfg build strategyParams).Volumes.map (fun v => v.Name) ∧
        ∃ s ∈ buildSteps, ∃ m ∈ s.VolumeMounts, m.Name = v.Name) ∧
      (∀ s ∈ buildSteps, ∀ m ∈ s.VolumeMounts, ∃ v ∈ ts.Volumes, v.Name = m.Name) ∧
      (((declareTaskSpec x cfg build strategyParams).Volumes.map (fun v => v.Name)).Nodup →
        (ts.Volumes.map (fun v => v.Name)).Nodup) := by
  have hvol := GenerateTaskSpec_success_volumes x cfg build buildRun buildSteps strategyParams
    ts himg h
  obtain ⟨added, heq, hnd, hnew, hcov⟩ :=
    addStepVolumes_spec (declareTaskSpec x cfg build strategyParams).Volumes
      (buildSteps.map (fun s => s.VolumeMounts)).flatten
  refine ⟨added, hvol.trans heq, hnd, ?_, ?_, ?_⟩
  · intro v hv
    refine ⟨(hnew v hv).1, ?_⟩
    have hmem := (hnew v hv).2
    rw [List.mem_map] at hmem
    obtain ⟨m, hm, hname⟩ := hmem
    rw [List.mem_flatten] at hm
    obtain ⟨ms, hms, hmms⟩ := hm
    rw [List.mem_map] at hms
    obtain ⟨s, hs, rfl⟩ := hms
    exact ⟨s, hs, m, hmms, hname⟩
  · intro s hs m hm
    have hmem : m ∈ (buildSteps.map (fun s => s.VolumeMounts)).flatten := by
      rw [List.mem_flatten]
      exact ⟨s.VolumeMounts, List.mem_map.mpr ⟨s, hs, rfl⟩, hm⟩
    have := hcov m hmem
    rw [List.mem_map] at this
    obtain ⟨v, hv, hname⟩ := this
    rw [hvol, heq]
    exact ⟨v, hv, hname⟩
  · intro hold
    rw [hvol, heq, List.map_append, List.nodup_append]
    refine ⟨hold, hnd, ?_⟩
    intro name h1 h2
    rw [List.mem_map] at h2
    obtain ⟨v, hv, rfl⟩ := h2
    exact (hnew v hv).1 h1

/-- Witness of C31: three strategy steps, of which the first and the third mount `cache`
and the second mounts `data` and `cache`; the task has the two volumes `cache` and
`data`. -/
theorem strategy_step_volumes_witness :
    (GenerateTaskSpec sampleExternals sampleConfig (sampleBuild [] [] none)
        (sampleBuildRun [] [] none none)
        [ { toContainer := { emptyContainer with
              Name := "s1", VolumeMounts := [⟨"cache", "/cache", false⟩] } },
          { toContainer := { emptyContainer with
              Name := "s2",
              VolumeMounts := [⟨"data", "/data", false⟩, ⟨"cache", "/var/cache", true⟩] } },
          { toContainer := { emptyContainer with
              Name := "s3", VolumeMounts := [⟨"cache", "/cache", false⟩] } } ]
        []).1.map (fun t => t.Volumes.map (fun v => v.Name)) = some ["cache", "data"] ∧
    ∃ ts : TaskSpec, (ts.Volumes.map (fun v => v.Name)).Nodup ∧
      GenerateTaskSpec sampleExternals sampleConfig (sampleBuild [] [] none)
        (sampleBuildRun [] [] none none)
        [ { toContainer := { emptyContainer with
              Name := "s1", VolumeMounts := [⟨"cache", "/cache", false⟩] } },
          { toContainer := { emptyContainer with
              Name := "s2",
              VolumeMounts := [⟨"data", "/data", false⟩, ⟨"cache", "/var/cache", true⟩] } },
          { toContainer := { emptyContainer with
              Name := "s3", VolumeMounts := [⟨"cache", "/cache", false⟩] } } ]
        [] = (some ts, none) := by
  refine ⟨by decide, _, ?_, rfl⟩
  obtain ⟨added, _, _, _, _, hnodup⟩ := strategy_step_volumes sampleExternals sampleConfig
    (sampleBuild [] [] none) (sampleBuildRun [] [] none none)
    [ { toContainer := { emptyContainer with
          Name := "s1", VolumeMounts := [⟨"cache", "/cache", false⟩] } },
      { toContainer := { emptyContainer with
          Name := "s2",
          VolumeMounts := [⟨"data", "/data", false⟩, ⟨"cache", "/var/cache", true⟩] } },
      { toContainer := { emptyContainer with
          Name := "s3", VolumeMounts := [⟨"cache", "/cache", false⟩] } } ]
    [] _ (fun _ => rfl) rfl
  exact hnodup (by decide)

/-! ## Registration of the strategy parameters -/

/-- C32: when `GenerateTaskSpec` succeeds (and the amendments for the sources and for the
image mutation add no parameter), the parameters of the task spec are the built-in
parameters (with `BUILDER_IMAGE` if the Build has a builder) followed by one entry per
strategy parameter, in the given order; the entry has the name and the description of
the strategy parameter, and its default is the string value of the strategy default
if the strategy parameter has one and otherwise absent. -/
theorem strategy_parameters_registered (x : Externals) (cfg : Config) (build : Build)
    (buildRun : BuildRun) (buildSteps : List BuildStep) (strategyParams : List Parameter)
    (ts : TaskSpec)
    (hsrc : ∀ spec, (x.AmendTaskSpecWithSources cfg spec build).Params = spec.Params)
    (himg : ∀ spec,
      (x.amendTaskSpecWithImageMutate cfg spec build.Spec.Output).Params = spec.Params)
    (h : GenerateTaskSpec x cfg build buildRun buildSteps strategyParams = (some ts, none)) :
    ∃ (builtin registered : List ParamSpec),
      ts.Params = builtin ++ registered ∧
      builtin.map (fun p => p.Name) =
        [ "DOCKERFILE", "CONTEXT_DIR", "shp-output-image", "shp-source-context",
          "shp-source-root" ] ++
        (if build.Spec.Builder ≠ none then ["BUILDER_IMAGE"] else []) ∧
      registered.length = strategyParams.length ∧
      List.Forall₂
        (fun (p : Parameter) (entry : ParamSpec) =>
          entry.Name = p.Name ∧ entry.Description = p.Description ∧
          (entry.Default ≠ none ↔ p.Default ≠ none) ∧
          (∀ d, p.Default = some d →
            entry.Default = some { Type_ := "string", StringVal := d }))
        strategyParams registered := by
  have hparams := GenerateTaskSpec_params x cfg build buildRun buildSteps strategyParams ts
    hsrc himg h
  refine ⟨_, strategyParams.map strategyParamSpec, hparams, ?_, by simp, ?_⟩
  · cases hb : build.Spec.Builder with
    | none => simp [builtinParams, inputParamDockerfile, inputParamContextDir,
        prefixParamsResultsVolumes, paramOutputImage, paramSourceContext, paramSourceRoot]
    | some builder => simp [builtinParams, inputParamDockerfile, inputParamContextDir,
        prefixParamsResultsVolumes, paramOutputImage, paramSourceContext, paramSourceRoot,
        inputParamBuilder]
  · rw [List.forall₂_map_right_iff, List.forall₂_same]
    intro p _
    refine ⟨rfl, rfl, ?_, ?_⟩
    · cases hd : p.Default <;> simp [strategyParamSpec, hd]
    · intro d hd
      simp [strategyParamSpec, hd, ParamTypeString]

/-- Witness of C32: the strategy parameters `a` (without default) and `b` (default `x`)
are registered after the five built-in parameters, in this order. -/
theorem strategy_parameters_registered_witness :
    (GenerateTaskSpec sampleExternals sampleConfig (sampleBuild [] [] none)
        (sampleBuildRun [] [] none none) [sampleStep "s1" []]
        [⟨"a", "first", none⟩, ⟨"b", "second", some "x"⟩]).1.map
      (fun t => (t.Params.drop 5).map (fun p => (p.Name, p.Description, p.Default))) =
      some [("a", "first", none), ("b", "second", some ⟨"string", "x"⟩)] := by
  obtain ⟨builtin, registered, _, _, _, _⟩ := strategy_parameters_registered sampleExternals
    sampleConfig (sampleBuild [] [] none) (sampleBuildRun [] [] none none) [sampleStep "s1" []]
    [⟨"a", "first", none⟩, ⟨"b", "second", some "x"⟩] _ (fun _ => rfl) (fun _ => rfl) rfl
  decide

/-! ## Decimal rendering and parsing -/

theorem digitChar_value (k : Nat) (hk : k < 10) :
    (Nat.digitChar k).toNat - '0'.toNat = k ∧ (Nat.digitChar k).isDigit = true := by
  interval_cases k <;> exact ⟨rfl, rfl⟩

theorem toDigitsCore_value (fuel n : Nat) (ds : List Char) (h : n < fuel) :
    (Nat.toDigitsCore 10 fuel n ds).foldl (fun n c => 10 * n + (c.toNat - '0'.toNat)) 0 =
      ds.foldl (fun n c => 10 * n + (c.toNat - '0'.toNat)) n := by
  induction fuel generalizing n ds with
  | zero => exact absurd h (Nat.not_lt_zero _)
  | succ fuel ih =>
    have hd := (digitChar_value (n % 10) (Nat.mod_lt _ (by decide))).1
    unfold Nat.toDigitsCore
    by_cases hz : n / 10 = 0
    · simp only [hz, if_true, List.foldl_cons]
      rw [hd]
      have : n % 10 = n := by omega
      rw [this]
      simp
    · simp only [hz, if_false]
      rw [ih (n / 10) _ (by omega), List.foldl_cons, hd]
      have : 10 * (n / 10) + n % 10 = n := by omega
      rw [this]

theorem toDigitsCore_all_digits (fuel n : Nat) (ds : List Char)
    (h : ds.all Char.isDigit = true) :
    (Nat.toDigitsCore 10 fuel n ds).all Char.isDigit = true := by
  induction fuel generalizing n ds with
  | zero => exact h
  | succ fuel ih =>
    have hd := (digitChar_value (n % 10) (Nat.mod_lt _ (by decide))).2
    unfold Nat.toDigitsCore
    have hcons : (Nat.digitChar (n % 10) :: ds).all Char.isDigit = true := by
      rw [List.all_cons, hd, h]
      rfl
    by_cases hz : n / 10 = 0
    · simp only [hz, if_true]
      exact hcons
    · simp only [hz, if_false]
      exact ih _ _ hcons

theorem toDigitsCore_ne_nil (fuel n : Nat) (ds : List Char) (h : ds ≠ [] ∨ 0 < fuel) :
    Nat.toDigitsCore 10 fuel n ds ≠ [] := by
  induction fuel generalizing n ds with
  | zero =>
    rcases h with h | h
    · exact h
    · exact absurd h (Nat.lt_irrefl _)
  | succ fuel ih =>
    unfold Nat.toDigitsCore
    by_cases hz : n / 10 = 0
    · simp only [hz, if_true]
      exact List.cons_ne_nil _ _
    · simp only [hz, if_false]
      exact ih _ _ (Or.inl (List.cons_ne_nil _ _))

theorem parseDigits_toDigits (n : Nat) : parseDigits (Nat.toDigits 10 n) = some n := by
  unfold parseDigits Nat.toDigits
  rw [if_pos ⟨toDigitsCore_ne_nil _ _ _ (Or.inr (Nat.succ_pos _)),
    toDigitsCore_all_digits _ _ _ rfl⟩, toDigitsCore_value _ _ _ (Nat.lt_succ_self _)]
  rfl

theorem toString_nat_data (n : Nat) : (toString n).data = Nat.toDigits 10 n :=
  rfl

theorem Atoi_toString_nat (n : Nat) : Atoi (toString n) = some (n : Int) := by
  have hp := parseDigits_toDigits n
  have hne : Nat.toDigits 10 n ≠ [] := toDigitsCore_ne_nil _ _ _ (Or.inr (Nat.succ_pos _))
  have hall : (Nat.toDigits 10 n).all Char.isDigit = true :=
    toDigitsCore_all_digits _ _ _ rfl
  unfold Atoi
  rw [toString_nat_data]
  cases hcs : Nat.toDigits 10 n with
  | nil => exact absurd hcs hne
  | cons c cs =>
    rw [hcs] at hp hall
    have hc : c.isDigit = true := by
      rw [List.all_cons, Bool.and_eq_true] at hall
      exact hall.1
    have h1 : c ≠ '-' := by
      intro he
      rw [he] at hc
      exact Bool.noConfusion hc
    have h2 : c ≠ '+' := by
      intro he
      rw [he] at hc
      exact Bool.noConfusion hc
    simp only [if_neg h1, if_neg h2, hp, Option.map_some']

theorem Atoi_FormatInt (i : Int) : Atoi (FormatInt i) = some i := by
  cases i with
  | ofNat n => exact Atoi_toString_nat n
  | negSucc n =>
    have hdata : (FormatInt (Int.negSucc n)).data = '-' :: Nat.toDigits 10 (n + 1) := rfl
    unfold Atoi
    rw [hdata]
    simp only [if_true, parseDigits_toDigits, Option.map_some']
    rfl

/-! ## The source steps in normal form -/

theorem sources.AppendBundleStep_eq (x : sources.Externals) (cfg : Config) (taskSpec : TaskSpec)
    (source : Source) (buildStrategySteps : List BuildStep) (n : String)
    (bundleContainer : BundleContainer) (hb : source.BundleContainer = some bundleContainer) :
    sources.AppendBundleStep x cfg taskSpec source buildStrategySteps n =
      some
        { Params := taskSpec.Params,
          Workspaces := taskSpec.Workspaces,
          Results := taskSpec.Results ++
            [ { Name := sources.sprintfSourceImageDigest sources.prefixParamsResultsVolumes n,
                Description := "The digest of the bundle image." } ],
          Volumes :=
            (match source.Credentials with
              | some credentials => (sources.AppendSecretVolume taskSpec credentials).Volumes
              | none => taskSpec.Volumes),
          Steps := taskSpec.Steps ++
            [sources.UpdateSecurityContext x
              (sources.bundleStepConfigured x cfg source bundleContainer n)
              buildStrategySteps] } := by
  unfold sources.AppendBundleStep sources.bundleStepConfigured sources.bundleStepArgs
  rw [hb]
  cases hc : source.Credentials with
  | none =>
    by_cases hp : bundleContainer.Prune = some x.PruneAfterPull
    · simp only [hp, if_true]
      rfl
    · simp only [hp, if_false]
      rfl
  | some credentials =>
    dsimp only
    rw [sources.AppendSecretVolume_results]
    by_cases h : ∃ v ∈ taskSpec.Volumes, v.Secret ≠ none ∧
        v.Name = sources.prefixParamsResultsVolumes ++ credentials
    · rw [sources.AppendSecretVolume_of_present taskSpec credentials h]
      by_cases hp : bundleContainer.Prune = some x.PruneAfterPull
      · simp only [hp, if_true]
      · simp only [hp, if_false]
        rfl
    · rw [sources.AppendSecretVolume_of_absent taskSpec credentials h]
      by_cases hp : bundleContainer.Prune = some x.PruneAfterPull
      · simp only [hp, if_true]
      · simp only [hp, if_false]
        rfl

/-! ## The git step and the bundle step -/

/-- C33: for every git source (its URL is set) and name `n`, `AppendGitStep` appends exactly
one step at the end of the steps of the task and leaves the existing steps as they are;
the step is named `source-<n>`; its args are `--url` with the URL, `--target`, the three
`--result-file-*` arguments with the paths of the three result slots that the function
declares for `n`, and the two error result files, followed in this order by `--revision`
with the revision if and only if the revision is set, `--git-url-rewrite` if and only
if the configuration has the rewrite rule, and `--secret-path` with the mount path if
and only if the credentials are set. -/
theorem git_step_appended (x : sources.Externals) (cfg : Config) (taskSpec : TaskSpec)
    (source : Source) (buildStrategySteps : List BuildStep) (n url : String)
    (hurl : source.URL = some url) :
    ∃ (t : TaskSpec) (gitStep : Step) (sha author branch : String),
      sources.AppendGitStep x cfg taskSpec source buildStrategySteps n = some t ∧
      t.Steps = taskSpec.Steps ++ [gitStep] ∧
      gitStep.Name = "source-" ++ n ∧
      t.Results.map (fun r => r.Name) =
        taskSpec.Results.map (fun r => r.Name) ++ [sha, author, branch] ∧
      gitStep.Args =
        [ "--url", url, "--target", "$(params.shp--source-root)",
          "--result-file-commit-sha", "$(results." ++ sha ++ ".path)",
          "--result-file-commit-author", "$(results." ++ author ++ ".path)",
          "--result-file-branch-name", "$(results." ++ branch ++ ".path)",
          "--result-file-error-message", "$(results.shp--error-message.path)",
          "--result-file-error-reason", "$(results.shp--error-reason.path)" ] ++
        (match source.Revision with
          | some revision => ["--revision", revision]
          | none => []) ++
        (if cfg.GitRewriteRule = true then ["--git-url-rewrite"] else []) ++
        (if source.Credentials ≠ none then ["--secret-path", "/workspace/shp--source-secret"]
          else []) := by
  refine ⟨_, _,
    sources.sprintfSourceSlot sources.prefixParamsResultsVolumes n sources.commitSHAResult,
    sources.sprintfSourceSlot sources.prefixParamsResultsVolumes n sources.commitAuthorResult,
    sources.sprintfSourceSlot sources.prefixParamsResultsVolumes n sources.branchName,
    sources.AppendGitStep_eq x cfg taskSpec source buildStrategySteps n url hurl, rfl, rfl,
    ?_, ?_⟩
  · simp only [List.map_append, List.map_cons, List.map_nil]
  · simp only [sources.withRunAs, sources.UpdateSecurityContext, sources.gitStepConfigured,
      sources.gitStepArgs]
    cases hc : source.Credentials <;> rfl

/-- Witness of C33: a git source with revision `main` and credentials `cred`, without the
rewrite rule. -/
theorem git_step_appended_witness :
    (sources.AppendGitStep sources.sampleExternals sampleConfig (sources.sampleTaskSpec [])
        (sources.sampleGitSource (some "main") (some "cred")) [] "a").map
      (fun t => t.Steps.map (fun st => (st.Name, st.Args))) =
      some [("source-a",
        [ "--url", "https://github.com/shipwright-io/sample-go",
          "--target", "$(params.shp--source-root)",
          "--result-file-commit-sha", "$(results.shp--source-a-commit-sha.path)",
          "--result-file-commit-author", "$(results.shp--source-a-commit-author.path)",
          "--result-file-branch-name", "$(results.shp--source-a-branch-name.path)",
          "--result-file-error-message", "$(results.shp--error-message.path)",
          "--result-file-error-reason", "$(results.shp--error-reason.path)",
          "--revision", "main", "--secret-path", "/workspace/shp--source-secret" ])] := by
  obtain ⟨t, gitStep, sha, author, branch, _, _, _, _, _⟩ := git_step_appended
    sources.sampleExternals sampleConfig (sources.sampleTaskSpec [])
    (sources.sampleGitSource (some "main") (some "cred")) [] "a"
    "https://github.com/shipwright-io/sample-go" rfl
  decide

/-- C34: for every bundle source (its bundle container is set) and name `n`,
`AppendBundleStep` appends exactly one step at the end of the steps of the task; the
step is named `source-<n>`; its args are `--image` with the image of the bundle,
`--target` with the reference to the source root parameter, and
`--result-file-image-digest` with the path of the result slot that the function
declares for `n`, followed by `--secret-path` with the mount path if and only if the
credentials are set, followed by `--prune` if and only if the prune option of the
bundle container is set and equals `PruneAfterPull`. -/
theorem bundle_step_appended (x : sources.Externals) (cfg : Config) (taskSpec : TaskSpec)
    (source : Source) (buildStrategySteps : List BuildStep) (n : String)
    (bundleContainer : BundleContainer) (hb : source.BundleContainer = some bundleContainer) :
    ∃ (t : TaskSpec) (bundleStep : Step) (digest : String),
      sources.AppendBundleStep x cfg taskSpec source buildStrategySteps n = some t ∧
      t.Steps = taskSpec.Steps ++ [bundleStep] ∧
      bundleStep.Name = "source-" ++ n ∧
      t.Results.map (fun r => r.Name) = taskSpec.Results.map (fun r => r.Name) ++ [digest] ∧
      bundleStep.Args =
        [ "--image", bundleContainer.Image, "--target", "$(params.shp--source-root)",
          "--result-file-image-digest", "$(results." ++ digest ++ ".path)" ] ++
        (if source.Credentials ≠ none then ["--secret-path", "/workspace/shp--pull-secret"]
          else []) ++
        (if ∃ prune, bundleContainer.Prune = some prune ∧ prune = x.PruneAfterPull
          then ["--prune"] else []) := by
  refine ⟨_, _, sources.sprintfSourceImageDigest sources.prefixParamsResultsVolumes n,
    sources.AppendBundleStep_eq x cfg taskSpec source buildStrategySteps n bundleContainer hb,
    rfl, rfl, ?_, ?_⟩
  · simp only [List.map_append, List.map_cons, List.map_nil]
  · have hprune : (∃ prune, bundleContainer.Prune = some prune ∧ prune = x.PruneAfterPull) ↔
        bundleContainer.Prune = some x.PruneAfterPull := by
      constructor
      · rintro ⟨prune, h1, h2⟩
        rw [h1, h2]
      · intro h
        exact ⟨_, h, rfl⟩
    simp only [sources.UpdateSecurityContext, sources.bundleStepConfigured,
      sources.bundleStepArgs, hprune]
    cases hc : source.Credentials <;> rfl

/-- Witness of C34: a bundle source with the credentials `cred` and the prune option
`AfterPull`. -/
theorem bundle_step_appended_witness :
    (sources.AppendBundleStep sources.sampleExternals sampleConfig (sources.sampleTaskSpec [])
        (sampleBundleSourceWith (some "cred") (some "AfterPull")) [] "a").map
      (fun t => t.Steps.map (fun st => (st.Name, st.Args))) =
      some [("source-a",
        [ "--image", "registry/bundle:latest", "--target", "$(params.shp--source-root)",
          "--result-file-image-digest", "$(results.shp--source-a-image-digest.path)",
          "--secret-path", "/workspace/shp--pull-secret", "--prune" ])] := by
  obtain ⟨t, bundleStep, digest, _, _, _, _, _⟩ := bundle_step_appended
    sources.sampleExternals sampleConfig (sources.sampleTaskSpec [])
    (sampleBundleSourceWith (some "cred") (some "AfterPull")) [] "a"
    ⟨"registry/bundle:latest", some "AfterPull"⟩ rfl
  decide

/-! ## The run-as identity of the source steps -/

theorem sources.runAsEnv_spec (securityContext : Option SecurityContext) :
    ((∃ e ∈ sources.runAsEnv securityContext, e.Name = "SHP_USER") ↔
      ∃ sc user, securityContext = some sc ∧ sc.RunAsUser = some user) ∧
    ((∃ e ∈ sources.runAsEnv securityContext, e.Name = "SHP_GROUP") ↔
      ∃ sc group, securityContext = some sc ∧ sc.RunAsGroup = some group) ∧
    (∀ sc user, securityContext = some sc → sc.RunAsUser = some user →
      ∀ e ∈ sources.runAsEnv securityContext, e.Name = "SHP_USER" →
        e.Value = FormatInt user) ∧
    (∀ sc group, securityContext = some sc → sc.RunAsGroup = some group →
      ∀ e ∈ sources.runAsEnv securityContext, e.Name = "SHP_GROUP" →
        e.Value = FormatInt group) ∧
    List.Sublist ((sources.runAsEnv securityContext).map (fun e => e.Name))
      ["SHP_USER", "SHP_GROUP"] := by
  cases securityContext with
  | none => simp [sources.runAsEnv]
  | some sc =>
    obtain ⟨user, group⟩ := sc
    cases user <;> cases group <;> simp [sources.runAsEnv]
    all_goals
      first
      | (rintro sc v rfl h
         cases h
         rfl)
      | (constructor <;>
          (rintro sc v rfl h
           cases h
           rfl))

/-- C35: for the git step that `AppendGitStep` builds, the env is the env of the step
after the update of its security context followed by the added variables; among the
added variables there is `SHP_USER` if and only if the security context of the step
has a run-as user, and `SHP_GROUP` if and only if it has a run-as group; the value of
each is the decimal rendering of the id, which `Atoi` parses back to the id; and the
names of the added variables form a sublist of `SHP_USER`, `SHP_GROUP`, so that each
occurs at most once and `SHP_USER` precedes `SHP_GROUP`. -/
theorem git_step_run_as_env (x : sources.Externals) (cfg : Config) (taskSpec : TaskSpec)
    (source : Source) (buildStrategySteps : List BuildStep) (n url : String)
    (hurl : source.URL = some url) :
    ∃ (t : TaskSpec) (gitStep : Step) (added : List EnvVar),
      sources.AppendGitStep x cfg taskSpec source buildStrategySteps n = some t ∧
      t.Steps = taskSpec.Steps ++ [gitStep] ∧
      gitStep.SecurityContext =
        (sources.UpdateSecurityContext x (sources.gitStepConfigured x cfg source url n)
          buildStrategySteps).SecurityContext ∧
      gitStep.Env =
        (sources.UpdateSecurityContext x (sources.gitStepConfigured x cfg source url n)
          buildStrategySteps).Env ++ added ∧
      ((∃ e ∈ added, e.Name = "SHP_USER") ↔
        ∃ sc user, gitStep.SecurityContext = some sc ∧ sc.RunAsUser = some user) ∧
      ((∃ e ∈ added, e.Name = "SHP_GROUP") ↔
        ∃ sc group, gitStep.SecurityContext = some sc ∧ sc.RunAsGroup = some group) ∧
      (∀ sc user, gitStep.SecurityContext = some sc → sc.RunAsUser = some user →
        ∀ e ∈ added, e.Name = "SHP_USER" →
          e.Value = FormatInt user ∧ Atoi e.Value = some user) ∧
      (∀ sc group, gitStep.SecurityContext = some sc → sc.RunAsGroup = some group →
        ∀ e ∈ added, e.Name = "SHP_GROUP" →
          e.Value = FormatInt group ∧ Atoi e.Value = some group) ∧
      List.Sublist (added.map (fun e => e.Name)) ["SHP_USER", "SHP_GROUP"] := by
  obtain ⟨h1, h2, h3, h4, h5⟩ := sources.runAsEnv_spec
    (sources.UpdateSecurityContext x (sources.gitStepConfigured x cfg source url n)
      buildStrategySteps).SecurityContext
  refine ⟨_, _, _,
    sources.AppendGitStep_eq x cfg taskSpec source buildStrategySteps n url hurl, rfl, rfl,
    rfl, h1, h2, ?_, ?_, h5⟩
  · intro sc user hsc hu e he hname
    have hv := h3 sc user hsc hu e he hname
    exact ⟨hv, by rw [hv]; exact Atoi_FormatInt user⟩
  · intro sc group hsc hg e he hname
    have hv := h4 sc group hsc hg e he hname
    exact ⟨hv, by rw [hv]; exact Atoi_FormatInt group⟩

/-- Witness of C35: the step template runs as user 1000 and group 0; the git step gets
`SHP_USER=1000` and `SHP_GROUP=0`, in this order. -/
theorem git_step_run_as_env_witness :
    (sources.AppendGitStep sources.sampleExternals
        { sampleConfig with
          GitContainerTemplate :=
            { toContainer := { emptyContainer with
                Env := [⟨"HOME", "/tekton/home"⟩],
                SecurityContext := some ⟨some 1000, some 0⟩ } } }
        (sources.sampleTaskSpec []) (sources.sampleGitSource none none) [] "a").map
      (fun t => t.Steps.map (fun st => st.Env)) =
      some [[⟨"HOME", "/tekton/home"⟩, ⟨"SHP_USER", "1000"⟩, ⟨"SHP_GROUP", "0"⟩]] ∧
    Atoi "1000" = some 1000 := by
  obtain ⟨t, gitStep, added, _, _, _, _, _, _, _, _, _⟩ := git_step_run_as_env
    sources.sampleExternals
    { sampleConfig with
      GitContainerTemplate :=
        { toContainer := { emptyContainer with
            Env := [⟨"HOME", "/tekton/home"⟩],
            SecurityContext := some ⟨some 1000, some 0⟩ } } }
    (sources.sampleTaskSpec []) (sources.sampleGitSource none none) [] "a"
    "https://github.com/shipwright-io/sample-go" rfl
  decide

/-- Counterexample to C36: the bundle step template runs as user 1000 and group 1000, which
is the resolved security context of the bundle step; the env of the bundle step is
empty, it has neither `SHP_USER` nor `SHP_GROUP`. -/
theorem bundle_step_run_as_env_counterexample :
    (sources.AppendBundleStep sources.sampleExternals
        { sampleConfig with
          BundleContainerTemplate :=
            { toContainer := { emptyContainer with
                SecurityContext := some ⟨some 1000, some 1000⟩ } } }
        (sources.sampleTaskSpec []) (sampleBundleSourceWith none none) [] "a").map
      (fun t => t.Steps.map (fun st => (st.SecurityContext, st.Env))) =
      some [(some ⟨some 1000, some 1000⟩, [])] := by
  decide

/-- C36 (amended): for every bundle source (its bundle container is set), the bundle step
that `AppendBundleStep` appends has the security context that
`steps.UpdateSecurityContext` resolves, and its env is the env of the step after that
update, to which nothing is added: whatever the run-as user and group are, the env is
that of the bundle step template. -/
theorem bundle_step_env_unchanged (x : sources.Externals) (cfg : Config) (taskSpec : TaskSpec)
    (source : Source) (buildStrategySteps : List BuildStep) (n : String)
    (bundleContainer : BundleContainer) (hb : source.BundleContainer = some bundleContainer) :
    ∃ (t : TaskSpec) (bundleStep : Step),
      sources.AppendBundleStep x cfg taskSpec source buildStrategySteps n = some t ∧
      t.Steps = taskSpec.Steps ++ [bundleStep] ∧
      bundleStep.SecurityContext =
        x.resolveSecurityContext (sources.bundleStepConfigured x cfg source bundleContainer n)
          buildStrategySteps ∧
      bundleStep.Env =
        (sources.UpdateSecurityContext x
          (sources.bundleStepConfigured x cfg source bundleContainer n) buildStrategySteps).Env ∧
      bundleStep.Env = cfg.BundleContainerTemplate.Env :=
  ⟨_, _,
    sources.AppendBundleStep_eq x cfg taskSpec source buildStrategySteps n bundleContainer hb,
    rfl, rfl, rfl, rfl⟩

/-- Witness of C36 (amended): the bundle step template has the variable `HOME` and runs as
user 1000; the bundle step has the env of the template. -/
theorem bundle_step_env_unchanged_witness :
    (sources.AppendBundleStep sources.sampleExternals
        { sampleConfig with
          BundleContainerTemplate :=
            { toContainer := { emptyContainer with
                Env := [⟨"HOME", "/tekton/home"⟩],
                SecurityContext := some ⟨some 1000, none⟩ } } }
        (sources.sampleTaskSpec []) (sampleBundleSourceWith none none) [] "a").map
      (fun t => t.Steps.map (fun st => st.Env)) = some [[⟨"HOME", "/tekton/home"⟩]] := by
  obtain ⟨t, bundleStep, _, _, _, _, _⟩ := bundle_step_env_unchanged sources.sampleExternals
    { sampleConfig with
      BundleContainerTemplate :=
        { toContainer := { emptyContainer with
            Env := [⟨"HOME", "/tekton/home"⟩],
            SecurityContext := some ⟨some 1000, none⟩ } } }
    (sources.sampleTaskSpec []) (sampleBundleSourceWith none none) [] "a"
    ⟨"registry/bundle:latest", none⟩ rfl
  decide

/-! ## Agreement of the source step builders and the result extractors -/

/-- C37: for every source name `n`, the three results that `AppendGitStep` declares have
the names `sha`, `author` and `branch` such that the `--result-file-commit-sha`,
`--result-file-commit-author` and `--result-file-branch-name` arguments of the git step
are the paths `$(results.<key>.path)` of these names, and `AppendGitResult` looks up
these names and no other: its outcome is the same for two lookup functions that agree
on them, and the source result it records holds the values found for them.  Likewise
the result that `AppendBundleStep` declares has the name `digest`, which the
`--result-file-image-digest` argument references and `AppendBundleResult` looks up. -/
theorem slot_keys_agree (x y : sources.Externals) (cfg : Config) (taskSpec : TaskSpec)
    (source : Source) (buildStrategySteps : List BuildStep) (n url : String)
    (bundleContainer : BundleContainer) (buildRun : BuildRun)
    (results : List TaskRunResult) :
    (∃ (t : TaskSpec) (gitStep : Step) (sha author branch : String),
      sources.AppendGitStep x cfg taskSpec { source with URL := some url }
        buildStrategySteps n = some t ∧
      t.Steps = taskSpec.Steps ++ [gitStep] ∧
      t.Results.map (fun r => r.Name) =
        taskSpec.Results.map (fun r => r.Name) ++ [sha, author, branch] ∧
      (gitStep.Args.drop 4).take 6 =
        [ "--result-file-commit-sha", "$(results." ++ sha ++ ".path)",
          "--result-file-commit-author", "$(results." ++ author ++ ".path)",
          "--result-file-branch-name", "$(results." ++ branch ++ ".path)" ] ∧
      (x.findResultValue results sha = y.findResultValue results sha →
        x.findResultValue results author = y.findResultValue results author →
        x.findResultValue results branch = y.findResultValue results branch →
        sources.AppendGitResult x buildRun n results =
          sources.AppendGitResult y buildRun n results) ∧
      (sources.AppendGitResult x buildRun n results = buildRun ∨
        (sources.AppendGitResult x buildRun n results).Status.Sources =
          buildRun.Status.Sources ++
            [{ Name := n,
               Git := some
                 { CommitSha := x.findResultValue results sha,
                   CommitAuthor := x.findResultValue results author,
                   BranchName := x.findResultValue results branch },
               Bundle := none }])) ∧
    (∃ (t : TaskSpec) (bundleStep : Step) (digest : String),
      sources.AppendBundleStep x cfg taskSpec
        { source with BundleContainer := some bundleContainer } buildStrategySteps n = some t ∧
      t.Steps = taskSpec.Steps ++ [bundleStep] ∧
      t.Results.map (fun r => r.Name) = taskSpec.Results.map (fun r => r.Name) ++ [digest] ∧
      (bundleStep.Args.drop 4).take 2 =
        [ "--result-file-image-digest", "$(results." ++ digest ++ ".path)" ] ∧
      (x.findResultValue results digest = y.findResultValue results digest →
        sources.AppendBundleResult x buildRun n results =
          sources.AppendBundleResult y buildRun n results) ∧
      (sources.AppendBundleResult x buildRun n results = buildRun ∨
        (sources.AppendBundleResult x buildRun n results).Status.Sources =
          buildRun.Status.Sources ++
            [{ Name := n, Git := none,
               Bundle := some { Digest := x.findResultValue results digest } }])) := by
  constructor
  · refine ⟨_, _,
      sources.sprintfSourceSlot sources.prefixParamsResultsVolumes n sources.commitSHAResult,
      sources.sprintfSourceSlot sources.prefixParamsResultsVolumes n sources.commitAuthorResult,
      sources.sprintfSourceSlot sources.prefixParamsResultsVolumes n sources.branchName,
      sources.AppendGitStep_eq x cfg taskSpec { source with URL := some url }
        buildStrategySteps n url rfl, rfl, ?_, rfl, ?_, ?_⟩
    · simp only [List.map_append, List.map_cons, List.map_nil]
    · intro h1 h2 h3
      unfold sources.AppendGitResult
      simp only [h1, h2, h3]
    · unfold sources.AppendGitResult
      dsimp only
      split
      · exact Or.inr rfl
      · exact Or.inl rfl
  · refine ⟨_, _, sources.sprintfSourceImageDigest sources.prefixParamsResultsVolumes n,
      sources.AppendBundleStep_eq x cfg taskSpec
        { source with BundleContainer := some bundleContainer } buildStrategySteps n
        bundleContainer rfl, rfl, ?_, rfl, ?_, ?_⟩
    · simp only [List.map_append, List.map_cons, List.map_nil]
    · intro h1
      unfold sources.AppendBundleResult
      simp only [h1]
    · unfold sources.AppendBundleResult
      dsimp only
      split
      · exact Or.inr rfl
      · exact Or.inl rfl

/-- Witness of C37: the results reported under the names that the git step of the source
`a` declares are the ones recorded for `a`; a result under another name is not. -/
theorem slot_keys_agree_witness :
    (sources.AppendGitStep sources.sampleExternals sampleConfig (sources.sampleTaskSpec [])
        (sources.sampleGitSource none none) [] "a").map
      (fun t => t.Results.map (fun r => r.Name)) =
      some ["shp--source-a-commit-sha", "shp--source-a-commit-author",
        "shp--source-a-branch-name"] ∧
    (sources.AppendGitResult sources.sampleExternals (sampleBuildRun [] [] none none) "a"
        [ ⟨"shp--source-a-commit-sha", "abc123"⟩, ⟨"shp--source-a-commit-author", "dev"⟩,
          ⟨"shp--source-a-branch-name", "main"⟩, ⟨"shp--source-b-commit-sha", "fff"⟩ ]
      ).Status.Sources =
      [{ Name := "a",
         Git := some { CommitSha := "abc123", CommitAuthor := "dev", BranchName := "main" },
         Bundle := none }] := by
  obtain ⟨⟨t, gitStep, sha, author, branch, _, _, _, _, _, _⟩, _⟩ := slot_keys_agree
    sources.sampleExternals sources.sampleExternals sampleConfig (sources.sampleTaskSpec [])
    (sources.sampleGitSource none none) [] "a" "https://github.com/shipwright-io/sample-go"
    ⟨"registry/bundle:latest", none⟩ (sampleBuildRun [] [] none none)
    [ ⟨"shp--source-a-commit-sha", "abc123"⟩, ⟨"shp--source-a-commit-author", "dev"⟩,
      ⟨"shp--source-a-branch-name", "main"⟩, ⟨"shp--source-b-commit-sha", "fff"⟩ ]
  decide

/-! ## The volume mount of the secret -/

theorem sources.AppendSecretVolume_registered (taskSpec : TaskSpec) (s : String) :
    ∃ volume ∈ (sources.AppendSecretVolume taskSpec s).Volumes,
      volume.Secret ≠ none ∧ volume.Name = sources.prefixParamsResultsVolumes ++ s := by
  by_cases h : ∃ v ∈ taskSpec.Volumes, v.Secret ≠ none ∧
      v.Name = sources.prefixParamsResultsVolumes ++ s
  · rw [sources.AppendSecretVolume_of_present taskSpec s h]
    exact h
  · rw [sources.AppendSecretVolume_of_absent taskSpec s h]
    exact ⟨_, List.mem_append_right _ (List.mem_singleton_self _), by simp, rfl⟩

/-- C38 (the code evaluated): for every source with the credentials `s`, the step that
`AppendGitStep` appends has the volume mounts of the step template followed by one
mount, whose name is `SanitizeVolumeNameForSecretName s`; the volumes of the task are
those that `AppendSecretVolume` leaves for `s`, among them a secret volume with the
name `shp-` followed by the unchanged `s`.  That volume has the name of the mount if
and only if the volume name function returns `shp-` followed by `s`; when it returns
another name, which no earlier volume has, the mount has the name of no volume of the
task.  The same holds for the step that `AppendBundleStep` appends.  For the secret
`my.secret` and a volume name function that replaces the `.`, the mount is named
`shp-my-secret` and the only volume of the task `shp-my.secret`. -/
theorem secret_mount_volume_names (x : sources.Externals) (cfg : Config)
    (taskSpec : TaskSpec) (source : Source) (buildStrategySteps : List BuildStep)
    (n url s : String) (bundleContainer : BundleContainer) :
    (∃ (t : TaskSpec) (gitStep : Step) (mount : VolumeMount) (volume : Volume),
      sources.AppendGitStep x cfg taskSpec
        { source with URL := some url, Credentials := some s } buildStrategySteps n = some t ∧
      t.Steps = taskSpec.Steps ++ [gitStep] ∧
      gitStep.VolumeMounts = cfg.GitContainerTemplate.VolumeMounts ++ [mount] ∧
      mount.Name = x.SanitizeVolumeNameForSecretName s ∧
      t.Volumes = (sources.AppendSecretVolume taskSpec s).Volumes ∧
      volume ∈ t.Volumes ∧ volume.Secret ≠ none ∧ volume.Name = "shp-" ++ s ∧
      (volume.Name = mount.Name ↔ x.SanitizeVolumeNameForSecretName s = "shp-" ++ s) ∧
      (x.SanitizeVolumeNameForSecretName s ≠ "shp-" ++ s →
        (∀ v ∈ taskSpec.Volumes, v.Name ≠ mount.Name) →
        ∀ v ∈ t.Volumes, v.Name ≠ mount.Name)) ∧
    (∃ (t : TaskSpec) (bundleStep : Step) (mount : VolumeMount) (volume : Volume),
      sources.AppendBundleStep x cfg taskSpec
        { source with BundleContainer := some bundleContainer, Credentials := some s }
        buildStrategySteps n = some t ∧
      t.Steps = taskSpec.Steps ++ [bundleStep] ∧
      bundleStep.VolumeMounts = cfg.BundleContainerTemplate.VolumeMounts ++ [mount] ∧
      mount.Name = x.SanitizeVolumeNameForSecretName s ∧
      t.Volumes = (sources.AppendSecretVolume taskSpec s).Volumes ∧
      volume ∈ t.Volumes ∧ volume.Secret ≠ none ∧ volume.Name = "shp-" ++ s ∧
      (volume.Name = mount.Name ↔ x.SanitizeVolumeNameForSecretName s = "shp-" ++ s) ∧
      (x.SanitizeVolumeNameForSecretName s ≠ "shp-" ++ s →
        (∀ v ∈ taskSpec.Volumes, v.Name ≠ mount.Name) →
        ∀ v ∈ t.Volumes, v.Name ≠ mount.Name)) ∧
    (sources.AppendGitStep sources.sanitizingExternals sampleConfig (sources.sampleTaskSpec [])
        (sources.sampleGitSource none (some "my.secret")) [] "a").map
      (fun t => (t.Steps.map (fun st => st.VolumeMounts.map (fun m => m.Name)),
        t.Volumes.map (fun v => v.Name))) =
      some ([["shp-my-secret"]], ["shp-my.secret"]) ∧
    (sources.AppendBundleStep sources.sanitizingExternals sampleConfig
        (sources.sampleTaskSpec []) (sampleBundleSourceWith (some "my.secret") none) [] "a").map
      (fun t => (t.Steps.map (fun st => st.VolumeMounts.map (fun m => m.Name)),
        t.Volumes.map (fun v => v.Name))) =
      some ([["shp-my-secret"]], ["shp-my.secret"]) := by
  obtain ⟨volume, hmem, hsecret, hvname⟩ := sources.AppendSecretVolume_registered taskSpec s
  have hvname2 : volume.Name = "shp-" ++ s := hvname
  have hiff : volume.Name = x.SanitizeVolumeNameForSecretName s ↔
      x.SanitizeVolumeNameForSecretName s = "shp-" ++ s := by
    rw [hvname2]
    exact eq_comm
  have hdangling : x.SanitizeVolumeNameForSecretName s ≠ "shp-" ++ s →
      (∀ v ∈ taskSpec.Volumes, v.Name ≠ x.SanitizeVolumeNameForSecretName s) →
      ∀ v ∈ (sources.AppendSecretVolume taskSpec s).Volumes,
        v.Name ≠ x.SanitizeVolumeNameForSecretName s := by
    intro hne hold v hv
    by_cases h : ∃ v ∈ taskSpec.Volumes, v.Secret ≠ none ∧
        v.Name = sources.prefixParamsResultsVolumes ++ s
    · rw [sources.AppendSecretVolume_of_present taskSpec s h] at hv
      exact hold v hv
    · rw [sources.AppendSecretVolume_of_absent taskSpec s h] at hv
      rcases List.mem_append.mp hv with hv | hv
      · exact hold v hv
      · rw [List.mem_singleton] at hv
        rw [hv]
        exact fun he => hne he.symm
  refine ⟨?_, ?_, by decide, by decide⟩
  · exact ⟨_, _, _, volume,
      sources.AppendGitStep_eq x cfg taskSpec
        { source with URL := some url, Credentials := some s } buildStrategySteps n url rfl,
      rfl, rfl, rfl, rfl, hmem, hsecret, hvname2, hiff, hdangling⟩
  · exact ⟨_, _, _, volume,
      sources.AppendBundleStep_eq x cfg taskSpec
        { source with BundleContainer := some bundleContainer, Credentials := some s }
        buildStrategySteps n bundleContainer rfl,
      rfl, rfl, rfl, rfl, hmem, hsecret, hvname2, hiff, hdangling⟩

end Shipwright
